import Mathlib

/-!
Verification development for the `python-ipfix` library (britram/python-ipfix).

This file shallowly embeds the parts of the library needed to settle the
frozen claims: the type codec (`ipfix/types.py`), the information-element
model (`ipfix/ie.py`), the template model (`ipfix/template.py`) and the
message buffer state machine (`ipfix/message.py`).

Modelling conventions:
* Python `bytes`/buffers are `List Nat` (each entry a byte value) or, for the
  64 KiB message buffer `mbuf`, a total function `Nat → Nat` written with
  `writeBuf` and read with `readBuf`.
* Machine integers are `Nat`/`Int`; `struct.pack` range checks become
  explicit bounds, and a failed pack (Python `struct.error`) is `none`.
* A raised Python exception is an `Except` error value; distinct exception
  classes are distinguished by the `PyErr` enumeration.  In particular a
  Python `NameError`/`AttributeError` caused by a misspelled or unbound
  identifier in the source is modelled faithfully as `PyErr.nameError` /
  `PyErr.attributeError` at the exact program point where CPython raises it.
* Python truthiness of `None`/`0` (the source tests `if not self.varlenslice`)
  is modelled by `optTruthy`.
* `datetime` values are integers of microseconds since the UNIX epoch, and
  `timestamp()` arithmetic is carried out in exact rationals (an idealisation
  of CPython's binary floating point, documented at the definitions).
-/

/-- The IPFIX variable-length sentinel (`types.VARLEN`). -/
def VARLEN : Nat := 65535

/-! ## Big-endian byte packing (`struct` module model) -/

/-- Big-endian encoding of `v` into `w` bytes (the byte list written by
`struct.pack` for an unsigned big-endian field of width `w`). -/
def encBE : Nat → Nat → List Nat
  | 0, _ => []
  | w + 1, v => encBE w (v / 256) ++ [v % 256]

/-- Big-endian decoding of a byte list (the value read by `struct.unpack`). -/
def decBE (bs : List Nat) : Nat := bs.foldl (fun a b => a * 256 + b) 0

/-! ## Buffer model: the 64 KiB `mbuf` as a total function -/

/-- Write the byte list `bs` into buffer `buf` starting at `off`
(models consecutive `pack_into` calls / memoryview slice assignment). -/
def writeBuf (buf : Nat → Nat) (off : Nat) (bs : List Nat) : Nat → Nat :=
  fun i => if off ≤ i ∧ i - off < bs.length then bs.getD (i - off) 0 else buf i

/-- Read `len` bytes from buffer `buf` starting at `off`. -/
def readBuf (buf : Nat → Nat) (off len : Nat) : List Nat :=
  (List.range len).map (fun i => buf (off + i))

/-! ## `ipfix.types`: struct element codes and the RLE table -/

/-- Single-character `struct` format codes used by the builtin types
(`B H L Q` unsigned, `b h l q` signed, `f d` floats, `s n` for `"<n>s"`). -/
inductive StEl where
  | B | H | L | Q
  | b | h | l | q
  | f | d
  | s (n : Nat)
  deriving DecidableEq, Repr

/-- `struct.calcsize` of a single element code. -/
def stelSize : StEl → Nat
  | .B => 1 | .H => 2 | .L => 4 | .Q => 8
  | .b => 1 | .h => 2 | .l => 4 | .q => 8
  | .f => 4 | .d => 8
  | .s n => n

/-- The `_stel_rle` table from `ipfix/types.py`: maps a (natural format code,
narrow length) pair to the narrower format code; every lookup not in the
table raises `IpfixTypeError` in `StructType.for_length`. -/
def stelRLE : StEl → Nat → Option StEl
  | .H, n => if n = 1 then some .B else none
  | .L, n => if n = 2 then some .H else if n = 1 then some .B else none
  | .Q, n => if n = 4 then some .L else if n = 2 then some .H else
             if n = 1 then some .B else none
  | .h, n => if n = 1 then some .b else none
  | .l, n => if n = 2 then some .h else if n = 1 then some .b else none
  | .q, n => if n = 4 then some .l else if n = 2 then some .h else
             if n = 1 then some .b else none
  | .d, n => if n = 4 then some .f else none
  | _, _ => none

/-- Tag naming the value encoder/decoder pair (`valenc`/`valdec`) attached to
a builtin type in `_Types`; `identity` is the default `_identity`. -/
inductive ValMap where
  | identity | smibool | utf8 | sec | msec | ntp | ip
  deriving DecidableEq, Repr

/-- Model of `ipfix.types.StructType`: a name, type number, a single struct
element code (from which `length` is derived), and the value-mapping tag. -/
structure StructTypeM where
  name : String
  num : Nat
  stel : StEl
  vmap : ValMap
  deriving DecidableEq, Repr

/-- Model of the `IpfixType` hierarchy: `StructType` or `OctetArrayType`. -/
inductive IpfixTypeM where
  | structTy (t : StructTypeM)
  | octetArrayTy (name : String) (num : Nat) (vmap : ValMap)
  deriving DecidableEq, Repr

/-- `self.length` of a type: struct size for packed types, `VARLEN` for
octet-array types. -/
def IpfixTypeM.length : IpfixTypeM → Nat
  | .structTy t => stelSize t.stel
  | .octetArrayTy _ _ _ => VARLEN

/-- `StructType.for_length` / `OctetArrayType.for_length` from
`ipfix/types.py`.  `none` models a raised `IpfixTypeError` (the `KeyError`
branch of the `_stel_rle` lookup).  Python's `if not length` makes a zero
length return the type unchanged. -/
def IpfixTypeM.for_length : IpfixTypeM → Nat → Option IpfixTypeM
  | .structTy t, len =>
      if len = 0 ∨ len = stelSize t.stel then some (.structTy t)
      else
        match stelRLE t.stel len with
        | some s2 => some (.structTy { t with stel := s2 })
        | none => none
  | .octetArrayTy nm num vm, len =>
      if len = 0 ∨ len = VARLEN then some (.octetArrayTy nm num vm)
      else some (.structTy { name := nm, num := num, stel := .s len, vmap := vm })

/-! The builtin type registry `_Types` from `ipfix/types.py`. -/

def octetArrayT : IpfixTypeM := .octetArrayTy "octetArray" 0 .identity
def unsigned8T : IpfixTypeM := .structTy ⟨"unsigned8", 1, .B, .identity⟩
def unsigned16T : IpfixTypeM := .structTy ⟨"unsigned16", 2, .H, .identity⟩
def unsigned32T : IpfixTypeM := .structTy ⟨"unsigned32", 3, .L, .identity⟩
def unsigned64T : IpfixTypeM := .structTy ⟨"unsigned64", 4, .Q, .identity⟩
def signed8T : IpfixTypeM := .structTy ⟨"signed8", 5, .b, .identity⟩
def signed16T : IpfixTypeM := .structTy ⟨"signed16", 6, .h, .identity⟩
def signed32T : IpfixTypeM := .structTy ⟨"signed32", 7, .l, .identity⟩
def signed64T : IpfixTypeM := .structTy ⟨"signed64", 8, .q, .identity⟩
def float32T : IpfixTypeM := .structTy ⟨"float32", 9, .f, .identity⟩
def float64T : IpfixTypeM := .structTy ⟨"float64", 10, .d, .identity⟩
def booleanT : IpfixTypeM := .structTy ⟨"boolean", 11, .B, .smibool⟩
def macAddressT : IpfixTypeM := .structTy ⟨"macAddress", 12, .s 6, .identity⟩
def stringT : IpfixTypeM := .octetArrayTy "string" 13 .utf8
def dateTimeSecondsT : IpfixTypeM := .structTy ⟨"dateTimeSeconds", 14, .L, .sec⟩
def dateTimeMillisecondsT : IpfixTypeM := .structTy ⟨"dateTimeMilliseconds", 15, .Q, .msec⟩
def dateTimeMicrosecondsT : IpfixTypeM := .structTy ⟨"dateTimeMicroseconds", 16, .Q, .ntp⟩
def dateTimeNanosecondsT : IpfixTypeM := .structTy ⟨"dateTimeNanoseconds", 17, .Q, .ntp⟩
def ipv4AddressT : IpfixTypeM := .structTy ⟨"ipv4Address", 18, .s 4, .ip⟩
def ipv6AddressT : IpfixTypeM := .structTy ⟨"ipv6Address", 19, .s 16, .ip⟩

/-! ## Python value universe and the builtin value encoders/decoders -/

/-- IEEE 754 binary32 value as its bit fields (the wire image of `struct`
code `f`).  The type codec's supported domain for `float32` is the set of
finite doubles exactly representable in binary32; on that domain the
double-to-binary32 conversion performed by `struct.pack` is the identity on
these bit fields. -/
structure Float32B where
  sign : Bool
  expo : Nat
  frac : Nat
  deriving DecidableEq, Repr

/-- IEEE 754 binary64 value as its bit fields (the wire image of `struct`
code `d`). -/
structure Float64B where
  sign : Bool
  expo : Nat
  frac : Nat
  deriving DecidableEq, Repr

/-- The Python values handled by the builtin codecs: `int`, `bool`, `bytes`
(also the packed form of `ipaddress` objects and MAC addresses), `str` as a
list of Unicode scalar values, `datetime` as microseconds since the UNIX
epoch, and floats as bit-field records. -/
inductive PyVal where
  | int (i : Int)
  | pybool (b : Bool)
  | bytes (bs : List Nat)
  | str (cs : List Nat)
  | dt (micros : Nat)
  | f32 (x : Float32B)
  | f64 (x : Float64B)
  deriving DecidableEq, Repr

/-- `_encode_smibool` from `ipfix/types.py`. -/
def smiboolEnc (x : Bool) : Nat := if x then 1 else 2

/-- `_decode_smibool` from `ipfix/types.py` (`byte == 1` is `True`, anything
else `False`). -/
def smiboolDec (byte : Nat) : Bool := byte = 1

/-- UTF-8 encoding of one Unicode scalar value (`str.encode()` per
character). -/
def utf8EncodeChar (c : Nat) : List Nat :=
  if c < 0x80 then [c]
  else if c < 0x800 then [0xC0 + c / 64, 0x80 + c % 64]
  else if c < 0x10000 then [0xE0 + c / 4096, 0x80 + c / 64 % 64, 0x80 + c % 64]
  else [0xF0 + c / 262144, 0x80 + c / 4096 % 64, 0x80 + c / 64 % 64, 0x80 + c % 64]

/-- `_encode_utf8` from `ipfix/types.py`: `string.encode()`. -/
def utf8Encode (cs : List Nat) : List Nat := (cs.map utf8EncodeChar).flatten

/-- One UTF-8 scalar value off the front of a byte list, with the remaining
bytes (carrying the fact that at least one byte was consumed).  `none` on a
malformed prefix. -/
def utf8DecodeOne : (l : List Nat) → Option (Nat × {rest : List Nat // rest.length < l.length}) :=
  fun l =>
    match l with
    | [] => none
    | b0 :: tl =>
      if b0 < 0x80 then some (b0, ⟨tl, by simp⟩)
      else if 0xC2 ≤ b0 ∧ b0 < 0xE0 then
        match tl with
        | b1 :: tl1 =>
          if 0x80 ≤ b1 ∧ b1 < 0xC0 then
            some ((b0 - 0xC0) * 64 + (b1 - 0x80), ⟨tl1, by simp; omega⟩)
          else none
        | [] => none
      else if 0xE0 ≤ b0 ∧ b0 < 0xF0 then
        match tl with
        | b1 :: b2 :: tl2 =>
          if (0x80 ≤ b1 ∧ b1 < 0xC0) ∧ (0x80 ≤ b2 ∧ b2 < 0xC0) then
            some ((b0 - 0xE0) * 4096 + (b1 - 0x80) * 64 + (b2 - 0x80),
              ⟨tl2, by simp; omega⟩)
          else none
        | _ => none
      else if 0xF0 ≤ b0 ∧ b0 < 0xF5 then
        match tl with
        | b1 :: b2 :: b3 :: tl3 =>
          if (0x80 ≤ b1 ∧ b1 < 0xC0) ∧ (0x80 ≤ b2 ∧ b2 < 0xC0) ∧
             (0x80 ≤ b3 ∧ b3 < 0xC0) then
            some ((b0 - 0xF0) * 262144 + (b1 - 0x80) * 4096 +
                  (b2 - 0x80) * 64 + (b3 - 0x80),
              ⟨tl3, by simp; omega⟩)
          else none
        | _ => none
      else none

/-- `_decode_utf8` from `ipfix/types.py`: `octets.decode()`.  Returns `none`
on a malformed sequence (Python `UnicodeDecodeError`). -/
def utf8Decode : List Nat → Option (List Nat)
  | [] => some []
  | b0 :: tl =>
    match utf8DecodeOne (b0 :: tl) with
    | some (c, rest) => (utf8Decode rest.val).map (c :: ·)
    | none => none
termination_by l => l.length
decreasing_by exact rest.property

/-- `_encode_sec`: `int(dt.timestamp())`, i.e. whole seconds (truncation) of
a non-negative microsecond timestamp. -/
def secEnc (micros : Nat) : Nat := micros / 1000000

/-- `_decode_sec`: `datetime.utcfromtimestamp(epoch)` for an integer epoch,
as microseconds. -/
def secDec (epoch : Nat) : Nat := epoch * 1000000

/-- `_encode_msec`: `int(dt.timestamp() * 1000)`, i.e. whole milliseconds. -/
def msecEnc (micros : Nat) : Nat := micros / 1000

/-- `_decode_msec`: `datetime.utcfromtimestamp(epoch/1000)`, as microseconds
(`epoch/1000` seconds is exactly `epoch*1000` microseconds). -/
def msecDec (epoch : Nat) : Nat := epoch * 1000

/-- `_encode_ntp`: `(tsf, tsi) = math.modf(dt.timestamp())` followed by
`int((int(tsi) << 32) + (tsf * 2**32))`.  The `timestamp()` float is
idealised as the exact rational `micros / 10^6`. -/
def ntpEnc (micros : Nat) : Nat :=
  micros / 1000000 * 2 ^ 32 + (micros % 1000000) * 2 ^ 32 / 1000000

/-- Microseconds of `datetime.utcfromtimestamp(t)` for an exact rational
timestamp `t`: the fractional second is rounded to microsecond precision. -/
def utcMicros (t : ℚ) : ℤ := round (t * 1000000)

/-- `_decode_ntp`: split the 64-bit NTP value into seconds and fraction and
rebuild the timestamp, as microseconds. -/
def ntpDec (ntp : Nat) : ℤ :=
  utcMicros ((ntp / 2 ^ 32 : Nat) + ((ntp % 2 ^ 32 : Nat) : ℚ) / 2 ^ 32)

/-- `struct.pack` of a single element code: range-checks the value (a failed
check is Python `struct.error`, modelled as `none`) and produces the
big-endian bytes.  `"<n>s"` pads short byte strings with NULs and silently
truncates long ones, as `struct` does. -/
def structPack : StEl → PyVal → Option (List Nat)
  | .B, .int i => if 0 ≤ i ∧ i < 256 then some (encBE 1 i.toNat) else none
  | .H, .int i => if 0 ≤ i ∧ i < 256 ^ 2 then some (encBE 2 i.toNat) else none
  | .L, .int i => if 0 ≤ i ∧ i < 256 ^ 4 then some (encBE 4 i.toNat) else none
  | .Q, .int i => if 0 ≤ i ∧ i < 256 ^ 8 then some (encBE 8 i.toNat) else none
  | .b, .int i => if -(2 ^ 7) ≤ i ∧ i < 2 ^ 7 then
      some (encBE 1 (i % 256 ^ 1).toNat) else none
  | .h, .int i => if -(2 ^ 15) ≤ i ∧ i < 2 ^ 15 then
      some (encBE 2 (i % 256 ^ 2).toNat) else none
  | .l, .int i => if -(2 ^ 31) ≤ i ∧ i < 2 ^ 31 then
      some (encBE 4 (i % 256 ^ 4).toNat) else none
  | .q, .int i => if -(2 ^ 63) ≤ i ∧ i < 2 ^ 63 then
      some (encBE 8 (i % 256 ^ 8).toNat) else none
  | .f, .f32 x => if x.expo < 2 ^ 8 ∧ x.frac < 2 ^ 23 then
      some (encBE 4 ((if x.sign then 2 ^ 31 else 0) + x.expo * 2 ^ 23 + x.frac))
      else none
  | .d, .f64 x => if x.expo < 2 ^ 11 ∧ x.frac < 2 ^ 52 then
      some (encBE 8 ((if x.sign then 2 ^ 63 else 0) + x.expo * 2 ^ 52 + x.frac))
      else none
  | .s n, .bytes bs => some (bs.take n ++ List.replicate (n - bs.length) 0)
  | _, _ => none

/-- `struct.unpack_from` of a single element code at `off` in buffer `buf`. -/
def structUnpackFrom (s : StEl) (buf : Nat → Nat) (off : Nat) : PyVal :=
  match s with
  | .B => .int (decBE (readBuf buf off 1))
  | .H => .int (decBE (readBuf buf off 2))
  | .L => .int (decBE (readBuf buf off 4))
  | .Q => .int (decBE (readBuf buf off 8))
  | .b => .int (let u := decBE (readBuf buf off 1)
                if u < 2 ^ 7 then (u : Int) else (u : Int) - 256 ^ 1)
  | .h => .int (let u := decBE (readBuf buf off 2)
                if u < 2 ^ 15 then (u : Int) else (u : Int) - 256 ^ 2)
  | .l => .int (let u := decBE (readBuf buf off 4)
                if u < 2 ^ 31 then (u : Int) else (u : Int) - 256 ^ 4)
  | .q => .int (let u := decBE (readBuf buf off 8)
                if u < 2 ^ 63 then (u : Int) else (u : Int) - 256 ^ 8)
  | .f => .f32 (let u := decBE (readBuf buf off 4)
                ⟨2 ^ 31 ≤ u, u / 2 ^ 23 % 2 ^ 8, u % 2 ^ 23⟩)
  | .d => .f64 (let u := decBE (readBuf buf off 8)
                ⟨2 ^ 63 ≤ u, u / 2 ^ 52 % 2 ^ 11, u % 2 ^ 52⟩)
  | .s n => .bytes (readBuf buf off n)

/-- The value encoder (`valenc`, native Python value to wire representation)
selected by a `ValMap` tag.  `none` models the exception CPython raises when
the encoder is applied to a value of the wrong native type. -/
def applyValenc : ValMap → PyVal → Option PyVal
  | .identity, v => some v
  | .smibool, .pybool x => some (.int (smiboolEnc x))
  | .utf8, .str cs => some (.bytes (utf8Encode cs))
  | .sec, .dt m => some (.int (secEnc m))
  | .msec, .dt m => some (.int (msecEnc m))
  | .ntp, .dt m => some (.int (ntpEnc m))
  | .ip, .bytes bs => some (.bytes bs)
  | _, _ => none

/-- The value decoder (`valdec`, wire representation back to native Python
value) selected by a `ValMap` tag. -/
def applyValdec : ValMap → PyVal → Option PyVal
  | .identity, v => some v
  | .smibool, .int i => some (.pybool (smiboolDec i.toNat))
  | .utf8, .bytes bs => (utf8Decode bs).map .str
  | .sec, .int i => some (.dt (secDec i.toNat))
  | .msec, .int i => some (.dt (msecDec i.toNat))
  | .ntp, .int i => some (.dt (ntpDec i.toNat).toNat)
  | .ip, .bytes bs => some (.bytes bs)
  | _, _ => none

/-- The bytes written by `encode_single_value_to`: the value encoder's wire
representation put through `struct.pack` (packed types) or emitted raw
(octet-array types). -/
def encodeSingleBytes (ty : IpfixTypeM) (v : PyVal) : Option (List Nat) :=
  match ty with
  | .structTy st => do
      let w ← applyValenc st.vmap v
      structPack st.stel w
  | .octetArrayTy _ _ vm => do
      let w ← applyValenc vm v
      match w with
      | .bytes bs => some bs
      | _ => none

/-- `encode_single_value_to(val, buf, offset)`: write the encoded bytes into
the buffer and return the updated buffer and the new offset (`offset +
self.length` for packed types, `offset + len(enc)` for octet arrays). -/
def IpfixTypeM.encode_single_value_to (ty : IpfixTypeM) (v : PyVal)
    (buf : Nat → Nat) (off : Nat) : Option ((Nat → Nat) × Nat) :=
  match ty with
  | .structTy st =>
      (encodeSingleBytes ty v).map fun bs =>
        (writeBuf buf off bs, off + stelSize st.stel)
  | .octetArrayTy _ _ _ =>
      (encodeSingleBytes ty v).map fun bs =>
        (writeBuf buf off bs, off + bs.length)

/-- `decode_single_value_from(buf, offset, length)`: for packed types the
source asserts `self.length == length` and unpacks; octet-array types slice
`length` raw bytes.  The decoded wire value is put through the value
decoder. -/
def IpfixTypeM.decode_single_value_from (ty : IpfixTypeM) (buf : Nat → Nat)
    (off length : Nat) : Option PyVal :=
  match ty with
  | .structTy st =>
      if stelSize st.stel = length then
        applyValdec st.vmap (structUnpackFrom st.stel buf off)
      else none
  | .octetArrayTy _ _ vm => applyValdec vm (.bytes (readBuf buf off length))

/-- The doctest round-trip pattern from `ipfix/types.py`: encode `v` at
offset 0 of a zeroed buffer, then decode it back using the number of bytes
written as the length. -/
def roundtripVal (ty : IpfixTypeM) (v : PyVal) : Option PyVal := do
  let (buf, len) ← ty.encode_single_value_to v (fun _ => 0) 0
  ty.decode_single_value_from buf 0 len

/-! ## `ipfix.ie`: Information Elements -/

/-- Model of `ipfix.ie.InformationElement`: the five-tuple of name, private
enterprise number, element number, type, and length. -/
structure IEr where
  name : String
  pen : Nat
  num : Nat
  length : Nat
  type : IpfixTypeM
  deriving DecidableEq, Repr

/-- `InformationElement.__init__`: a missing name becomes
`_ipfix_<pen>_<num>`, a zero length becomes the type's length, and the
stored type is `ietype.for_length(self.length)` (whose `IpfixTypeError` is
modelled as `none`). -/
def mkInformationElement (name : Option String) (pen num : Nat)
    (ietype : IpfixTypeM) (length : Nat) : Option IEr :=
  let nm := match name with
    | some s => s
    | none => "_ipfix_" ++ toString pen ++ "_" ++ toString num
  let len := if length ≠ 0 then length else ietype.length
  (ietype.for_length len).map fun ty =>
    { name := nm, pen := pen, num := num, length := len, type := ty }

/-- `InformationElement.__eq__`: identity is `(pen, num)` alone. -/
def IEr.eqIE (a other : IEr) : Prop := (a.pen, a.num) = (other.pen, other.num)

instance : DecidablePred fun p : IEr × IEr => p.1.eqIE p.2 := fun _ =>
  inferInstanceAs (Decidable ((_, _) = (_, _)))

/-- `InformationElement.for_length`: return `self` when the length is falsy
or unchanged, otherwise construct a new IE of the same identity at the new
length (which re-specializes the stored type and may raise). -/
def IEr.for_length (e : IEr) (length : Nat) : Option IEr :=
  if length = 0 ∨ length = e.length then some e
  else mkInformationElement (some e.name) e.pen e.num e.type length

/-- The process-wide IE registry (`_ieForNum`), as an association list keyed
by `(pen, num)`. -/
def IERegistry : Type := List ((Nat × Nat) × IEr)

/-- `ipfix.ie.for_template_entry`: look the IE up by `(pen, num)` and
specialize it to the wire length, or synthesize an unnamed octet-array IE.
(The synthesized IE is also inserted into the registry by the source; the
insertion is irrelevant to the claims settled here and is not modelled.) -/
def for_template_entry (reg : IERegistry) (pen num length : Nat) :
    Option IEr :=
  match List.lookup (pen, num) reg with
  | some e => e.for_length length
  | none => mkInformationElement none pen num octetArrayT length

/-! ## `ipfix.template`: templates and packing plans -/

/-- Python exception classes raised by the embedded code. `nameError` and
`attributeError` model CPython's `NameError` (unbound identifier, e.g. the
misspelled `IPFIXDecodeError`) and `AttributeError` (e.g. `stel` on an
`OctetArrayType`). -/
inductive PyErr where
  | endOfMessage
  | ipfixEncodeError
  | ipfixDecodeError
  | ipfixTypeError
  | nameError
  | attributeError
  | valueError
  | keyError
  | structError
  | typeError
  | eofError
  deriving DecidableEq, Repr

/-- One element of a packing plan's struct format string: a packed field
with its element code, or a `skipel` run (`"<n>x"`, `n` pad/skip bytes). -/
inductive PlanEl where
  | pk (s : StEl)
  | skip (n : Nat)
  deriving DecidableEq, Repr

/-- Model of `TemplatePackingPlan` (minus the back-reference to the owning
template, which the source only uses for `repr`): the selected indices, the
struct format elements, and the value encoder/decoder tags in pack order. -/
structure TemplatePackingPlan where
  indices : List Nat
  els : List PlanEl
  valenc : List ValMap
  valdec : List ValMap
  deriving DecidableEq, Repr

/-- Byte size of the plan's struct format (`plan.st.size`). -/
def planSize (els : List PlanEl) : Nat :=
  (els.map fun el => match el with | .pk s => stelSize s | .skip n => n).sum

/-- Model of `ipfix.template.Template`: ordered IE list plus the derived
`minlength`, `enclength`, `scopecount`, `varlenslice` and compiled default
packing plan (`none` before `finalize()`). -/
structure TemplateM where
  tid : Nat
  ies : List IEr
  minlength : Nat
  enclength : Nat
  scopecount : Nat
  varlenslice : Option Nat
  packplan : Option TemplatePackingPlan
  deriving DecidableEq, Repr

/-- Python truthiness of the `varlenslice` attribute: `None` and `0` are
both falsy.  The source tests `if not self.varlenslice:` and
`if self.varlenslice:`, so a varlen IE at index 0 behaves as if there were
none. -/
def optTruthy : Option Nat → Bool
  | none => false
  | some n => n ≠ 0

/-- `Template.__init__` without the iterable (IEs are appended one by one):
a template ID outside `[256, 65535]` raises `ValueError`. -/
def newTemplate (tid : Nat) : Option TemplateM :=
  if tid < 256 ∨ tid > 65535 then none
  else some { tid := tid, ies := [], minlength := 0, enclength := 0,
              scopecount := 0, varlenslice := none, packplan := none }

/-- `Template.count()`. -/
def TemplateM.count (t : TemplateM) : Nat := t.ies.length

/-- `Template.append`: extends the IE list, updates `minlength` (1 for a
varlen IE, else the IE length), records the index of this IE in
`varlenslice` when the current `varlenslice` is falsy, and grows
`enclength` by 4 plus 4 more for a non-zero PEN. -/
def TemplateM.append (t : TemplateM) (e : IEr) : TemplateM :=
  let ies := t.ies ++ [e]
  let t1 :=
    if e.length = VARLEN then
      { t with
        ies := ies
        minlength := t.minlength + 1
        varlenslice :=
          if optTruthy t.varlenslice = false then some (ies.length - 1)
          else t.varlenslice }
    else
      { t with ies := ies, minlength := t.minlength + e.length }
  { t1 with enclength := t1.enclength + 4 + (if e.pen ≠ 0 then 4 else 0) }

/-- `Template.fixlen_count()`: the source returns `varlenslice` when it is
truthy, and the full IE count otherwise (so a first-IE varlen template
reports every IE as fixed-length). -/
def TemplateM.fixlen_count (t : TemplateM) : Nat :=
  if optTruthy t.varlenslice then t.varlenslice.getD 0 else t.count

/-- `TemplatePackingPlan.__init__`: walk the IEs before `fixlen_count()`;
a selected index contributes the type's `stel` and its `valenc`/`valdec`,
an unselected one its `skipel`.  Accessing `stel`/`skipel` of an
`OctetArrayType` raises `AttributeError` (`none`). -/
def planBuild (indices : List Nat) :
    List (Nat × IEr) → Option (List PlanEl × List ValMap)
  | [] => some ([], [])
  | (i, e) :: rest =>
    match e.type with
    | .structTy st => do
        let (els, vms) ← planBuild indices rest
        if i ∈ indices then some (.pk st.stel :: els, st.vmap :: vms)
        else some (.skip (stelSize st.stel) :: els, vms)
    | .octetArrayTy _ _ _ => none

/-- See `planBuild`: the plan record assembled from the walk over the
fixed-length prefix. -/
def mkPackingPlan (tmpl : TemplateM) (indices : List Nat) :
    Option TemplatePackingPlan :=
  (planBuild indices (tmpl.ies.take tmpl.fixlen_count).enum).map
    fun (els, vms) =>
      { indices := indices, els := els, valenc := vms, valdec := vms }

/-- `Template.finalize()`: compile the default packing plan over all
indices. -/
def TemplateM.finalize (t : TemplateM) : Option TemplateM :=
  (mkPackingPlan t (List.range t.count)).map fun p =>
    { t with packplan := some p }

/-- `ipfix.template.from_ielist`: build a template from a template ID and an
IE list and finalize it. -/
def from_ielist (tid : Nat) (ielist : List IEr) : Option TemplateM := do
  let t0 ← newTemplate tid
  (ielist.foldl TemplateM.append t0).finalize

/-! ## Varlen framing (`ipfix.types.encode_varlen` / `decode_varlen`) -/

/-- `encode_varlen`: one length byte, or `0xFF` followed by the big-endian
`u16` length for lengths of 255 and above (`none` is the `struct.error`
raised when the length does not fit the `u16`). -/
def encode_varlen (length : Nat) : Option (List Nat) :=
  if length ≥ 255 then
    if length < 256 ^ 2 then some (encBE 1 255 ++ encBE 2 length) else none
  else some (encBE 1 length)

/-- `decode_varlen`: read the one-byte length; 255 means the true length
follows in the next two bytes.  Returns the length and the advanced
offset. -/
def decode_varlen (buf : Nat → Nat) (off : Nat) : Nat × Nat :=
  let length := decBE (readBuf buf off 1)
  let off := off + 1
  if length = 255 then (decBE (readBuf buf off 2), off + 2) else (length, off)

/-! ## Packing-plan struct pack/unpack -/

/-- `plan.st.pack_into`: packed elements consume one wire value each (the
arity must match exactly, as `struct.pack` requires), skip elements emit
NUL pad bytes.  `none` is `struct.error`. -/
def packPlanBytes : List PlanEl → List PyVal → Option (List Nat)
  | [], [] => some []
  | [], _ :: _ => none
  | .skip n :: els, vs => (packPlanBytes els vs).map (List.replicate n 0 ++ ·)
  | .pk s :: els, v :: vs => do
      let b ← structPack s v
      let bs ← packPlanBytes els vs
      some (b ++ bs)
  | .pk _ :: _, [] => none

/-- `plan.st.unpack_from`: read each packed element in order, skipping pad
runs. -/
def unpackPlanVals (buf : Nat → Nat) : List PlanEl → Nat → List PyVal
  | [], _ => []
  | .skip n :: els, off => unpackPlanVals buf els (off + n)
  | .pk s :: els, off =>
      structUnpackFrom s buf off :: unpackPlanVals buf els (off + stelSize s)

/-- `[f(v) for f, v in zip(fs, vs)]` for the value decoders (`zip`
truncates to the shorter list); `none` when a decoder raises. -/
def zipValdec : List ValMap → List PyVal → Option (List PyVal)
  | [], _ => some []
  | _ :: _, [] => some []
  | vm :: vms, v :: vs => do
      let w ← applyValdec vm v
      let ws ← zipValdec vms vs
      some (w :: ws)

/-- `[f(v) for f, v in zip(fs, vs)]` for the value encoders. -/
def zipValenc : List ValMap → List PyVal → Option (List PyVal)
  | [], _ => some []
  | _ :: _, [] => some []
  | vm :: vms, v :: vs => do
      let w ← applyValenc vm v
      let ws ← zipValenc vms vs
      some (w :: ws)

/-! ## Template record decode/encode -/

/-- The varlen-tail loop of `Template.decode_from`: for each remaining
`(index, IE)` pair, read the in-band varlen length when the IE is varlen,
decode the value when the index is projected, and advance the offset by the
IE's byte length in either case. -/
def decodeTailIEs (plan : TemplatePackingPlan) (buf : Nat → Nat) :
    List (Nat × IEr) → List PyVal → Nat → Option (List PyVal × Nat)
  | [], vals, off => some (vals, off)
  | (i, e) :: rest, vals, off =>
      let p := if e.length = VARLEN then decode_varlen buf off
               else (e.length, off)
      if i ∈ plan.indices then
        match e.type.decode_single_value_from buf p.2 p.1 with
        | some v => decodeTailIEs plan buf rest (vals ++ [v]) (p.2 + p.1)
        | none => none
      else decodeTailIEs plan buf rest vals (p.2 + p.1)

/-- `Template.decode_from`: unpack the fixed prefix with the packing plan
(the default plan when no override is passed; an unfinalized template has
`packplan = None` and `packplan.st` raises `AttributeError`), then walk the
varlen tail from `varlenslice` — unless `varlenslice` is falsy, in which
case the tail is skipped entirely. -/
def TemplateM.decode_from (t : TemplateM) (buf : Nat → Nat) (offset : Nat)
    (packplanArg : Option TemplatePackingPlan := none) :
    Except PyErr (List PyVal × Nat) :=
  match (match packplanArg with | some p => some p | none => t.packplan) with
  | none => .error .attributeError
  | some plan =>
    match zipValdec plan.valdec (unpackPlanVals buf plan.els offset) with
    | none => .error .typeError
    | some vals =>
      let offset := offset + planSize plan.els
      if optTruthy t.varlenslice = false then .ok (vals, offset)
      else
        let v0 := t.varlenslice.getD 0
        match decodeTailIEs plan buf
            (((List.range t.count).drop v0).zip (t.ies.drop v0)) vals offset with
        | some r => .ok r
        | none => .error .typeError

/-- The varlen-tail loop of `Template.encode_to`: projected varlen IEs are
encoded twice (once via `len(ie.type.valenc(val))` for the length prefix,
once for the payload); unprojected tail IEs emit nothing. -/
def encodeTailIEs (plan : TemplatePackingPlan) :
    List (Nat × IEr × PyVal) → Option (List Nat)
  | [] => some []
  | (i, e, v) :: rest =>
      if i ∈ plan.indices then do
        let pre ←
          if e.length = VARLEN then do
            let w ← applyValenc (match e.type with
              | .structTy st => st.vmap
              | .octetArrayTy _ _ vm => vm) v
            match w with
            | .bytes bs => encode_varlen bs.length
            | _ => none
          else some []
        let body ← encodeSingleBytes e.type v
        let rB ← encodeTailIEs plan rest
        some (pre ++ body ++ rB)
      else encodeTailIEs plan rest

/-- `Template.encode_to`: pack the fixed prefix (encoders zipped against the
leading values), then encode the varlen tail from `varlenslice` — skipped
entirely when `varlenslice` is falsy.  Returns the bytes written (the
source writes them consecutively into `buf` and returns the final offset).
A `struct.error` is `.structError`; a value encoder applied to a
wrong-typed value is `.typeError`. -/
def TemplateM.encode_to (t : TemplateM) (vals : List PyVal)
    (packplanArg : Option TemplatePackingPlan := none) :
    Except PyErr (List Nat) :=
  match (match packplanArg with | some p => some p | none => t.packplan) with
  | none => .error .attributeError
  | some plan =>
    match zipValenc plan.valenc vals with
    | none => .error .typeError
    | some fixvals =>
      match packPlanBytes plan.els fixvals with
      | none => .error .structError
      | some fixed =>
        if optTruthy t.varlenslice = false then .ok fixed
        else
          let v0 := t.varlenslice.getD 0
          match encodeTailIEs plan
              (((List.range t.count).drop v0).zip
                ((t.ies.drop v0).zip (vals.drop v0))) with
          | some tailB => .ok (fixed ++ tailB)
          | none => .error .structError

/-- `Template.encode_tuple_to`: when `recinf` is given, line 245 of
`ipfix/template.py` evaluates `packplan.indices` but the local name
`packplan` is never assigned on that path, so CPython raises
`UnboundLocalError` (a `NameError`) before anything is encoded.  Without
`recinf` the tuple is encoded in template order with the default plan. -/
def TemplateM.encode_tuple_to (t : TemplateM) (rec : List PyVal)
    (recinf : Option (List IEr)) : Except PyErr (List Nat) :=
  match recinf with
  | some _ => .error .nameError
  | none => t.encode_to rec none

/-! ## Template wire format -/

/-- The per-IE field specs of `Template.encode_template_to`: enterprise IEs
get the high bit set on the element id and a trailing `u32` PEN. -/
def encodeTemplateFields : List IEr → Option (List Nat)
  | [] => some []
  | e :: rest => do
      let fB ←
        if e.pen ≠ 0 then
          if (e.num ||| 0x8000) < 256 ^ 2 ∧ e.length < 256 ^ 2 ∧
             e.pen < 256 ^ 4 then
            some (encBE 2 (e.num ||| 0x8000) ++ encBE 2 e.length ++
                  encBE 4 e.pen)
          else none
        else
          if e.num < 256 ^ 2 ∧ e.length < 256 ^ 2 then
            some (encBE 2 e.num ++ encBE 2 e.length)
          else none
      let rB ← encodeTemplateFields rest
      some (fB ++ rB)

/-- `Template.encode_template_to`: template header (`tid`, field count, and
for options templates the scope count) followed by the field specs.  A set
id other than 2 or 3 raises `IpfixEncodeError`. -/
def TemplateM.encode_template_to (t : TemplateM) (setid : Nat) :
    Except PyErr (List Nat) := do
  let hdr ←
    if setid = 2 then
      if t.tid < 256 ^ 2 ∧ t.count < 256 ^ 2 then
        pure (encBE 2 t.tid ++ encBE 2 t.count)
      else throw .structError
    else if setid = 3 then
      if t.tid < 256 ^ 2 ∧ t.count < 256 ^ 2 ∧ t.scopecount < 256 ^ 2 then
        pure (encBE 2 t.tid ++ encBE 2 t.count ++ encBE 2 t.scopecount)
      else throw .structError
    else throw .ipfixEncodeError
  match encodeTemplateFields t.ies with
  | some fB => pure (hdr ++ fB)
  | none => throw .structError

/-- The field-spec loop of `decode_template_from`: read `(num, length)`,
strip the high bit and read the PEN when set, resolve the IE through the
registry (`for_template_entry`) and append it.  (After reading the 4-byte
PEN the source advances by `_iespec_st.size`, which is also 4 bytes.) -/
def decodeTemplateFieldLoop (reg : IERegistry) (buf : Nat → Nat) :
    TemplateM → Nat → Nat → Except PyErr (TemplateM × Nat)
  | t, off, 0 => .ok (t, off)
  | t, off, k + 1 =>
      let num := decBE (readBuf buf off 2)
      let length := decBE (readBuf buf (off + 2) 2)
      let off := off + 4
      let rec3 : Nat × Nat × Nat :=
        if num &&& 0x8000 ≠ 0 then
          (num &&& 0x7fff, decBE (readBuf buf off 4), off + 4)
        else (num, 0, off)
      match for_template_entry reg rec3.2.1 rec3.1 length with
      | some e => decodeTemplateFieldLoop reg buf (t.append e) rec3.2.2 k
      | none => .error .ipfixTypeError

/-- `ipfix.template.decode_template_from`: parse the template header for the
given set id, loop over the field specs, and `finalize()` the result. -/
def decode_template_from (reg : IERegistry) (buf : Nat → Nat) (offset : Nat)
    (setid : Nat) : Except PyErr (TemplateM × Nat) := do
  let hdr : Nat × Nat × Nat × Nat ←
    if setid = 2 then
      pure (decBE (readBuf buf offset 2), decBE (readBuf buf (offset + 2) 2),
            0, offset + 4)
    else if setid = 3 then
      pure (decBE (readBuf buf offset 2), decBE (readBuf buf (offset + 2) 2),
            decBE (readBuf buf (offset + 4) 2), offset + 6)
    else throw .ipfixDecodeError
  let t0 ←
    match newTemplate hdr.1 with
    | some t => pure t
    | none => throw .valueError
  let t0 := { t0 with scopecount := hdr.2.2.1 }
  let r ← decodeTemplateFieldLoop reg buf t0 hdr.2.2.2 hdr.2.1
  match r.1.finalize with
  | some tf => pure (tf, r.2)
  | none => throw .attributeError

/-- `Template.native_setid()`: 3 when the template has a scope count, else
2. -/
def TemplateM.native_setid (t : TemplateM) : Nat :=
  if t.scopecount ≠ 0 then 3 else 2

/-! ## `ipfix.message`: the MessageBuffer state machine -/

/-- Model of `ipfix.message.MessageBuffer`.  `mbuf` is the 64 KiB buffer;
`templates` and `sequences` are the dictionaries keyed by `(odid, tid)` and
`(odid, streamid)` (association lists, most recent binding first);
`accepted_tids` is the accepted-template set; `setlist` holds
`(offset, setid, setlength)` triples.  (`last_tuple_iterator_ielist`, the
projection cache, is not needed by any claim and is omitted.) -/
structure MessageBuffer where
  mbuf : Nat → Nat
  length : Nat
  sequence : Nat
  export_epoch : Nat
  odid : Nat
  streamid : Nat
  templates : List ((Nat × Nat) × TemplateM)
  accepted_tids : List (Nat × Nat)
  sequences : List ((Nat × Nat) × Nat)
  setlist : List (Nat × Nat × Nat)
  auto_export_time : Bool
  cursetoff : Nat
  cursetid : Option Nat
  curtmpl : Option TemplateM
  mtu : Nat

/-- Result of a MessageBuffer operation: a value plus the buffer state, a
raised Python exception plus the state at the moment of the raise, or a
witness that a `while` loop in the source fails to terminate (modelled by
fuel exhaustion). -/
inductive MRes (α : Type) where
  | ok (a : α) (st : MessageBuffer)
  | err (e : PyErr) (st : MessageBuffer)
  | hang

/-- `MessageBuffer()` — the freshly constructed buffer.  (`sequence` is
`None` in the source until first set; it is only read after `begin_export`
or a message parse assigns it, so `0` stands in for `None`.) -/
def MessageBuffer.init : MessageBuffer :=
  { mbuf := fun _ => 0, length := 0, sequence := 0, export_epoch := 0
    odid := 0, streamid := 0, templates := [], accepted_tids := []
    sequences := [], setlist := [], auto_export_time := true
    cursetoff := 0, cursetid := none, curtmpl := none, mtu := 65535 }

/-- `MessageBuffer._increment_sequence`: `setdefault` the counter for
`(odid, streamid)` to 0, then add one. -/
def MessageBuffer.increment_sequence (st : MessageBuffer) : MessageBuffer :=
  let key := (st.odid, st.streamid)
  let cur := (List.lookup key st.sequences).getD 0
  { st with sequences := (key, cur + 1) :: st.sequences }

/-- The scan loop of `MessageBuffer._scan_setlist`: starting at offset 16,
read each set header and collect `(offset, setid, setlen)`.  A set whose
declared length would extend past the message raises — but the source
spells the exception class `IPFIXDecodeError`, a name that does not exist
in the module, so CPython raises `NameError`.  A zero `setlen` loops
forever (`hang`). -/
def scanSetlistLoop (buf : Nat → Nat) (msglen : Nat) :
    Nat → Nat → List (Nat × Nat × Nat) →
    Except PyErr (List (Nat × Nat × Nat)) ⊕ Unit
  | 0, _, _ => .inr ()
  | fuel + 1, offset, acc =>
      if offset < msglen then
        let setid := decBE (readBuf buf offset 2)
        let setlen := decBE (readBuf buf (offset + 2) 2)
        if offset + setlen > msglen then .inl (.error .nameError)
        else scanSetlistLoop buf msglen fuel (offset + setlen)
          (acc ++ [(offset, setid, setlen)])
      else .inl (.ok acc)

/-- `MessageBuffer._scan_setlist`: discard all export state, then rebuild
the set index from the message body. -/
def MessageBuffer.scan_setlist (st : MessageBuffer) (fuel : Nat) :
    MRes Unit :=
  let st := { st with cursetoff := 0, cursetid := none, curtmpl := none
                      setlist := [] }
  match scanSetlistLoop st.mbuf st.length fuel 16 [] with
  | .inl (.ok sl) => .ok () { st with setlist := sl }
  | .inl (.error e) => .err e st
  | .inr () => .hang

/-- `MessageBuffer.from_bytes`: copy the bytes into `mbuf`, parse the
message header, validate version and length, and scan the set list.  An
input shorter than the 16-byte header hits
`str(len(msghdr))` where `msghdr` is not a name in this method, so CPython
raises `NameError` while building the intended `IpfixDecodeError`. -/
def MessageBuffer.from_bytes (st : MessageBuffer) (bytes : List Nat)
    (fuel : Nat) : MRes Unit :=
  let st := { st with mbuf := writeBuf st.mbuf 0 bytes }
  if bytes.length < 16 then .err .nameError st
  else
    let st := { st with
      length := decBE (readBuf st.mbuf 2 2)
      sequence := decBE (readBuf st.mbuf 4 4)
      export_epoch := decBE (readBuf st.mbuf 8 4)
      odid := decBE (readBuf st.mbuf 12 4) }
    if decBE (readBuf st.mbuf 0 2) ≠ 10 then .err .ipfixDecodeError st
    else if st.length < 20 then .err .ipfixDecodeError st
    else st.scan_setlist fuel

/-- The inner loop of `record_iterator` for a template set (`setid` 2 or
3): decode templates until the set is exhausted, store each under
`(odid, tid)`, and update the accepted set according to the accept
predicate. -/
def templateSetLoop (reg : IERegistry) (acceptFn : TemplateM → Bool)
    (setid setend : Nat) :
    Nat → MessageBuffer → Nat → MRes Unit
  | 0, _, _ => .hang
  | fuel + 1, st, offset =>
      if offset < setend then
        match decode_template_from reg st.mbuf offset setid with
        | .error e => .err e st
        | .ok (tmpl, offset2) =>
            let key := (st.odid, tmpl.tid)
            let st := { st with templates := (key, tmpl) :: st.templates }
            let st :=
              if acceptFn tmpl then
                { st with accepted_tids :=
                    if key ∈ st.accepted_tids then st.accepted_tids
                    else key :: st.accepted_tids }
              else
                { st with accepted_tids :=
                    st.accepted_tids.filter (· ≠ key) }
            templateSetLoop reg acceptFn setid setend fuel st offset2
      else .ok () st

/-- The inner loop of `record_iterator` for a data set: while at least
`minlength` bytes remain, decode a record, yield it, and increment the
sequence counter. -/
def dataSetLoop (decodeFn : TemplateM → (Nat → Nat) → Nat →
      Option (List IEr) → Except PyErr (List PyVal × Nat))
    (tmpl : TemplateM) (recinf : Option (List IEr)) (setend : Nat) :
    Nat → MessageBuffer → Nat → List (List PyVal) →
    MRes (List (List PyVal))
  | 0, _, _, _ => .hang
  | fuel + 1, st, offset, recs =>
      if offset + tmpl.minlength ≤ setend then
        match decodeFn tmpl st.mbuf offset recinf with
        | .error e => .err e st
        | .ok (rec, offset2) =>
            dataSetLoop decodeFn tmpl recinf setend fuel
              st.increment_sequence offset2 (recs ++ [rec])
      else .ok recs st

/-- The set dispatch of `MessageBuffer.record_iterator`: template sets are
decoded and stored; reserved set ids below 256 are skipped with a warning;
data sets are decoded when accepted and their template is present, and
skipped otherwise (the `KeyError` handler). -/
def recordIteratorSets (reg : IERegistry)
    (decodeFn : TemplateM → (Nat → Nat) → Nat → Option (List IEr) →
      Except PyErr (List PyVal × Nat))
    (acceptFn : TemplateM → Bool) (recinf : Option (List IEr)) (fuel : Nat) :
    List (Nat × Nat × Nat) → MessageBuffer → List (List PyVal) →
    MRes (List (List PyVal))
  | [], st, recs => .ok recs st
  | (offset, setid, setlen) :: rest, st, recs =>
      let setend := offset + setlen
      let offset := offset + 4
      if setid = 2 ∨ setid = 3 then
        match templateSetLoop reg acceptFn setid setend fuel st offset with
        | .ok () st =>
            recordIteratorSets reg decodeFn acceptFn recinf fuel rest st recs
        | .err e st => .err e st
        | .hang => .hang
      else if setid < 256 then
        recordIteratorSets reg decodeFn acceptFn recinf fuel rest st recs
      else if (st.odid, setid) ∈ st.accepted_tids then
        match List.lookup (st.odid, setid) st.templates with
        | some tmpl =>
            match dataSetLoop decodeFn tmpl recinf setend fuel st offset recs with
            | .ok recs st =>
                recordIteratorSets reg decodeFn acceptFn recinf fuel rest st recs
            | .err e st => .err e st
            | .hang => .hang
        | none =>
            recordIteratorSets reg decodeFn acceptFn recinf fuel rest st recs
      else
        recordIteratorSets reg decodeFn acceptFn recinf fuel rest st recs

/-- `MessageBuffer.record_iterator`: walk the parsed set list, returning
the records yielded by the generator (in order) together with the final
buffer state. -/
def MessageBuffer.record_iterator (st : MessageBuffer) (reg : IERegistry)
    (decodeFn : TemplateM → (Nat → Nat) → Nat → Option (List IEr) →
      Except PyErr (List PyVal × Nat))
    (acceptFn : TemplateM → Bool) (recinf : Option (List IEr)) (fuel : Nat) :
    MRes (List (List PyVal)) :=
  recordIteratorSets reg decodeFn acceptFn recinf fuel st.setlist st []

/-- `Template.packplan_for_ielist`: plan over the indices of the given IEs
(`self.ies.index(ie)` under `(pen, num)` equality; a missing IE raises
`ValueError`, and plan compilation over an octet-array prefix type raises
`AttributeError`). -/
def TemplateM.packplan_for_ielist (t : TemplateM) (ielist : List IEr) :
    Except PyErr TemplatePackingPlan := do
  let idxs ← ielist.mapM fun e =>
    match t.ies.findIdx? (fun x => (x.pen, x.num) = (e.pen, e.num)) with
    | some i => pure i
    | none => throw PyErr.valueError
  match mkPackingPlan t idxs with
  | some p => pure p
  | none => throw PyErr.attributeError

/-- `Template.decode_tuple_from`: decode with the projection plan for
`recinf` (or the default plan when `recinf` is `None`) and re-sort the
values into plan-index order — the identity permutation for the default
plan. -/
def TemplateM.decode_tuple_from (t : TemplateM) (buf : Nat → Nat)
    (off : Nat) (recinf : Option (List IEr)) :
    Except PyErr (List PyVal × Nat) := do
  let plan ←
    match recinf with
    | some ielist => t.packplan_for_ielist ielist
    | none =>
      match t.packplan with
      | none => throw PyErr.attributeError
      | some plan => pure plan
  let r ← t.decode_from buf off (some plan)
  pure ((((plan.indices.zip r.1).mergeSort
    (fun a b => a.1 ≤ b.1)).map (·.2)), r.2)

/-! ## MessageBuffer export side -/

/-- `MessageBuffer.begin_export`: clear the set list, set the outgoing
sequence number from the per-`(odid, streamid)` counter (read **before**
the observation domain is updated — the counter used is the previous
domain's), optionally switch domains (Python `if odid:`, so a zero
argument keeps the old domain), reset the write cursor to 16, zero the
header placeholder, check the MTU, and clear the current set. -/
def MessageBuffer.begin_export (st : MessageBuffer) (odid : Nat := 0) :
    MRes Unit :=
  let st := { st with setlist := [] }
  let key := (st.odid, st.streamid)
  let seqs :=
    if (List.lookup key st.sequences).isSome then st.sequences
    else (key, 0) :: st.sequences
  let st := { st with
    sequences := seqs
    sequence := (List.lookup key seqs).getD 0 }
  let st := if odid ≠ 0 then { st with odid := odid } else st
  let st := { st with
    length := 16
    cursetoff := 16
    mbuf := writeBuf st.mbuf 0 (List.replicate 16 0) }
  if st.mtu ≤ st.length then .err .ipfixEncodeError st
  else .ok () { st with cursetid := none }

/-- `MessageBuffer._export_close_set`: when a set is open (`if
self.cursetid:` — Python truthiness), write its header with the final set
length and clear the current set id. -/
def MessageBuffer.export_close_set (st : MessageBuffer) : MRes Unit :=
  if optTruthy st.cursetid then
    let sid := st.cursetid.getD 0
    if sid < 256 ^ 2 ∧ st.length - st.cursetoff < 256 ^ 2 then
      .ok () { st with
        mbuf := writeBuf st.mbuf st.cursetoff
          (encBE 2 sid ++ encBE 2 (st.length - st.cursetoff))
        cursetid := none }
    else .err .structError st
  else .ok () st

/-- `MessageBuffer.export_new_set`: close the current set; for a data set
id, require its template (else `IpfixEncodeError`) and room for the set
header plus one minimum-length record (else `EndOfMessage`); then write a
placeholder set header and open the set. -/
def MessageBuffer.export_new_set (st : MessageBuffer) (setid : Nat) :
    MRes Unit :=
  match st.export_close_set with
  | .err e st => .err e st
  | .hang => .hang
  | .ok () st =>
    let open_set : Option TemplateM → MRes Unit := fun tmpl =>
      if setid < 256 ^ 2 ∧ st.length + 4 ≤ 65536 then
        .ok () { st with
          cursetoff := st.length
          cursetid := some setid
          curtmpl := tmpl
          mbuf := writeBuf st.mbuf st.length (encBE 2 setid ++ encBE 2 0)
          length := st.length + 4 }
      else .err .structError st
    if setid ≥ 256 then
      match List.lookup (st.odid, setid) st.templates with
      | none => .err .ipfixEncodeError st
      | some tmpl =>
          if st.length + 4 + tmpl.minlength > st.mtu then
            .err .endOfMessage st
          else open_set (some tmpl)
    else open_set none

/-- `MessageBuffer.export_ensure_set`: start a new set only when the
current set id differs. -/
def MessageBuffer.export_ensure_set (st : MessageBuffer) (setid : Nat) :
    MRes Unit :=
  if st.cursetid ≠ some setid then st.export_new_set setid else .ok () st

/-- `MessageBuffer.export_template`: look the template up by id (a missing
one raises `KeyError`), ensure its native set, check
`length + enclength ≤ mtu` (else `EndOfMessage`), and write the template
record. -/
def MessageBuffer.export_template (st : MessageBuffer) (tid : Nat) :
    MRes Unit :=
  match List.lookup (st.odid, tid) st.templates with
  | none => .err .keyError st
  | some tmpl =>
    match st.export_ensure_set tmpl.native_setid with
    | .err e st => .err e st
    | .hang => .hang
    | .ok () st =>
      if st.length + tmpl.enclength > st.mtu then .err .endOfMessage st
      else
        match tmpl.encode_template_to tmpl.native_setid with
        | .error e => .err e st
        | .ok bytes =>
          if st.length + bytes.length ≤ 65536 then
            .ok () { st with
              mbuf := writeBuf st.mbuf st.length bytes
              length := st.length + bytes.length }
          else .err .structError st

/-- `MessageBuffer.add_template`: store the template under
`(odid, tmpl.tid)` and, when `export` is set, emit it into the message. -/
def MessageBuffer.add_template (st : MessageBuffer) (tmpl : TemplateM)
    (doExport : Bool := true) : MRes Unit :=
  let st := { st with
    templates := ((st.odid, tmpl.tid), tmpl) :: st.templates }
  if doExport then st.export_template tmpl.tid else .ok () st

/-- `MessageBuffer.export_record`: snapshot the length, encode the record
with the current template (`curtmpl = None` raises `AttributeError` inside
the unbound encode method), convert a `struct.error` — from a value out of
range or a write past the end of `mbuf` — into `EndOfMessage` with the
length restored, restore the length and raise `EndOfMessage` on MTU
overrun, and otherwise commit the bytes and increment the sequence
counter. -/
def MessageBuffer.export_record (st : MessageBuffer) (rec : List PyVal)
    (encodeFn : TemplateM → List PyVal → Option (List IEr) →
      Except PyErr (List Nat))
    (recinf : Option (List IEr) := none) : MRes Unit :=
  let savelength := st.length
  match st.curtmpl with
  | none => .err .attributeError st
  | some tmpl =>
    match encodeFn tmpl rec recinf with
    | .error .structError => .err .endOfMessage st
    | .error e => .err e st
    | .ok bytes =>
      if savelength + bytes.length > 65536 then .err .endOfMessage st
      else
        let st1 := { st with
          mbuf := writeBuf st.mbuf st.length bytes
          length := st.length + bytes.length }
        if st1.length > st1.mtu then
          .err .endOfMessage { st1 with length := savelength }
        else .ok () st1.increment_sequence

/-- `Template.encode_tuple_to` in the shape `export_record` passes it
(record, then `recinf`). -/
def encodeTupleFn (tmpl : TemplateM) (rec : List PyVal)
    (recinf : Option (List IEr)) : Except PyErr (List Nat) :=
  tmpl.encode_tuple_to rec recinf

/-- `MessageBuffer.export_tuple`: export a tuple record through
`Template.encode_tuple_to` with the optional projection `ielist`. -/
def MessageBuffer.export_tuple (st : MessageBuffer) (rec : List PyVal)
    (ielist : Option (List IEr) := none) : MRes Unit :=
  st.export_record rec encodeTupleFn ielist

/-- `MessageBuffer.to_bytes`: close the final set, update the export epoch
when automatic (`now` is the wall clock passed in by the model), rewrite
the message header, and return `mbuf[0:length]`. -/
def MessageBuffer.to_bytes (st : MessageBuffer) (now : Nat) :
    MRes (List Nat) :=
  match st.export_close_set with
  | .err e st => .err e st
  | .hang => .hang
  | .ok () st =>
    let st :=
      if st.auto_export_time then { st with export_epoch := now } else st
    if st.length < 256 ^ 2 ∧ st.sequence < 256 ^ 4 ∧
       st.export_epoch < 256 ^ 4 ∧ st.odid < 256 ^ 4 then
      let st := { st with
        mbuf := writeBuf st.mbuf 0
          (encBE 2 10 ++ encBE 2 st.length ++ encBE 4 st.sequence ++
           encBE 4 st.export_epoch ++ encBE 4 st.odid) }
      .ok (readBuf st.mbuf 0 st.length) st
    else .err .structError st

/-! ## Claim scaffolding: the export call sequence and read-back pipeline -/

/-- Extract the value of a successful operation. -/
def MRes.val {α : Type} : MRes α → Option α
  | .ok a _ => some a
  | _ => none

/-- Extract the state of a successful operation. -/
def MRes.stOf {α : Type} : MRes α → Option MessageBuffer
  | .ok _ st => some st
  | _ => none

/-- Export each record in turn with `export_tuple` (template-order
tuples). -/
def exportRecordsLoop : MessageBuffer → List (List PyVal) → MRes Unit
  | st, [] => .ok () st
  | st, r :: rs =>
      match st.export_tuple r none with
      | .ok () st => exportRecordsLoop st rs
      | .err e st => .err e st
      | .hang => .hang

/-- The encoder call sequence of the round-trip claim on a fresh buffer:
`begin_export(odid)`, `add_template(t)` (which emits the template),
`export_ensure_set(t.tid)`, then one `export_record` per record. -/
def exportFlow (odid : Nat) (t : TemplateM) (rs : List (List PyVal)) :
    MRes Unit :=
  match MessageBuffer.init.begin_export odid with
  | .err e st => .err e st
  | .hang => .hang
  | .ok () st =>
    match st.add_template t with
    | .err e st => .err e st
    | .hang => .hang
    | .ok () st =>
      match st.export_ensure_set t.tid with
      | .err e st => .err e st
      | .hang => .hang
      | .ok () st => exportRecordsLoop st rs

/-- The full encoder pipeline: export flow followed by `to_bytes`; `none`
when any step raises. -/
def exportThenBytes (odid : Nat) (t : TemplateM) (rs : List (List PyVal))
    (now : Nat) : Option (List Nat) :=
  match exportFlow odid t rs with
  | .ok () st =>
      match st.to_bytes now with
      | .ok bs _ => some bs
      | _ => none
  | _ => none

/-- `Template.decode_tuple_from` in the shape `record_iterator` passes its
decode function. -/
def decodeTupleFn (tmpl : TemplateM) (buf : Nat → Nat) (off : Nat)
    (recinf : Option (List IEr)) : Except PyErr (List PyVal × Nat) :=
  tmpl.decode_tuple_from buf off recinf

/-- The decoder pipeline of the round-trip claim: `from_bytes` on a fresh
buffer, then `record_iterator` with `decode_tuple_from` (template-order
tuples) accepting every template. -/
def readBackOrdered (reg : IERegistry) (bytes : List Nat) (fuel : Nat) :
    MRes (List (List PyVal)) :=
  match MessageBuffer.init.from_bytes bytes fuel with
  | .ok () st => st.record_iterator reg decodeTupleFn (fun _ => true) none fuel
  | .err e st => .err e st
  | .hang => .hang

/-! ## Claim scaffolding: the embedded value fragment -/

/-- Well-formed IE of the embedded message-level fragment: a fixed-width
unsigned integer IE (struct codes `B/H/L/Q`, identity value maps, length
equal to the struct size) or a variable-length octet-array IE; the element
id fits 15 bits and the PEN fits 32. -/
def wfIEb (e : IEr) : Bool :=
  decide (e.num < 0x8000) && decide (e.pen < 256 ^ 4) &&
  (match e.type with
   | .structTy st =>
       st.vmap == .identity &&
       (st.stel == .B || st.stel == .H || st.stel == .L || st.stel == .Q) &&
       decide (e.length = stelSize st.stel)
   | .octetArrayTy _ _ vm => vm == .identity && decide (e.length = VARLEN))

/-- Well-formed value for an IE of the fragment: an in-range non-negative
integer for unsigned IEs, a byte list short enough for the varlen length
prefix for octet-array IEs. -/
def wfValb (e : IEr) (v : PyVal) : Bool :=
  match e.type, v with
  | .structTy st, .int i =>
      decide (0 ≤ i) && decide (i < (256 ^ stelSize st.stel : Int))
  | .octetArrayTy _ _ _, .bytes bs =>
      decide (bs.length < 256 ^ 2) && bs.all (fun x => x < 256)
  | _, _ => false

/-- Well-formed record for an IE list: one well-formed value per IE. -/
def wfRecb (ies : List IEr) (r : List PyVal) : Bool :=
  r.length == ies.length &&
  (List.zip ies r).all fun p => wfValb p.1 p.2

/-- Registry consistency: each IE of the template resolves through
`for_template_entry` back to itself (the in-process situation after the
exporting side obtained its IEs from the registry). -/
def regConsistent (reg : IERegistry) (ies : List IEr) : Bool :=
  ies.all fun e => for_template_entry reg e.pen e.num e.length == some e

/-! ## Claim scaffolding: wire image of one record (proof vehicle) -/

/-- The bytes of one field of a data record: big-endian value for a packed
unsigned IE, varlen length prefix plus payload for an octet-array IE. -/
def fieldEncBytes (e : IEr) (v : PyVal) : List Nat :=
  match e.type, v with
  | .structTy st, .int i => encBE (stelSize st.stel) i.toNat
  | .octetArrayTy _ _ _, .bytes bs => ((encode_varlen bs.length).getD []) ++ bs
  | _, _ => []

/-- The bytes of one data record in template order. -/
def recBytes (ies : List IEr) (r : List PyVal) : List Nat :=
  ((ies.zip r).map fun p => fieldEncBytes p.1 p.2).flatten

/-- The bytes of a record run. -/
def recsBytes (ies : List IEr) (rs : List (List PyVal)) : List Nat :=
  (rs.map (recBytes ies)).flatten

/-- `minlength` of an IE list (1 per varlen IE, the length otherwise). -/
def minlenSum (ies : List IEr) : Nat :=
  (ies.map fun e => if e.length = VARLEN then 1 else e.length).sum

/-- `enclength` of an IE list (4 per IE, 4 more per non-zero PEN). -/
def enclenSum (ies : List IEr) : Nat :=
  (ies.map fun e => 4 + if e.pen ≠ 0 then 4 else 0).sum

/-- The `varlenslice` value produced by successive `append` calls, starting
from slice state `vs` at position `n` (mirrors the buggy truthiness test:
a varlen IE overwrites the slice whenever the current slice is falsy). -/
def vsAfter : Option Nat → Nat → List IEr → Option Nat
  | vs, _, [] => vs
  | vs, n, e :: rest =>
      vsAfter
        (if e.length = VARLEN ∧ optTruthy vs = false then some n else vs)
        (n + 1) rest

/-- The sequence counter a buffer stores for its own `(odid, streamid)`
key (`setdefault` default 0) — the quantity `_increment_sequence`
advances. -/
def seqCtr (st : MessageBuffer) : Nat :=
  (List.lookup (st.odid, st.streamid) st.sequences).getD 0

/-! # Theorems -/

/-! ## Byte-packing lemmas -/

theorem encBE_length (w v : Nat) : (encBE w v).length = w := by
  induction w generalizing v with
  | zero => rfl
  | succ w ih => simp [encBE, ih]

theorem decBE_append (xs : List Nat) (x : Nat) :
    decBE (xs ++ [x]) = decBE xs * 256 + x := by
  simp [decBE, List.foldl_append]

theorem decBE_encBE (w v : Nat) : decBE (encBE w v) = v % 256 ^ w := by
  induction w generalizing v with
  | zero => simp [encBE, decBE, Nat.mod_one]
  | succ w ih =>
      rw [encBE, decBE_append, ih, pow_succ, mul_comm (256 ^ w) 256,
        Nat.mod_mul]
      ring

theorem decBE_encBE_of_lt {w v : Nat} (h : v < 256 ^ w) :
    decBE (encBE w v) = v := by
  rw [decBE_encBE, Nat.mod_eq_of_lt h]

/-! ## Buffer lemmas -/

theorem readBuf_length (buf : Nat → Nat) (off len : Nat) :
    (readBuf buf off len).length = len := by
  simp [readBuf]

theorem readBuf_congr {buf buf2 : Nat → Nat} (off len : Nat)
    (h : ∀ i, off ≤ i → i < off + len → buf i = buf2 i) :
    readBuf buf off len = readBuf buf2 off len := by
  simp only [readBuf]
  apply List.map_congr_left
  intro i hi
  simp only [List.mem_range] at hi
  exact h (off + i) (Nat.le_add_right _ _) (by omega)

theorem writeBuf_nil (buf : Nat → Nat) (off : Nat) :
    writeBuf buf off [] = buf := by
  funext i; simp [writeBuf]

theorem writeBuf_apply_in (buf : Nat → Nat) (off : Nat) (bs : List Nat)
    (i : Nat) (h1 : off ≤ i) (h2 : i - off < bs.length) :
    writeBuf buf off bs i = bs.getD (i - off) 0 := by
  simp [writeBuf, h1, h2]

theorem writeBuf_apply_out (buf : Nat → Nat) (off : Nat) (bs : List Nat)
    (i : Nat) (h : i < off ∨ off + bs.length ≤ i) :
    writeBuf buf off bs i = buf i := by
  simp only [writeBuf]
  rw [if_neg]
  omega

theorem readBuf_writeBuf (buf : Nat → Nat) (off : Nat) (bs : List Nat) :
    readBuf (writeBuf buf off bs) off bs.length = bs := by
  apply List.ext_getElem
  · simp [readBuf_length]
  · intro i h1 h2
    simp only [readBuf, List.getElem_map, List.getElem_range]
    rw [writeBuf_apply_in buf off bs (off + i) (Nat.le_add_right _ _)
      (by omega)]
    simp only [Nat.add_sub_cancel_left]
    exact List.getD_eq_getElem bs 0 h2

theorem readBuf_writeBuf_sub (buf : Nat → Nat) (off : Nat) (bs : List Nat)
    (i n : Nat) (h1 : off ≤ i) (h2 : i + n ≤ off + bs.length) :
    readBuf (writeBuf buf off bs) i n = (bs.drop (i - off)).take n := by
  apply List.ext_getElem
  · simp only [readBuf_length, List.length_take, List.length_drop]
    omega
  · intro j hj1 hj2
    rw [readBuf_length] at hj1
    simp only [readBuf, List.getElem_map, List.getElem_range]
    rw [writeBuf_apply_in buf off bs (i + j) (by omega) (by omega)]
    rw [List.getElem_take, List.getElem_drop]
    rw [List.getD_eq_getElem bs 0 (by omega)]
    congr 1
    omega

theorem readBuf_writeBuf_left (buf : Nat → Nat) (off : Nat) (bs : List Nat)
    (i n : Nat) (h : i + n ≤ off) :
    readBuf (writeBuf buf off bs) i n = readBuf buf i n := by
  apply readBuf_congr
  intro k hk1 hk2
  exact writeBuf_apply_out buf off bs k (Or.inl (by omega))

theorem readBuf_writeBuf_right (buf : Nat → Nat) (off : Nat) (bs : List Nat)
    (i n : Nat) (h : off + bs.length ≤ i) :
    readBuf (writeBuf buf off bs) i n = readBuf buf i n := by
  apply readBuf_congr
  intro k hk1 hk2
  exact writeBuf_apply_out buf off bs k (Or.inr (by omega))

theorem readBuf_split (buf : Nat → Nat) (off m n : Nat) :
    readBuf buf off (m + n) = readBuf buf off m ++ readBuf buf (off + m) n := by
  simp only [readBuf, List.range_add, List.map_append, List.map_map]
  congr 1
  apply List.map_congr_left
  intro i _
  simp only [Function.comp_apply]
  congr 1
  omega

theorem writeBuf_adjacent (buf : Nat → Nat) (off : Nat) (a c : List Nat) :
    writeBuf (writeBuf buf off a) (off + a.length) c =
      writeBuf buf off (a ++ c) := by
  funext i
  simp only [writeBuf, List.length_append]
  by_cases h1 : off + a.length ≤ i ∧ i - (off + a.length) < c.length
  · rw [if_pos h1, if_pos (by omega)]
    rw [List.getD_append_right a c 0 (i - off) (by omega)]
    congr 1
    omega
  · rw [if_neg h1]
    by_cases h2 : off ≤ i ∧ i - off < a.length
    · rw [if_pos h2, if_pos (by omega)]
      rw [List.getD_append a c 0 (i - off) (by omega)]
    · rw [if_neg h2, if_neg (by omega)]

/-! ## Type-codec round-trip lemmas (claim C2) -/

theorem roundtrip_uint (name : String) (num : Nat) (s : StEl) (w : Nat)
    (hs : s = .B ∧ w = 1 ∨ s = .H ∧ w = 2 ∨ s = .L ∧ w = 4 ∨ s = .Q ∧ w = 8)
    (i : Int) (h0 : 0 ≤ i) (hlt : i < 256 ^ w) :
    roundtripVal (.structTy ⟨name, num, s, .identity⟩) (.int i) =
      some (.int i) := by
  have hbytes : ∀ v : Nat, readBuf (writeBuf (fun _ => 0) 0 (encBE w v)) 0 w
      = encBE w v := by
    intro v
    have := readBuf_writeBuf (fun _ => 0) 0 (encBE w v)
    rwa [encBE_length] at this
  have htn : (i.toNat : Int) = i := Int.toNat_of_nonneg h0
  have hlt2 : i.toNat < 256 ^ w := by
    have h2 : (i.toNat : Int) < (256 : Int) ^ w := htn ▸ hlt
    exact_mod_cast h2
  rcases hs with ⟨hs, hw⟩ | ⟨hs, hw⟩ | ⟨hs, hw⟩ | ⟨hs, hw⟩ <;> subst hs hw <;>
    (have hlt3 := hlt; have hlt4 := hlt2; norm_num at hlt3 hlt4) <;>
    simp [roundtripVal, IpfixTypeM.encode_single_value_to, encodeSingleBytes,
      applyValenc, structPack, h0, hlt3, IpfixTypeM.decode_single_value_from,
      stelSize, applyValdec, structUnpackFrom, Option.bind, hbytes,
      decBE_encBE_of_lt hlt2, decBE_encBE, Nat.mod_eq_of_lt hlt4, htn]

theorem roundtrip_sint (name : String) (num : Nat) (s : StEl) (w : Nat)
    (hs : s = .b ∧ w = 1 ∨ s = .h ∧ w = 2 ∨ s = .l ∧ w = 4 ∨ s = .q ∧ w = 8)
    (i : Int) (h0 : -(2 ^ (8 * w - 1)) ≤ i) (hlt : i < 2 ^ (8 * w - 1)) :
    roundtripVal (.structTy ⟨name, num, s, .identity⟩) (.int i) =
      some (.int i) := by
  have hbytes : ∀ v : Nat, readBuf (writeBuf (fun _ => 0) 0 (encBE w v)) 0 w
      = encBE w v := by
    intro v
    have := readBuf_writeBuf (fun _ => 0) 0 (encBE w v)
    rwa [encBE_length] at this
  have hmod : (i % (256 ^ w : Int)).toNat < 256 ^ w := by
    have h1 : (0 : Int) < 256 ^ w := by positivity
    have h2 : i % (256 ^ w : Int) < 256 ^ w := Int.emod_lt_of_pos i h1
    have h3 : (((256 : Nat) ^ w : Nat) : Int) = (256 : Int) ^ w := by
      push_cast; ring
    omega
  rcases hs with ⟨hs, hw⟩ | ⟨hs, hw⟩ | ⟨hs, hw⟩ | ⟨hs, hw⟩ <;> subst hs hw <;>
    (have hlt3 := hlt; have hlt4 := hmod; have h03 := h0
     norm_num at hlt3 hlt4 h03) <;>
    simp [roundtripVal, IpfixTypeM.encode_single_value_to, encodeSingleBytes,
      applyValenc, structPack, h03, hlt3, IpfixTypeM.decode_single_value_from,
      stelSize, applyValdec, structUnpackFrom, Option.bind, hbytes,
      decBE_encBE, Nat.mod_eq_of_lt hlt4] <;>
    (split_ifs with h1 <;> omega)

theorem roundtrip_boolean (x : Bool) :
    roundtripVal booleanT (.pybool x) = some (.pybool x) := by
  cases x <;> decide

theorem roundtrip_fixbytes (name : String) (num : Nat) (vm : ValMap)
    (hvm : vm = .identity ∨ vm = .ip) (n : Nat) (bs : List Nat)
    (hlen : bs.length = n) :
    roundtripVal (.structTy ⟨name, num, .s n, vm⟩) (.bytes bs) =
      some (.bytes bs) := by
  have hpack : bs.take n ++ List.replicate (n - bs.length) 0 = bs := by
    rw [hlen]; simp [List.take_of_length_le (le_of_eq hlen)]
  have hbytes : readBuf (writeBuf (fun _ => 0) 0 bs) 0 n = bs := by
    have := readBuf_writeBuf (fun _ => 0) 0 bs
    rwa [hlen] at this
  rcases hvm with h | h <;> subst h <;>
    simp [roundtripVal, IpfixTypeM.encode_single_value_to, encodeSingleBytes,
      applyValenc, structPack, hpack, IpfixTypeM.decode_single_value_from,
      stelSize, applyValdec, structUnpackFrom, Option.bind, hbytes]

theorem roundtrip_octetArray (bs : List Nat) :
    roundtripVal octetArrayT (.bytes bs) = some (.bytes bs) := by
  simp [roundtripVal, octetArrayT, IpfixTypeM.encode_single_value_to,
    encodeSingleBytes, applyValenc, IpfixTypeM.decode_single_value_from,
    applyValdec, Option.bind, readBuf_writeBuf]

theorem roundtrip_float32 (x : Float32B) (he : x.expo < 2 ^ 8)
    (hf : x.frac < 2 ^ 23) :
    roundtripVal float32T (.f32 x) = some (.f32 x) := by
  obtain ⟨s, e, f⟩ := x
  simp only at he hf
  have hval : (if s then 2 ^ 31 else 0) + e * 2 ^ 23 + f < 256 ^ 4 := by
    cases s <;> simp <;> omega
  have hbytes : ∀ v : Nat, readBuf (writeBuf (fun _ => 0) 0 (encBE 4 v)) 0 4
      = encBE 4 v := by
    intro v
    have := readBuf_writeBuf (fun _ => 0) 0 (encBE 4 v)
    rwa [encBE_length] at this
  have hdiv : ((if s = true then 2 ^ 31 else 0) + e * 2 ^ 23 + f)
      / 2 ^ 23 % 2 ^ 8 = e := by cases s <;> simp <;> omega
  have hm : ((if s = true then 2 ^ 31 else 0) + e * 2 ^ 23 + f) % 2 ^ 23
      = f := by cases s <;> simp <;> omega
  have hsg : decide (2 ^ 31 ≤ (if s = true then 2 ^ 31 else 0) +
      e * 2 ^ 23 + f) = s := by
    cases s <;> simp <;> omega
  simp only [roundtripVal, float32T, IpfixTypeM.encode_single_value_to,
    encodeSingleBytes, applyValenc, structPack,
    if_pos (And.intro he hf), Option.bind_eq_bind, Option.some_bind,
    Option.map_some', IpfixTypeM.decode_single_value_from, stelSize,
    applyValdec, structUnpackFrom, hbytes, decBE_encBE_of_lt hval,
    eq_self_iff_true, if_true, hdiv, hm, hsg]

theorem roundtrip_float64 (x : Float64B) (he : x.expo < 2 ^ 11)
    (hf : x.frac < 2 ^ 52) :
    roundtripVal float64T (.f64 x) = some (.f64 x) := by
  obtain ⟨s, e, f⟩ := x
  simp only at he hf
  have hval : (if s then 2 ^ 63 else 0) + e * 2 ^ 52 + f < 256 ^ 8 := by
    cases s <;> simp <;> omega
  have hbytes : ∀ v : Nat, readBuf (writeBuf (fun _ => 0) 0 (encBE 8 v)) 0 8
      = encBE 8 v := by
    intro v
    have := readBuf_writeBuf (fun _ => 0) 0 (encBE 8 v)
    rwa [encBE_length] at this
  have hdiv : ((if s = true then 2 ^ 63 else 0) + e * 2 ^ 52 + f)
      / 2 ^ 52 % 2 ^ 11 = e := by cases s <;> simp <;> omega
  have hm : ((if s = true then 2 ^ 63 else 0) + e * 2 ^ 52 + f) % 2 ^ 52
      = f := by cases s <;> simp <;> omega
  have hsg : decide (2 ^ 63 ≤ (if s = true then 2 ^ 63 else 0) +
      e * 2 ^ 52 + f) = s := by
    cases s <;> simp <;> omega
  simp only [roundtripVal, float64T, IpfixTypeM.encode_single_value_to,
    encodeSingleBytes, applyValenc, structPack,
    if_pos (And.intro he hf), Option.bind_eq_bind, Option.some_bind,
    Option.map_some', IpfixTypeM.decode_single_value_from, stelSize,
    applyValdec, structUnpackFrom, hbytes, decBE_encBE_of_lt hval,
    eq_self_iff_true, if_true, hdiv, hm, hsg]

theorem utf8DecodeOne_encodeChar (c : Nat) (hc : c < 0x110000)
    (bs : List Nat) :
    (utf8DecodeOne (utf8EncodeChar c ++ bs)).map (fun p => (p.1, p.2.val)) =
      some (c, bs) := by
  by_cases h1 : c < 0x80
  · have hE : utf8EncodeChar c = [c] := by simp [utf8EncodeChar, if_pos h1]
    rw [hE]
    simp only [List.cons_append, List.nil_append]
    simp only [utf8DecodeOne, h1, if_true, ite_true, Option.map_some']
  · by_cases h2 : c < 0x800
    · have ha : ¬ (0xC0 + c / 64 < 0x80) := by omega
      have hb1 : 0xC2 ≤ 0xC0 + c / 64 := by omega
      have hb2 : 0xC0 + c / 64 < 0xE0 := by omega
      have hd1 : 0x80 ≤ 0x80 + c % 64 := by omega
      have hd2 : 0x80 + c % 64 < 0xC0 := by omega
      have hx : (0xC0 + c / 64 - 0xC0) * 64 + (0x80 + c % 64 - 0x80) = c := by
        omega
      have hE : utf8EncodeChar c = [0xC0 + c / 64, 0x80 + c % 64] := by
        simp [utf8EncodeChar, if_neg h1, if_pos h2]
      rw [hE]
      simp only [List.cons_append, List.nil_append]
      simp only [utf8DecodeOne, ha, hb1, hb2, hd1, hd2, and_self, true_and,
        and_true, if_true, if_false, ite_true, ite_false, hx,
        Option.map_some']
    · by_cases h3 : c < 0x10000
      · have ha : ¬ (0xE0 + c / 4096 < 0x80) := by omega
        have hb : ¬ (0xC2 ≤ 0xE0 + c / 4096 ∧ 0xE0 + c / 4096 < 0xE0) := by
          omega
        have hcc1 : 0xE0 ≤ 0xE0 + c / 4096 := by omega
        have hcc2 : 0xE0 + c / 4096 < 0xF0 := by omega
        have hd1 : 0x80 ≤ 0x80 + c / 64 % 64 := by omega
        have hd2 : 0x80 + c / 64 % 64 < 0xC0 := by omega
        have he1 : 0x80 ≤ 0x80 + c % 64 := by omega
        have he2 : 0x80 + c % 64 < 0xC0 := by omega
        have hx : (0xE0 + c / 4096 - 0xE0) * 4096 +
            (0x80 + c / 64 % 64 - 0x80) * 64 + (0x80 + c % 64 - 0x80) = c := by
          omega
        have hE : utf8EncodeChar c =
            [0xE0 + c / 4096, 0x80 + c / 64 % 64, 0x80 + c % 64] := by
          simp [utf8EncodeChar, if_neg h1, if_neg h2, if_pos h3]
        rw [hE]
        simp only [List.cons_append, List.nil_append]
        simp only [utf8DecodeOne, ha, hb, hcc1, hcc2, hd1, hd2, he1, he2,
          and_self, true_and, and_true, false_and, and_false, if_true,
          if_false, ite_true, ite_false, hx, Option.map_some']
      · have ha : ¬ (0xF0 + c / 262144 < 0x80) := by omega
        have hb : ¬ (0xC2 ≤ 0xF0 + c / 262144 ∧
            0xF0 + c / 262144 < 0xE0) := by omega
        have hcc : ¬ (0xE0 ≤ 0xF0 + c / 262144 ∧
            0xF0 + c / 262144 < 0xF0) := by omega
        have hdd1 : 0xF0 ≤ 0xF0 + c / 262144 := by omega
        have hdd2 : 0xF0 + c / 262144 < 0xF5 := by omega
        have he1 : 0x80 ≤ 0x80 + c / 4096 % 64 := by omega
        have he2 : 0x80 + c / 4096 % 64 < 0xC0 := by omega
        have hf1 : 0x80 ≤ 0x80 + c / 64 % 64 := by omega
        have hf2 : 0x80 + c / 64 % 64 < 0xC0 := by omega
        have hg1 : 0x80 ≤ 0x80 + c % 64 := by omega
        have hg2 : 0x80 + c % 64 < 0xC0 := by omega
        have hx : (0xF0 + c / 262144 - 0xF0) * 262144 +
            (0x80 + c / 4096 % 64 - 0x80) * 4096 +
            (0x80 + c / 64 % 64 - 0x80) * 64 + (0x80 + c % 64 - 0x80) = c := by
          omega
        have hE : utf8EncodeChar c = [0xF0 + c / 262144,
            0x80 + c / 4096 % 64, 0x80 + c / 64 % 64, 0x80 + c % 64] := by
          simp [utf8EncodeChar, if_neg h1, if_neg h2, if_neg h3]
        rw [hE]
        simp only [List.cons_append, List.nil_append]
        simp only [utf8DecodeOne, ha, hb, hcc, hdd1, hdd2, he1, he2, hf1,
          hf2, hg1, hg2, and_self, true_and, and_true, false_and,
          and_false, if_true, if_false, ite_true, ite_false, hx,
          Option.map_some']

theorem utf8EncodeChar_cons (c : Nat) :
    ∃ u us, utf8EncodeChar c = u :: us := by
  unfold utf8EncodeChar
  split_ifs <;> exact ⟨_, _, rfl⟩

theorem utf8Decode_encodeChar (c : Nat) (hc : c < 0x110000)
    (bs : List Nat) :
    utf8Decode (utf8EncodeChar c ++ bs) = (utf8Decode bs).map (c :: ·) := by
  obtain ⟨u, us, hEc⟩ := utf8EncodeChar_cons c
  have hone := utf8DecodeOne_encodeChar c hc bs
  rw [hEc, List.cons_append] at hone ⊢
  rw [utf8Decode]
  cases h : utf8DecodeOne (u :: (us ++ bs)) with
  | none => rw [h] at hone; simp at hone
  | some p =>
      obtain ⟨c1, rest⟩ := p
      rw [h] at hone
      simp only [Option.map_some', Option.some.injEq, Prod.mk.injEq] at hone
      obtain ⟨hc1, hrest⟩ := hone
      simp only [hc1, hrest]

theorem utf8Decode_utf8Encode (cs : List Nat)
    (h : ∀ c ∈ cs, c < 0x110000) :
    utf8Decode (utf8Encode cs) = some cs := by
  induction cs with
  | nil =>
      have h0 : utf8Encode [] = [] := by simp [utf8Encode]
      rw [h0, utf8Decode]
  | cons c rest ih =>
      have hc : c < 0x110000 := h c (List.mem_cons_self c rest)
      have hr : ∀ x ∈ rest, x < 0x110000 := fun x hx =>
        h x (List.mem_cons_of_mem c hx)
      rw [utf8Encode] at *
      simp only [List.map_cons, List.flatten_cons]
      rw [utf8Decode_encodeChar c hc, ih hr]
      rfl

theorem roundtrip_string (cs : List Nat) (h : ∀ c ∈ cs, c < 0x110000) :
    roundtripVal stringT (.str cs) = some (.str cs) := by
  simp only [roundtripVal, stringT, IpfixTypeM.encode_single_value_to,
    encodeSingleBytes, applyValenc, Option.bind_eq_bind, Option.some_bind,
    Option.map_some', IpfixTypeM.decode_single_value_from, applyValdec,
    Nat.zero_add, readBuf_writeBuf, utf8Decode_utf8Encode cs h]

theorem ntpDec_ntpEnc (m : Nat) : ntpDec (ntpEnc m) = m := by
  have hdivq : ntpEnc m / 2 ^ 32 = m / 1000000 := by
    rw [ntpEnc]; norm_num; omega
  have hmodq : ntpEnc m % 2 ^ 32 = m % 1000000 * 2 ^ 32 / 1000000 := by
    rw [ntpEnc]; norm_num; omega
  rw [ntpDec, hdivq, hmodq, utcMicros, round_eq]
  have h232 : (0 : ℚ) < 2 ^ 32 := by positivity
  have hnat1 : m * 4294967296 ≤
      m / 1000000 * 1000000 * 4294967296 +
      m % 1000000 * 4294967296 / 1000000 * 1000000 + 2147483648 := by
    omega
  have hnat2 : m / 1000000 * 1000000 * 4294967296 +
      m % 1000000 * 4294967296 / 1000000 * 1000000 + 2147483648 <
      (m + 1) * 4294967296 := by
    omega
  have e1 : ((((m / 1000000 : Nat) : ℚ) +
      ((m % 1000000 * 2 ^ 32 / 1000000 : Nat) : ℚ) / 2 ^ 32) * 1000000 +
      1 / 2) * 2 ^ 32 =
      ((m / 1000000 : Nat) : ℚ) * 1000000 * 2 ^ 32 +
      ((m % 1000000 * 2 ^ 32 / 1000000 : Nat) : ℚ) * 1000000 + 2 ^ 31 := by
    field_simp
    ring
  rw [Int.floor_eq_iff]
  constructor
  · refine (mul_le_mul_right h232).mp ?_
    rw [e1]
    norm_num
    exact_mod_cast hnat1
  · refine (mul_lt_mul_right h232).mp ?_
    rw [e1]
    norm_num
    exact_mod_cast hnat2

theorem roundtripVal_structTy (st : StructTypeM) (v wire : PyVal)
    (bs : List Nat)
    (henc : applyValenc st.vmap v = some wire)
    (hpack : structPack st.stel wire = some bs) :
    roundtripVal (.structTy st) v =
      applyValdec st.vmap
        (structUnpackFrom st.stel (writeBuf (fun _ => 0) 0 bs) 0) := by
  simp [roundtripVal, IpfixTypeM.encode_single_value_to, encodeSingleBytes,
    henc, hpack, IpfixTypeM.decode_single_value_from]

theorem roundtrip_sec (m : Nat) (h : m < 4294967296 * 1000000) :
    roundtripVal dateTimeSecondsT (.dt m) =
      some (.dt (m / 1000000 * 1000000)) := by
  have hn : m / 1000000 < 4294967296 := by omega
  have hpow : (256 : Nat) ^ 4 = 4294967296 := by norm_num
  have hn256 : m / 1000000 < 256 ^ 4 := by rw [hpow]; exact hn
  have hi : ((m / 1000000 : Nat) : Int) < 256 ^ 4 := by exact_mod_cast hn256
  have hpack : structPack .L (.int ((m / 1000000 : Nat) : Int)) =
      some (encBE 4 (m / 1000000)) := by
    rw [structPack]
    rw [if_pos (And.intro (Int.natCast_nonneg _) hi)]
    rw [Int.toNat_natCast]
  have hkey := roundtripVal_structTy ⟨"dateTimeSeconds", 14, .L, .sec⟩
    (.dt m) (.int ((m / 1000000 : Nat) : Int)) (encBE 4 (m / 1000000))
    (by rw [applyValenc, secEnc]) hpack
  rw [dateTimeSecondsT, hkey]
  have hbytes : readBuf (writeBuf (fun _ => 0) 0 (encBE 4 (m / 1000000))) 0 4
      = encBE 4 (m / 1000000) := by
    have := readBuf_writeBuf (fun _ => 0) 0 (encBE 4 (m / 1000000))
    rwa [encBE_length] at this
  rw [structUnpackFrom, hbytes, decBE_encBE_of_lt hn256, applyValdec,
    Int.toNat_natCast, secDec]

theorem roundtrip_msec (m : Nat)
    (h : m < 18446744073709551616 * 1000) :
    roundtripVal dateTimeMillisecondsT (.dt m) =
      some (.dt (m / 1000 * 1000)) := by
  have hn : m / 1000 < 18446744073709551616 := by omega
  have hpow : (256 : Nat) ^ 8 = 18446744073709551616 := by norm_num
  have hn256 : m / 1000 < 256 ^ 8 := by rw [hpow]; exact hn
  have hi : ((m / 1000 : Nat) : Int) < 256 ^ 8 := by exact_mod_cast hn256
  have hpack : structPack .Q (.int ((m / 1000 : Nat) : Int)) =
      some (encBE 8 (m / 1000)) := by
    rw [structPack]
    rw [if_pos (And.intro (Int.natCast_nonneg _) hi)]
    rw [Int.toNat_natCast]
  have hkey := roundtripVal_structTy ⟨"dateTimeMilliseconds", 15, .Q, .msec⟩
    (.dt m) (.int ((m / 1000 : Nat) : Int)) (encBE 8 (m / 1000))
    (by rw [applyValenc, msecEnc]) hpack
  rw [dateTimeMillisecondsT, hkey]
  have hbytes : readBuf (writeBuf (fun _ => 0) 0 (encBE 8 (m / 1000))) 0 8
      = encBE 8 (m / 1000) := by
    have := readBuf_writeBuf (fun _ => 0) 0 (encBE 8 (m / 1000))
    rwa [encBE_length] at this
  rw [structUnpackFrom, hbytes, decBE_encBE_of_lt hn256, applyValdec,
    Int.toNat_natCast, msecDec]

theorem roundtrip_ntp (name : String) (num : Nat) (m : Nat)
    (h : m < 4294967296 * 1000000) :
    roundtripVal (.structTy ⟨name, num, .Q, .ntp⟩) (.dt m) =
      some (.dt m) := by
  have hpow : (256 : Nat) ^ 8 = 18446744073709551616 := by norm_num
  have hn : ntpEnc m < 18446744073709551616 := by
    rw [ntpEnc]
    norm_num
    omega
  have hn256 : ntpEnc m < 256 ^ 8 := by rw [hpow]; exact hn
  have hi : ((ntpEnc m : Nat) : Int) < 256 ^ 8 := by exact_mod_cast hn256
  have hpack : structPack .Q (.int ((ntpEnc m : Nat) : Int)) =
      some (encBE 8 (ntpEnc m)) := by
    rw [structPack]
    rw [if_pos (And.intro (Int.natCast_nonneg _) hi)]
    rw [Int.toNat_natCast]
  have hkey := roundtripVal_structTy ⟨name, num, .Q, .ntp⟩
    (.dt m) (.int ((ntpEnc m : Nat) : Int)) (encBE 8 (ntpEnc m))
    (by rw [applyValenc]) hpack
  rw [hkey]
  have hbytes : readBuf (writeBuf (fun _ => 0) 0 (encBE 8 (ntpEnc m))) 0 8
      = encBE 8 (ntpEnc m) := by
    have := readBuf_writeBuf (fun _ => 0) 0 (encBE 8 (ntpEnc m))
    rwa [encBE_length] at this
  have hdec : (ntpDec (ntpEnc m)).toNat = m := by rw [ntpDec_ntpEnc]; omega
  rw [structUnpackFrom, hbytes, decBE_encBE_of_lt hn256, applyValdec,
    Int.toNat_natCast, hdec]

/-- **C2** — For every built-in IPFIX type `T` and every value `v` in `T`'s
supported domain, decoding the bytes produced by encoding `v` at `T`'s
natural length yields `v` up to the documented precision: exact equality
for the integer types, addresses, `macAddress`, `boolean`, `octetArray` and
`string`; exact bit-field round-trip for `float32` on its supported domain
of binary32-representable values (a fortiori within 1 ULP) and likewise
for `float64`; truncation to whole seconds for `dateTimeSeconds`;
truncation to whole milliseconds for `dateTimeMilliseconds`; and for
`dateTimeMicroseconds`/`dateTimeNanoseconds` the decoded timestamp is
exactly the original (a fortiori within one NTP fraction unit, the
quantization the encoder applies). -/
theorem C2_type_codec_roundtrip :
    (∀ i : Int, 0 ≤ i → i < 256 ^ 1 →
      roundtripVal unsigned8T (.int i) = some (.int i)) ∧
    (∀ i : Int, 0 ≤ i → i < 256 ^ 2 →
      roundtripVal unsigned16T (.int i) = some (.int i)) ∧
    (∀ i : Int, 0 ≤ i → i < 256 ^ 4 →
      roundtripVal unsigned32T (.int i) = some (.int i)) ∧
    (∀ i : Int, 0 ≤ i → i < 256 ^ 8 →
      roundtripVal unsigned64T (.int i) = some (.int i)) ∧
    (∀ i : Int, -(2 ^ 7) ≤ i → i < 2 ^ 7 →
      roundtripVal signed8T (.int i) = some (.int i)) ∧
    (∀ i : Int, -(2 ^ 15) ≤ i → i < 2 ^ 15 →
      roundtripVal signed16T (.int i) = some (.int i)) ∧
    (∀ i : Int, -(2 ^ 31) ≤ i → i < 2 ^ 31 →
      roundtripVal signed32T (.int i) = some (.int i)) ∧
    (∀ i : Int, -(2 ^ 63) ≤ i → i < 2 ^ 63 →
      roundtripVal signed64T (.int i) = some (.int i)) ∧
    (∀ b : Bool, roundtripVal booleanT (.pybool b) = some (.pybool b)) ∧
    (∀ bs : List Nat, bs.length = 6 →
      roundtripVal macAddressT (.bytes bs) = some (.bytes bs)) ∧
    (∀ bs : List Nat, bs.length = 4 →
      roundtripVal ipv4AddressT (.bytes bs) = some (.bytes bs)) ∧
    (∀ bs : List Nat, bs.length = 16 →
      roundtripVal ipv6AddressT (.bytes bs) = some (.bytes bs)) ∧
    (∀ bs : List Nat, roundtripVal octetArrayT (.bytes bs) = some (.bytes bs)) ∧
    (∀ cs : List Nat, (∀ c ∈ cs, c < 0x110000) →
      roundtripVal stringT (.str cs) = some (.str cs)) ∧
    (∀ x : Float32B, x.expo < 2 ^ 8 → x.frac < 2 ^ 23 →
      roundtripVal float32T (.f32 x) = some (.f32 x)) ∧
    (∀ x : Float64B, x.expo < 2 ^ 11 → x.frac < 2 ^ 52 →
      roundtripVal float64T (.f64 x) = some (.f64 x)) ∧
    (∀ m : Nat, m < 4294967296 * 1000000 →
      roundtripVal dateTimeSecondsT (.dt m) =
        some (.dt (m / 1000000 * 1000000))) ∧
    (∀ m : Nat, m < 18446744073709551616 * 1000 →
      roundtripVal dateTimeMillisecondsT (.dt m) =
        some (.dt (m / 1000 * 1000))) ∧
    (∀ m : Nat, m < 4294967296 * 1000000 →
      roundtripVal dateTimeMicrosecondsT (.dt m) = some (.dt m)) ∧
    (∀ m : Nat, m < 4294967296 * 1000000 →
      roundtripVal dateTimeNanosecondsT (.dt m) = some (.dt m)) := by
  refine ⟨?_, ?_, ?_, ?_, ?_, ?_, ?_, ?_, ?_, ?_, ?_, ?_, ?_, ?_, ?_, ?_,
    ?_, ?_, ?_, ?_⟩
  · exact fun i h1 h2 =>
      roundtrip_uint "unsigned8" 1 .B 1 (Or.inl ⟨rfl, rfl⟩) i h1 h2
  · exact fun i h1 h2 =>
      roundtrip_uint "unsigned16" 2 .H 2 (Or.inr (Or.inl ⟨rfl, rfl⟩)) i h1 h2
  · exact fun i h1 h2 =>
      roundtrip_uint "unsigned32" 3 .L 4
        (Or.inr (Or.inr (Or.inl ⟨rfl, rfl⟩))) i h1 h2
  · exact fun i h1 h2 =>
      roundtrip_uint "unsigned64" 4 .Q 8
        (Or.inr (Or.inr (Or.inr ⟨rfl, rfl⟩))) i h1 h2
  · exact fun i h1 h2 =>
      roundtrip_sint "signed8" 5 .b 1 (Or.inl ⟨rfl, rfl⟩) i h1 h2
  · exact fun i h1 h2 =>
      roundtrip_sint "signed16" 6 .h 2 (Or.inr (Or.inl ⟨rfl, rfl⟩)) i h1 h2
  · exact fun i h1 h2 =>
      roundtrip_sint "signed32" 7 .l 4
        (Or.inr (Or.inr (Or.inl ⟨rfl, rfl⟩))) i h1 h2
  · exact fun i h1 h2 =>
      roundtrip_sint "signed64" 8 .q 8
        (Or.inr (Or.inr (Or.inr ⟨rfl, rfl⟩))) i h1 h2
  · exact roundtrip_boolean
  · exact fun bs hl =>
      roundtrip_fixbytes "macAddress" 12 .identity (Or.inl rfl) 6 bs hl
  · exact fun bs hl =>
      roundtrip_fixbytes "ipv4Address" 18 .ip (Or.inr rfl) 4 bs hl
  · exact fun bs hl =>
      roundtrip_fixbytes "ipv6Address" 19 .ip (Or.inr rfl) 16 bs hl
  · exact roundtrip_octetArray
  · exact roundtrip_string
  · exact roundtrip_float32
  · exact roundtrip_float64
  · exact roundtrip_sec
  · exact roundtrip_msec
  · exact fun m hm => roundtrip_ntp "dateTimeMicroseconds" 16 m hm
  · exact fun m hm => roundtrip_ntp "dateTimeNanoseconds" 17 m hm

/-- Witness for C2 at concrete inputs. -/
theorem C2_type_codec_roundtrip_witness :
    roundtripVal unsigned32T (.int 42) = some (.int 42) ∧
    roundtripVal signed16T (.int (-5)) = some (.int (-5)) ∧
    roundtripVal booleanT (.pybool false) = some (.pybool false) ∧
    roundtripVal macAddressT (.bytes [1, 2, 3, 4, 5, 6]) =
      some (.bytes [1, 2, 3, 4, 5, 6]) ∧
    roundtripVal stringT (.str [71, 252, 101]) =
      some (.str [71, 252, 101]) ∧
    roundtripVal float32T (.f32 ⟨true, 130, 12345⟩) =
      some (.f32 ⟨true, 130, 12345⟩) ∧
    roundtripVal dateTimeSecondsT (.dt 1371823203456789) =
      some (.dt (1371823203456789 / 1000000 * 1000000)) ∧
    roundtripVal dateTimeMicrosecondsT (.dt 1371823203456789) =
      some (.dt 1371823203456789) := by
  obtain ⟨h1, h2, h3, h4, h5, h6, h7, h8, h9, h10, h11, h12, h13, h14, h15,
    h16, h17, h18, h19, h20⟩ := C2_type_codec_roundtrip
  exact ⟨h3 42 (by decide) (by decide), h6 (-5) (by decide) (by decide),
    h9 false, h10 [1, 2, 3, 4, 5, 6] (by decide),
    h14 [71, 252, 101] (by decide), h15 ⟨true, 130, 12345⟩ (by decide)
      (by decide),
    h17 1371823203456789 (by decide), h19 1371823203456789 (by decide)⟩

/-! ## RLE specialization lemmas (claims C4 and C5) -/

theorem stelRLE_size {s : StEl} {n : Nat} {s2 : StEl}
    (h : stelRLE s n = some s2) : stelSize s2 = n := by
  cases s <;> simp only [stelRLE] at h <;> try split_ifs at h
  all_goals try injection h with h2
  all_goals try subst h2
  all_goals simp_all [stelSize]

theorem stelRLE_narrow {s : StEl} {n : Nat} {s2 : StEl}
    (h : stelRLE s n = some s2) : n < stelSize s := by
  cases s <;> simp only [stelRLE] at h <;> try split_ifs at h
  all_goals try injection h with h2
  all_goals try subst h2
  all_goals simp_all [stelSize]

theorem stelRLE_no_widen {s : StEl} {n : Nat} {s2 : StEl}
    (h : stelRLE s n = some s2) : stelRLE s2 (stelSize s) = none := by
  cases s <;> simp only [stelRLE] at h <;> try split_ifs at h
  all_goals try injection h with h2
  all_goals try subst h2
  all_goals simp_all [stelRLE, stelSize]

theorem stelRLE_table (s : StEl) (n : Nat) :
    (stelRLE s n).isSome ↔
      ((s = .H ∧ n = 1) ∨ (s = .L ∧ (n = 2 ∨ n = 1)) ∨
       (s = .Q ∧ (n = 4 ∨ n = 2 ∨ n = 1)) ∨ (s = .h ∧ n = 1) ∨
       (s = .l ∧ (n = 2 ∨ n = 1)) ∨ (s = .q ∧ (n = 4 ∨ n = 2 ∨ n = 1)) ∨
       (s = .d ∧ n = 4)) := by
  cases s <;> simp only [stelRLE] <;> try split_ifs
  all_goals simp_all

/-- **C4 counterexample** — `octetDeltaCount` (`unsigned64`, length 8)
specialized to 4 bytes succeeds, but re-specializing the result back to
length 8 raises `IpfixTypeError` (the RLE table has no widening entries),
refuting the claim that the second specialization raises no error. -/
theorem C4_counterexample :
    (((⟨"octetDeltaCount", 0, 1, 8, unsigned64T⟩ : IEr).for_length 4).isSome
      = true) ∧
    ((⟨"octetDeltaCount", 0, 1, 8, unsigned64T⟩ : IEr).for_length 4).bind
      (fun e2 => e2.for_length 8) = none := by
  constructor <;> rfl

/-- **C4 (amended)** — `(pen, num)` identity is stable under every
successful `for_length`; the round-trip
`e.for_length(n).for_length(e.length) == e` holds (returning `e` itself,
with no error) exactly in the trivial cases `n = 0` and `n = e.length`;
for every other `n` at which the first specialization succeeds, the second
specialization raises `IpfixTypeError` because the RLE table cannot
re-widen a narrowed type (here for IEs whose stored type matches their
length, the invariant `mkInformationElement` maintains). -/
theorem C4_for_length_roundtrip :
    (∀ (e : IEr) (n : Nat) (e2 : IEr), e.for_length n = some e2 →
      e2.eqIE e) ∧
    (∀ (e : IEr) (n : Nat), (n = 0 ∨ n = e.length) →
      (e.for_length n).bind (fun e2 => e2.for_length e.length) = some e) ∧
    (∀ (e : IEr) (n : Nat) (e2 : IEr), e.length = e.type.length →
      0 < e.length → n ≠ 0 → n ≠ e.length → e.for_length n = some e2 →
      e2.for_length e.length = none) := by
  refine ⟨?_, ?_, ?_⟩
  · intro e n e2 h
    rw [IEr.for_length] at h
    split_ifs at h with h0
    · cases h
      rfl
    · rw [mkInformationElement] at h
      rw [Option.map_eq_some'] at h
      obtain ⟨ty, _, hb⟩ := h
      subst hb
      rfl
  · intro e n h
    rcases h with h | h <;> subst h <;>
      simp [IEr.for_length]
  · intro e n e2 hlen hpos hn0 hne h
    rw [IEr.for_length, if_neg (by tauto)] at h
    rw [mkInformationElement] at h
    rw [Option.map_eq_some'] at h
    obtain ⟨ty2, hty2, he2⟩ := h
    rw [if_pos hn0] at hty2 he2
    subst he2
    rw [IEr.for_length]
    simp only
    rw [if_neg (by omega)]
    rw [mkInformationElement]
    rw [if_pos (show e.length ≠ 0 by omega)]
    suffices hsuf : ty2.for_length e.length = none by
      rw [hsuf]
      rfl
    cases hty : e.type with
    | octetArrayTy nm nu vm =>
        rw [hty] at hty2 hlen
        rw [IpfixTypeM.length] at hlen
        rw [IpfixTypeM.for_length] at hty2
        rw [if_neg (by omega)] at hty2
        cases hty2
        rw [IpfixTypeM.for_length]
        rw [if_neg (by simp [stelSize]; omega)]
        rw [show stelRLE (.s n) e.length = none from rfl]
    | structTy st =>
        rw [hty] at hty2 hlen
        rw [IpfixTypeM.length] at hlen
        rw [IpfixTypeM.for_length] at hty2
        rw [if_neg (by omega)] at hty2
        cases hrle : stelRLE st.stel n with
        | none => rw [hrle] at hty2; cases hty2
        | some s2 =>
            rw [hrle] at hty2
            cases hty2
            have hsz := stelRLE_size hrle
            have hnw := stelRLE_no_widen hrle
            rw [IpfixTypeM.for_length]
            simp only
            rw [if_neg (by simp only [hsz]; omega)]
            rw [hlen, hnw]

/-- Witness for C4 (amended): the unsigned64 `octetDeltaCount` IE at its
natural length round-trips trivially, its 4-byte specialization keeps the
`(pen, num)` identity, and re-widening that specialization raises. -/
theorem C4_for_length_roundtrip_witness :
    (((⟨"octetDeltaCount", 0, 1, 8, unsigned64T⟩ : IEr).for_length 8).bind
      (fun e2 => e2.for_length 8) =
        some ⟨"octetDeltaCount", 0, 1, 8, unsigned64T⟩) ∧
    (⟨"octetDeltaCount", 0, 1, 4,
        .structTy ⟨"unsigned64", 4, .L, .identity⟩⟩ : IEr).eqIE
      ⟨"octetDeltaCount", 0, 1, 8, unsigned64T⟩ ∧
    (⟨"octetDeltaCount", 0, 1, 4,
        .structTy ⟨"unsigned64", 4, .L, .identity⟩⟩ : IEr).for_length 8 =
      none := by
  refine ⟨C4_for_length_roundtrip.2.1 _ 8 (Or.inr rfl), ?_, ?_⟩
  · exact C4_for_length_roundtrip.1
      (⟨"octetDeltaCount", 0, 1, 8, unsigned64T⟩ : IEr) 4 _ (by rfl)
  · exact C4_for_length_roundtrip.2.2
      (⟨"octetDeltaCount", 0, 1, 8, unsigned64T⟩ : IEr) 4 _ (by rfl)
      (by decide) (by decide) (by decide) (by rfl)

/-- **C5 counterexample** — requesting the reduced-length specialization of
`dateTimeSeconds` at 2 bytes does not raise: because the timestamp types
share the integer struct codes (`L`/`Q`), `for_length` happily narrows
them through the integer RLE table, refuting the claim that reduced-length
requests on timestamp types raise a type error. -/
theorem C5_counterexample :
    dateTimeSecondsT.for_length 2 =
      some (.structTy ⟨"dateTimeSeconds", 14, .H, .sec⟩) := by
  rfl

/-- **C5 (amended)** — Reduced-length requests on the address types,
`macAddress` and `boolean` raise `IpfixTypeError` for every length other
than 0 (falsy, returns the type unchanged) and the natural length; but
the four timestamp types, whose struct codes are the integer codes
`L`/`Q`, are narrowed successfully through the integer entries of the RLE
table; in general a packed type narrows at a non-natural length exactly
when `(code, length)` is in `_stel_rle`, whose entries are precisely the
unsigned (`H→B`, `L→H/B`, `Q→L/H/B`), signed mirror, and `d→f`
narrowings. -/
theorem C5_reduced_length_support :
    (∀ n : Nat, n ≠ 0 → n ≠ 6 → macAddressT.for_length n = none) ∧
    (∀ n : Nat, n ≠ 0 → n ≠ 4 → ipv4AddressT.for_length n = none) ∧
    (∀ n : Nat, n ≠ 0 → n ≠ 16 → ipv6AddressT.for_length n = none) ∧
    (∀ n : Nat, n ≠ 0 → n ≠ 1 → booleanT.for_length n = none) ∧
    (dateTimeSecondsT.for_length 2 =
      some (.structTy ⟨"dateTimeSeconds", 14, .H, .sec⟩) ∧
     dateTimeSecondsT.for_length 1 =
      some (.structTy ⟨"dateTimeSeconds", 14, .B, .sec⟩) ∧
     dateTimeMillisecondsT.for_length 4 =
      some (.structTy ⟨"dateTimeMilliseconds", 15, .L, .msec⟩) ∧
     dateTimeMicrosecondsT.for_length 4 =
      some (.structTy ⟨"dateTimeMicroseconds", 16, .L, .ntp⟩) ∧
     dateTimeNanosecondsT.for_length 2 =
      some (.structTy ⟨"dateTimeNanoseconds", 17, .H, .ntp⟩)) ∧
    (∀ (st : StructTypeM) (n : Nat), n ≠ 0 → n ≠ stelSize st.stel →
      (((IpfixTypeM.structTy st).for_length n).isSome ↔
        (stelRLE st.stel n).isSome)) ∧
    (∀ (s : StEl) (n : Nat),
      (stelRLE s n).isSome ↔
        ((s = .H ∧ n = 1) ∨ (s = .L ∧ (n = 2 ∨ n = 1)) ∨
         (s = .Q ∧ (n = 4 ∨ n = 2 ∨ n = 1)) ∨ (s = .h ∧ n = 1) ∨
         (s = .l ∧ (n = 2 ∨ n = 1)) ∨ (s = .q ∧ (n = 4 ∨ n = 2 ∨ n = 1)) ∨
         (s = .d ∧ n = 4))) := by
  refine ⟨?_, ?_, ?_, ?_, ⟨rfl, rfl, rfl, rfl, rfl⟩, ?_, stelRLE_table⟩
  · intro n h0 h6
    rw [macAddressT, IpfixTypeM.for_length]
    rw [if_neg (by simp [stelSize]; omega)]
    rfl
  · intro n h0 h4
    rw [ipv4AddressT, IpfixTypeM.for_length]
    rw [if_neg (by simp [stelSize]; omega)]
    rfl
  · intro n h0 h16
    rw [ipv6AddressT, IpfixTypeM.for_length]
    rw [if_neg (by simp [stelSize]; omega)]
    rfl
  · intro n h0 h1
    rw [booleanT, IpfixTypeM.for_length]
    rw [if_neg (by simp [stelSize]; omega)]
    cases n with
    | zero => omega
    | succ k =>
        cases k with
        | zero => omega
        | succ j => rfl
  · intro st n h0 hnat
    rw [IpfixTypeM.for_length]
    rw [if_neg (by omega)]
    cases stelRLE st.stel n <;> simp

/-- Witness for C5 (amended) at concrete lengths. -/
theorem C5_reduced_length_support_witness :
    macAddressT.for_length 4 = none ∧
    ipv4AddressT.for_length 2 = none ∧
    booleanT.for_length 2 = none ∧
    (((IpfixTypeM.structTy ⟨"unsigned64", 4, .Q, .identity⟩).for_length
        4).isSome ↔ (stelRLE .Q 4).isSome) ∧
    ((stelRLE .Q 4).isSome ↔ True) := by
  obtain ⟨h1, h2, _, h4, _, h6, h7⟩ := C5_reduced_length_support
  refine ⟨h1 4 (by decide) (by decide), h2 2 (by decide) (by decide),
    h4 2 (by decide) (by decide), ?_, ?_⟩
  · exact h6 ⟨"unsigned64", 4, .Q, .identity⟩ 4 (by decide) (by decide)
  · rw [h7 .Q 4]
    simp

/-! ## Claim C3: the varlenslice falsy-zero bug -/

/-- **C3 (code evaluated at the failing input)** — For a template whose
first IE (index 0) is variable-length: appending two varlen IEs leaves
`varlenslice = 1` (the *second* varlen IE's index), because `append` tests
`if not self.varlenslice:` and index 0 is falsy; and `from_ielist` fails
outright (`fixlen_count` treats the zero slice as "no varlen", so the
packing-plan compiler reads `stel` off the octet-array type and raises
`AttributeError`).  Record decode therefore never processes the varlen
tail for such templates, contradicting the claim (and `fixlen_count`'s own
docstring). -/
theorem C3_varlenslice_first_index_bug :
    ((newTemplate 256).map (fun t0 =>
        ([(⟨"name1", 0, 82, VARLEN, stringT⟩ : IEr),
          (⟨"name2", 0, 83, VARLEN, stringT⟩ : IEr)].foldl
          TemplateM.append t0).varlenslice)) = some (some 1) ∧
    from_ielist 256 [⟨"name1", 0, 82, VARLEN, stringT⟩] = none ∧
    from_ielist 256 [⟨"name1", 0, 82, VARLEN, stringT⟩,
                     ⟨"octetDeltaCount8", 0, 1, 1, unsigned8T⟩] = none := by
  refine ⟨rfl, rfl, rfl⟩

/-! ## Claim C8: malformed input raises NameError, not IpfixDecodeError -/

/-- **C8 (code evaluated at the failing inputs)** — Of the four malformed
kinds the claim lists, `from_bytes` raises `IpfixDecodeError` only for a
wrong version and a declared length below 20; an input shorter than the
16-byte header dies building the error message (`len(msghdr)` —
`msghdr` is not a name in `from_bytes`), and a set length overflowing the
message hits the misspelled class name `IPFIXDecodeError` in
`_scan_setlist` — both raise `NameError` instead. -/
theorem C8_malformed_input_errors :
    (match MessageBuffer.init.from_bytes [0, 10, 0, 20] 10 with
     | .err e _ => some e | _ => none) = some PyErr.nameError ∧
    (match MessageBuffer.init.from_bytes
        [0, 1, 0, 20, 0, 0, 0, 0, 0, 0, 0, 0, 0, 0, 0, 0, 0, 0, 0, 0]
        10 with
     | .err e _ => some e | _ => none) = some PyErr.ipfixDecodeError ∧
    (match MessageBuffer.init.from_bytes
        [0, 10, 0, 17, 0, 0, 0, 0, 0, 0, 0, 0, 0, 0, 0, 0, 0]
        10 with
     | .err e _ => some e | _ => none) = some PyErr.ipfixDecodeError ∧
    (match MessageBuffer.init.from_bytes
        [0, 10, 0, 20, 0, 0, 0, 0, 0, 0, 0, 0, 0, 0, 0, 0, 1, 0, 0, 8]
        10 with
     | .err e _ => some e | _ => none) = some PyErr.nameError := by
  refine ⟨rfl, rfl, rfl, rfl⟩

/-! ## Claim C10: export_tuple with a projection raises NameError -/

/-- **C10 (code evaluated at the failing input)** — With a template
installed and its set open, `export_tuple(rec, ielist)` with a non-`None`
projection reaches `Template.encode_tuple_to`, whose `recinf` branch reads
the never-assigned local `packplan` (line 245 of `ipfix/template.py`);
CPython raises `UnboundLocalError`/`NameError` instead of encoding the
reordered record as the claim describes. -/
theorem C10_export_tuple_projection_bug :
    (match from_ielist 258 [⟨"octetDeltaCount8", 0, 1, 1, unsigned8T⟩] with
     | some t =>
        match exportFlow 7 t [] with
        | .ok () st =>
            match st.export_tuple [.int 3]
                (some [⟨"octetDeltaCount8", 0, 1, 1, unsigned8T⟩]) with
            | .err e _ => some e
            | _ => none
        | _ => none
     | none => none) = some PyErr.nameError := by
  rfl

/-! ## Claim C9: begin_export -/

/-- **C9 counterexample** — A buffer on domain 1 with stored counters
`{(1,0) ↦ 5, (2,0) ↦ 9}` that begins export for domain 2 gets outgoing
sequence number 5 (the counter of the *previous* domain), not the stored
counter 9 of the odid passed to the call: `begin_export` reads the counter
before switching `self.odid`. -/
theorem C9_counterexample :
    (match ({ MessageBuffer.init with
              odid := 1
              sequences := [((1, 0), 5), ((2, 0), 9)] }).begin_export 2 with
     | .ok () st => some (st.sequence, st.odid)
     | _ => none) = some (5, 2) ∧
    List.lookup (2, 0) [((1, 0), 5), ((2, 0), 9)] = some 9 ∧
    (5 : Nat) ≠ 9 := by
  refine ⟨rfl, rfl, by decide⟩

/-- **C9 (amended)** — After `begin_export(odid)` (on a buffer whose MTU
exceeds the 16-byte header): the write cursor and message length are 16,
the header bytes are zeroed, the current set id is cleared, the set list
is empty, and the outgoing sequence number equals the stored counter for
the observation domain *in effect before the call* (which equals the
passed odid's counter only when the domains coincide); the domain itself
becomes `odid` when non-zero (Python truthiness) and is retained
otherwise. -/
theorem C9_begin_export (st : MessageBuffer) (odid : Nat)
    (hmtu : 16 < st.mtu) :
    match st.begin_export odid with
    | .ok () st2 =>
        st2.length = 16 ∧ st2.cursetoff = 16 ∧ st2.cursetid = none ∧
        st2.setlist = [] ∧
        readBuf st2.mbuf 0 16 = List.replicate 16 0 ∧
        st2.sequence =
          (List.lookup (st.odid, st.streamid) st.sequences).getD 0 ∧
        st2.odid = (if odid ≠ 0 then odid else st.odid)
    | _ => False := by
  have hrd : readBuf (writeBuf st.mbuf 0 (List.replicate 16 0)) 0 16 =
      List.replicate 16 0 := by
    have h2 := readBuf_writeBuf st.mbuf 0 (List.replicate 16 (0 : Nat))
    rwa [List.length_replicate] at h2
  have hseq : (List.lookup (st.odid, st.streamid)
      (if (List.lookup (st.odid, st.streamid) st.sequences).isSome then
        st.sequences
      else ((st.odid, st.streamid), 0) :: st.sequences)).getD 0 =
      (List.lookup (st.odid, st.streamid) st.sequences).getD 0 := by
    by_cases hsk : (List.lookup (st.odid, st.streamid) st.sequences).isSome
    · rw [if_pos hsk]
    · rw [if_neg hsk]
      rw [Option.not_isSome_iff_eq_none] at hsk
      rw [hsk]
      simp [List.lookup]
  rw [MessageBuffer.begin_export]
  simp only
  by_cases hod : odid ≠ 0
  · rw [if_pos hod]
    simp only
    rw [if_neg (show ¬ (st.mtu ≤ 16) by omega)]
    simp only
    exact ⟨by trivial, by trivial, by trivial, by trivial, hrd, hseq,
      by simp [hod]⟩
  · rw [if_neg hod]
    simp only
    rw [if_neg (show ¬ (st.mtu ≤ 16) by omega)]
    simp only
    exact ⟨by trivial, by trivial, by trivial, by trivial, hrd, hseq,
      by simp [hod]⟩

/-- Witness for C9 (amended) on a concrete buffer. -/
theorem C9_begin_export_witness :
    16 < MessageBuffer.init.mtu ∧
    (match MessageBuffer.init.begin_export 3 with
     | .ok () st2 =>
        st2.length = 16 ∧ st2.cursetoff = 16 ∧ st2.cursetid = none ∧
        st2.setlist = [] ∧
        readBuf st2.mbuf 0 16 = List.replicate 16 0 ∧
        st2.sequence = (List.lookup (0, 0)
          MessageBuffer.init.sequences).getD 0 ∧
        st2.odid = (if (3 : Nat) ≠ 0 then 3 else 0)
     | _ => False) :=
  ⟨by decide, C9_begin_export MessageBuffer.init 3 (by decide)⟩

/-! ## Claim C6: export_record length discipline -/

/-- `_increment_sequence` touches only `sequences`: it adds one to the
buffer's own counter. -/
theorem increment_sequence_seqCtr (st : MessageBuffer) :
    seqCtr st.increment_sequence = seqCtr st + 1 := by
  simp [MessageBuffer.increment_sequence, seqCtr, List.lookup]

/-- `_increment_sequence` leaves every other `(odid, stream)` counter
unchanged. -/
theorem increment_sequence_other (st : MessageBuffer) (k : Nat × Nat)
    (hk : k ≠ (st.odid, st.streamid)) :
    List.lookup k st.increment_sequence.sequences =
      List.lookup k st.sequences := by
  have hb : (k == (st.odid, st.streamid)) = false :=
    beq_eq_false_iff_ne.mpr hk
  simp [MessageBuffer.increment_sequence, List.lookup, hb]

/-- **C6**: every `export_record` call either succeeds, leaving the
message length between its previous value and the MTU, or — when it
raises `EndOfMessage` — leaves the length exactly as it was before the
call (the pre-encode offset is restored, so no partial record remains)
and the sequence counters untouched. -/
theorem C6_export_record_length (st : MessageBuffer) (rec : List PyVal)
    (encodeFn : TemplateM → List PyVal → Option (List IEr) →
      Except PyErr (List Nat))
    (recinf : Option (List IEr)) :
    match st.export_record rec encodeFn recinf with
    | .ok () st2 => st.length ≤ st2.length ∧ st2.length ≤ st.mtu
    | .err e st2 =>
        e = .endOfMessage →
          st2.length = st.length ∧ st2.sequences = st.sequences
    | .hang => False := by
  rw [MessageBuffer.export_record]
  cases hc : st.curtmpl with
  | none => exact fun _ => ⟨rfl, rfl⟩
  | some tmpl =>
    try simp only
    cases henc : encodeFn tmpl rec recinf with
    | error e =>
      cases e <;> exact fun _ => ⟨rfl, rfl⟩
    | ok bytes =>
      try simp only
      by_cases hov : st.length + bytes.length > 65536
      · rw [if_pos hov]
        exact fun _ => ⟨rfl, rfl⟩
      · rw [if_neg hov]
        try simp only
        by_cases hmtu : st.length + bytes.length > st.mtu
        · rw [if_pos hmtu]
          exact fun _ => ⟨rfl, rfl⟩
        · rw [if_neg hmtu]
          exact ⟨Nat.le_add_right _ _, by
            simp only [MessageBuffer.increment_sequence]
            omega⟩

/-! ## Claim C7: sequence counter discipline -/

/-- A successful `export_record` bumps the buffer's own sequence counter
by exactly one, keeps the `(odid, streamid)` key, and leaves every other
key's counter unchanged. -/
theorem export_record_counters (st : MessageBuffer) (rec : List PyVal)
    (encodeFn : TemplateM → List PyVal → Option (List IEr) →
      Except PyErr (List Nat))
    (recinf : Option (List IEr)) (st2 : MessageBuffer)
    (h : st.export_record rec encodeFn recinf = .ok () st2) :
    seqCtr st2 = seqCtr st + 1 ∧ st2.odid = st.odid ∧
    st2.streamid = st.streamid ∧
    ∀ k, k ≠ (st.odid, st.streamid) →
      List.lookup k st2.sequences = List.lookup k st.sequences := by
  rw [MessageBuffer.export_record] at h
  cases hc : st.curtmpl with
  | none => rw [hc] at h; exact MRes.noConfusion h
  | some tmpl =>
    rw [hc] at h
    simp only at h
    cases henc : encodeFn tmpl rec recinf with
    | error e => rw [henc] at h; cases e <;> exact MRes.noConfusion h
    | ok bytes =>
      rw [henc] at h
      try simp only at h
      by_cases hov : st.length + bytes.length > 65536
      · rw [if_pos hov] at h; exact MRes.noConfusion h
      · rw [if_neg hov] at h
        try simp only at h
        by_cases hmtu : st.length + bytes.length > st.mtu
        · rw [if_pos hmtu] at h; exact MRes.noConfusion h
        · rw [if_neg hmtu] at h
          injection h with h1 h2
          subst h2
          refine ⟨?_, rfl, rfl, ?_⟩
          · rw [increment_sequence_seqCtr]
            rfl
          · intro k hk
            exact increment_sequence_other _ k hk

/-- `exportRecordsLoop` over `rs` advances the buffer's own counter by
exactly `rs.length` when it succeeds. -/
theorem exportRecordsLoop_seqCtr (rs : List (List PyVal)) :
    ∀ st st2, exportRecordsLoop st rs = .ok () st2 →
      seqCtr st2 = seqCtr st + rs.length := by
  induction rs with
  | nil =>
    intro st st2 h
    simp only [exportRecordsLoop] at h
    injection h with h1 h2
    subst h2
    simp
  | cons r rs ih =>
    intro st st2 h
    simp only [exportRecordsLoop] at h
    cases he : st.export_tuple r none with
    | ok a st1 =>
      cases a
      rw [he] at h
      try simp only at h
      have hc := export_record_counters st r encodeTupleFn none st1 he
      have h2 := ih st1 st2 h
      rw [h2, hc.1]
      simp only [List.length_cons]
      omega
    | err e st1 => rw [he] at h; exact MRes.noConfusion h
    | hang => rw [he] at h; exact MRes.noConfusion h

/-- The template-set loop of `record_iterator` never touches the sequence
counters, the observation domain or the stream. -/
theorem templateSetLoop_seqs (reg : IERegistry) (acceptFn : TemplateM → Bool)
    (setid setend : Nat) :
    ∀ fuel st off st2,
      templateSetLoop reg acceptFn setid setend fuel st off = .ok () st2 →
      st2.sequences = st.sequences ∧ st2.odid = st.odid ∧
      st2.streamid = st.streamid := by
  intro fuel
  induction fuel with
  | zero =>
    intro st off st2 h
    simp only [templateSetLoop] at h
    exact MRes.noConfusion h
  | succ n ih =>
    intro st off st2 h
    simp only [templateSetLoop] at h
    by_cases hlt : off < setend
    · rw [if_pos hlt] at h
      cases hd : decode_template_from reg st.mbuf off setid with
      | error e => rw [hd] at h; exact MRes.noConfusion h
      | ok p =>
        obtain ⟨tmpl, off2⟩ := p
        rw [hd] at h
        try simp only at h
        split at h
        all_goals try split at h
        all_goals (obtain ⟨a, b, c⟩ := ih _ _ _ h; exact ⟨a, b, c⟩)
    · rw [if_neg hlt] at h
      injection h with h1 h2
      subst h2
      exact ⟨rfl, rfl, rfl⟩

/-- The data-set loop of `record_iterator` advances the buffer's own
counter by exactly the number of records it appends to the yield list. -/
theorem dataSetLoop_seqCtr
    (decodeFn : TemplateM → (Nat → Nat) → Nat → Option (List IEr) →
      Except PyErr (List PyVal × Nat))
    (tmpl : TemplateM) (recinf : Option (List IEr)) (setend : Nat) :
    ∀ fuel st off recs recs2 st2,
      dataSetLoop decodeFn tmpl recinf setend fuel st off recs =
        .ok recs2 st2 →
      seqCtr st2 + recs.length = seqCtr st + recs2.length := by
  intro fuel
  induction fuel with
  | zero =>
    intro st off recs recs2 st2 h
    simp only [dataSetLoop] at h
    exact MRes.noConfusion h
  | succ n ih =>
    intro st off recs recs2 st2 h
    simp only [dataSetLoop] at h
    by_cases hlt : off + tmpl.minlength ≤ setend
    · rw [if_pos hlt] at h
      cases hd : decodeFn tmpl st.mbuf off recinf with
      | error e => rw [hd] at h; exact MRes.noConfusion h
      | ok p =>
        obtain ⟨rec, off2⟩ := p
        rw [hd] at h
        try simp only at h
        have h1 := ih st.increment_sequence off2 (recs ++ [rec]) recs2 st2 h
        rw [increment_sequence_seqCtr] at h1
        simp only [List.length_append, List.length_cons,
          List.length_nil] at h1
        omega
    · rw [if_neg hlt] at h
      injection h with h1 h2
      subst h1
      subst h2
      rfl

/-- The set walk of `record_iterator` advances the buffer's own counter by
exactly the number of records it yields. -/
theorem recordIteratorSets_seqCtr (reg : IERegistry)
    (decodeFn : TemplateM → (Nat → Nat) → Nat → Option (List IEr) →
      Except PyErr (List PyVal × Nat))
    (acceptFn : TemplateM → Bool) (recinf : Option (List IEr)) (fuel : Nat) :
    ∀ sl : List (Nat × Nat × Nat), ∀ st recs recs2 st2,
      recordIteratorSets reg decodeFn acceptFn recinf fuel sl st recs =
        .ok recs2 st2 →
      seqCtr st2 + recs.length = seqCtr st + recs2.length := by
  intro sl
  induction sl with
  | nil =>
    intro st recs recs2 st2 h
    simp only [recordIteratorSets] at h
    injection h with h1 h2
    subst h1
    subst h2
    rfl
  | cons s rest ih =>
    obtain ⟨offset, setid, setlen⟩ := s
    intro st recs recs2 st2 h
    simp only [recordIteratorSets] at h
    by_cases h23 : setid = 2 ∨ setid = 3
    · rw [if_pos h23] at h
      cases ht : templateSetLoop reg acceptFn setid (offset + setlen) fuel
          st (offset + 4) with
      | ok a st1 =>
        cases a
        rw [ht] at h
        try simp only at h
        obtain ⟨hs, ho, hst⟩ := templateSetLoop_seqs reg acceptFn setid
          (offset + setlen) fuel st (offset + 4) st1 ht
        have h2 := ih st1 recs recs2 st2 h
        have h3 : seqCtr st1 = seqCtr st := by
          simp only [seqCtr, hs, ho, hst]
        omega
      | err e st1 => rw [ht] at h; exact MRes.noConfusion h
      | hang => rw [ht] at h; exact MRes.noConfusion h
    · rw [if_neg h23] at h
      by_cases h256 : setid < 256
      · rw [if_pos h256] at h
        exact ih st recs recs2 st2 h
      · rw [if_neg h256] at h
        by_cases hacc : (st.odid, setid) ∈ st.accepted_tids
        · rw [if_pos hacc] at h
          cases hl : List.lookup (st.odid, setid) st.templates with
          | some tmpl =>
            rw [hl] at h
            try simp only at h
            cases hd : dataSetLoop decodeFn tmpl recinf (offset + setlen)
                fuel st (offset + 4) recs with
            | ok recs1 st1 =>
              rw [hd] at h
              try simp only at h
              have h1 := dataSetLoop_seqCtr decodeFn tmpl recinf
                (offset + setlen) fuel st (offset + 4) recs recs1 st1 hd
              have h2 := ih st1 recs1 recs2 st2 h
              omega
            | err e st1 => rw [hd] at h; exact MRes.noConfusion h
            | hang => rw [hd] at h; exact MRes.noConfusion h
          | none => rw [hl] at h; exact ih st recs recs2 st2 h
        · rw [if_neg hacc] at h
          exact ih st recs recs2 st2 h

/-- **C7**: sequence counters keyed by `(odid, stream)` advance by exactly
one — hence strictly monotonically — for each record successfully exported
by `export_record`, leaving every other key's counter unchanged; after
exporting `k` records the counter equals the pre-export counter plus `k`;
and a successful `record_iterator` walk advances the counter by exactly
the number of records it yields. -/
theorem C7_sequence_counters :
    (∀ (st : MessageBuffer) (rec : List PyVal)
       (encodeFn : TemplateM → List PyVal → Option (List IEr) →
         Except PyErr (List Nat))
       (recinf : Option (List IEr)) (st2 : MessageBuffer),
       st.export_record rec encodeFn recinf = .ok () st2 →
       seqCtr st2 = seqCtr st + 1 ∧ seqCtr st < seqCtr st2 ∧
       ∀ k, k ≠ (st.odid, st.streamid) →
         List.lookup k st2.sequences = List.lookup k st.sequences) ∧
    (∀ (st : MessageBuffer) (rs : List (List PyVal)) (st2 : MessageBuffer),
       exportRecordsLoop st rs = .ok () st2 →
       seqCtr st2 = seqCtr st + rs.length) ∧
    (∀ (reg : IERegistry)
       (decodeFn : TemplateM → (Nat → Nat) → Nat → Option (List IEr) →
         Except PyErr (List PyVal × Nat))
       (acceptFn : TemplateM → Bool) (recinf : Option (List IEr))
       (fuel : Nat) (st : MessageBuffer) (recs2 : List (List PyVal))
       (st2 : MessageBuffer),
       st.record_iterator reg decodeFn acceptFn recinf fuel =
         .ok recs2 st2 →
       seqCtr st2 = seqCtr st + recs2.length) := by
  refine ⟨?_, ?_, ?_⟩
  · intro st rec encodeFn recinf st2 h
    obtain ⟨h1, _, _, h4⟩ :=
      export_record_counters st rec encodeFn recinf st2 h
    exact ⟨h1, by omega, h4⟩
  · intro st rs st2 h
    exact exportRecordsLoop_seqCtr rs st st2 h
  · intro reg decodeFn acceptFn recinf fuel st recs2 st2 h
    have h1 := recordIteratorSets_seqCtr reg decodeFn acceptFn recinf fuel
      st.setlist st [] recs2 st2 h
    simpa using h1

/-! ## Claim C1: round-trip lemmas for the embedded fragment -/

/-- Unfolding of `wfIEb`: a well-formed fragment IE is a fixed-width
unsigned integer IE or a varlen octet-array IE. -/
theorem wfIEb_cases (e : IEr) (h : wfIEb e = true) :
    e.num < 0x8000 ∧ e.pen < 256 ^ 4 ∧
    ((∃ st, e.type = .structTy st ∧ st.vmap = .identity ∧
        (st.stel = .B ∨ st.stel = .H ∨ st.stel = .L ∨ st.stel = .Q) ∧
        e.length = stelSize st.stel) ∨
     (∃ nm num, e.type = .octetArrayTy nm num .identity ∧
        e.length = VARLEN)) := by
  rw [wfIEb] at h
  cases hty : e.type with
  | structTy st =>
    rw [hty] at h
    simp only [Bool.and_eq_true, decide_eq_true_eq, beq_iff_eq,
      Bool.or_eq_true] at h
    obtain ⟨⟨hnum, hpen⟩, ⟨hvm, hor⟩, hlen⟩ := h
    exact ⟨hnum, hpen, Or.inl ⟨st, rfl, hvm, by tauto, hlen⟩⟩
  | octetArrayTy nm num vm =>
    rw [hty] at h
    simp only [Bool.and_eq_true, decide_eq_true_eq, beq_iff_eq] at h
    obtain ⟨⟨hnum, hpen⟩, hvm, hlen⟩ := h
    subst hvm
    exact ⟨hnum, hpen, Or.inr ⟨nm, num, rfl, hlen⟩⟩

/-- Unsigned struct codes pack an in-range value to its big-endian
bytes. -/
theorem structPack_uint (s : StEl)
    (hs : s = .B ∨ s = .H ∨ s = .L ∨ s = .Q) (i : Int)
    (h0 : 0 ≤ i) (hlt : i < (256 ^ stelSize s : Nat)) :
    structPack s (.int i) = some (encBE (stelSize s) i.toNat) := by
  rcases hs with h | h | h | h <;> subst h <;>
    (simp only [stelSize] at hlt; norm_num at hlt ⊢;
     simp [structPack, stelSize, h0, hlt])

/-- Unsigned struct codes unpack to the big-endian value. -/
theorem structUnpack_uint (s : StEl)
    (hs : s = .B ∨ s = .H ∨ s = .L ∨ s = .Q) (buf : Nat → Nat) (off : Nat) :
    structUnpackFrom s buf off =
      .int (decBE (readBuf buf off (stelSize s))) := by
  rcases hs with h | h | h | h <;> subst h <;> rfl

/-- `encode_varlen` in closed form for lengths below 2^16. -/
theorem encode_varlen_eq (n : Nat) (h : n < 256 ^ 2) :
    encode_varlen n =
      some (if 255 ≤ n then 255 :: encBE 2 n else [n]) := by
  rw [encode_varlen]
  by_cases h255 : 255 ≤ n
  · rw [if_pos (by omega), if_pos (by omega), if_pos h255]
    rfl
  · rw [if_neg (by omega), if_neg h255]
    have : n % 256 = n := Nat.mod_eq_of_lt (by omega)
    simp [encBE, this]

/-- A well-formed field encodes to at least its `minlength` contribution
(1 for varlen IEs, the IE length otherwise). -/
theorem fieldEncBytes_length (e : IEr) (v : PyVal)
    (hw : wfIEb e = true) (hv : wfValb e v = true) :
    (if e.length = VARLEN then 1 else e.length) ≤
      (fieldEncBytes e v).length := by
  obtain ⟨-, -, hca | hca⟩ := wfIEb_cases e hw
  · obtain ⟨st, hty, -, hstel, hlen⟩ := hca
    have hvar : ¬ e.length = VARLEN := by
      rcases hstel with h | h | h | h <;> rw [hlen, h] <;> decide
    cases v with
    | int i =>
      simp only [fieldEncBytes, hty]
      rw [if_neg hvar, hlen]
      simp [encBE_length]
    | pybool b => simp [wfValb, hty] at hv
    | bytes bs => simp [wfValb, hty] at hv
    | str cs => simp [wfValb, hty] at hv
    | dt m => simp [wfValb, hty] at hv
    | f32 x => simp [wfValb, hty] at hv
    | f64 x => simp [wfValb, hty] at hv
  · obtain ⟨nm, num, hty, hlen⟩ := hca
    cases v with
    | bytes bs =>
      simp only [wfValb, hty, Bool.and_eq_true, decide_eq_true_eq] at hv
      simp only [fieldEncBytes, hty]
      rw [if_pos hlen, encode_varlen_eq bs.length hv.1]
      by_cases h255 : 255 ≤ bs.length <;> simp [h255]
    | int i => simp [wfValb, hty] at hv
    | pybool b => simp [wfValb, hty] at hv
    | str cs => simp [wfValb, hty] at hv
    | dt m => simp [wfValb, hty] at hv
    | f32 x => simp [wfValb, hty] at hv
    | f64 x => simp [wfValb, hty] at hv

/-- Projections of one `append` step. -/
theorem append_proj (t : TemplateM) (e : IEr) :
    (t.append e).ies = t.ies ++ [e] ∧ (t.append e).tid = t.tid ∧
    (t.append e).scopecount = t.scopecount ∧
    (t.append e).packplan = t.packplan ∧
    (t.append e).minlength =
      t.minlength + (if e.length = VARLEN then 1 else e.length) ∧
    (t.append e).enclength =
      t.enclength + (4 + (if e.pen ≠ 0 then 4 else 0)) ∧
    (t.append e).varlenslice =
      (if e.length = VARLEN ∧ optTruthy t.varlenslice = false
       then some t.ies.length else t.varlenslice) := by
  by_cases hv : e.length = VARLEN
  · by_cases htr : optTruthy t.varlenslice = false <;>
      simp [TemplateM.append, hv, htr] <;> omega
  · simp [TemplateM.append, hv] <;> omega

/-- Closed form of the `append` fold that `from_ielist` starts from. -/
theorem foldl_append_eq (ies : List IEr) : ∀ t0 : TemplateM,
    ies.foldl TemplateM.append t0 =
      { tid := t0.tid, ies := t0.ies ++ ies,
        minlength := t0.minlength + minlenSum ies,
        enclength := t0.enclength + enclenSum ies,
        scopecount := t0.scopecount,
        varlenslice := vsAfter t0.varlenslice t0.ies.length ies,
        packplan := t0.packplan } := by
  induction ies with
  | nil =>
    intro t0
    simp only [List.foldl_nil, minlenSum, enclenSum, vsAfter,
      List.map_nil, List.sum_nil, Nat.add_zero, List.append_nil]
  | cons e rest ih =>
    intro t0
    rw [List.foldl_cons, ih (t0.append e)]
    obtain ⟨h1, h2, h3, h4, h5, h6, h7⟩ := append_proj t0 e
    rw [h1, h2, h3, h4, h5, h6, h7]
    simp only [TemplateM.mk.injEq]
    refine ⟨by trivial, by simp, by simp [minlenSum] <;> omega,
      by simp [enclenSum] <;> omega, by trivial, by simp [vsAfter],
      by trivial⟩

/-- Inversion of a successful `from_ielist`: the template's derived fields
in closed form, and the shape of the compiled default packing plan. -/
theorem from_ielist_facts (tid : Nat) (ies : List IEr) (t : TemplateM)
    (h : from_ielist tid ies = some t) :
    256 ≤ tid ∧ tid ≤ 65535 ∧ t.tid = tid ∧ t.ies = ies ∧
    t.minlength = minlenSum ies ∧ t.enclength = enclenSum ies ∧
    t.scopecount = 0 ∧ t.varlenslice = vsAfter none 0 ies ∧
    t.count = ies.length ∧
    ∃ els vms,
      planBuild (List.range ies.length)
        ((ies.take (if optTruthy (vsAfter none 0 ies) = true
          then (vsAfter none 0 ies).getD 0 else ies.length)).enum) =
        some (els, vms) ∧
      t.packplan = some { indices := List.range ies.length
                          els := els
                          valenc := vms
                          valdec := vms } := by
  rw [from_ielist, newTemplate] at h
  by_cases hr : tid < 256 ∨ tid > 65535
  · rw [if_pos hr] at h
    simp at h
  · rw [if_neg hr] at h
    simp only [Option.pure_def, Option.bind_eq_bind, Option.some_bind] at h
    rw [foldl_append_eq, TemplateM.finalize] at h
    simp only [mkPackingPlan, TemplateM.count, TemplateM.fixlen_count,
      TemplateM.count, List.nil_append, List.length_nil, Nat.add_zero,
      Nat.zero_add] at h
    cases hpb : planBuild (List.range ies.length)
        ((ies.take (if optTruthy (vsAfter none 0 ies) = true
          then (vsAfter none 0 ies).getD 0 else ies.length)).enum) with
    | none =>
      rw [hpb] at h
      simp at h
    | some p =>
      rw [hpb] at h
      simp only [Option.map_map, Option.map_some', Function.comp_apply,
        Option.some.injEq] at h
      subst h
      refine ⟨by omega, by omega, rfl, rfl, by simp [minlenSum], rfl, rfl,
        rfl, by simp [TemplateM.count], p.1, p.2, rfl, rfl⟩

/-- `readBuf` of a concatenation splits into its two parts. -/
theorem readBuf_append_split (buf : Nat → Nat) (off : Nat) (a b : List Nat)
    (h : readBuf buf off (a.length + b.length) = a ++ b) :
    readBuf buf off a.length = a ∧
    readBuf buf (off + a.length) b.length = b := by
  rw [readBuf_split] at h
  exact List.append_inj h (readBuf_length buf off a.length)

/-- The well-formed value of a packed fragment IE is an in-range
integer. -/
theorem wfValb_int (e : IEr) (st : StructTypeM) (v : PyVal)
    (hty : e.type = .structTy st) (hv : wfValb e v = true) :
    ∃ i, v = .int i ∧ 0 ≤ i ∧ i < ((256 : Int) ^ stelSize st.stel) := by
  cases v with
  | int i =>
    simp only [wfValb, hty, Bool.and_eq_true, decide_eq_true_eq] at hv
    exact ⟨i, rfl, hv.1, by exact_mod_cast hv.2⟩
  | pybool b => simp [wfValb, hty] at hv
  | bytes bs => simp [wfValb, hty] at hv
  | str cs => simp [wfValb, hty] at hv
  | dt m => simp [wfValb, hty] at hv
  | f32 x => simp [wfValb, hty] at hv
  | f64 x => simp [wfValb, hty] at hv

/-- The well-formed value of a varlen fragment IE is a short byte list. -/
theorem wfValb_bytes (e : IEr) (nm : String) (num : Nat) (vm : ValMap)
    (v : PyVal) (hty : e.type = .octetArrayTy nm num vm)
    (hv : wfValb e v = true) :
    ∃ bs, v = .bytes bs ∧ bs.length < 256 ^ 2 ∧ ∀ x ∈ bs, x < 256 := by
  cases v with
  | bytes bs =>
    simp only [wfValb, hty, Bool.and_eq_true, decide_eq_true_eq,
      List.all_eq_true] at hv
    exact ⟨bs, rfl, hv.1, fun x hx => by
      have := hv.2 x hx
      simpa using this⟩
  | int i => simp [wfValb, hty] at hv
  | pybool b => simp [wfValb, hty] at hv
  | str cs => simp [wfValb, hty] at hv
  | dt m => simp [wfValb, hty] at hv
  | f32 x => simp [wfValb, hty] at hv
  | f64 x => simp [wfValb, hty] at hv

/-- All-identity value-encoder lists map a record to its prefix. -/
theorem zipValenc_identity (vms : List ValMap)
    (hid : ∀ m ∈ vms, m = ValMap.identity) :
    ∀ vs : List PyVal, zipValenc vms vs = some (vs.take vms.length) := by
  induction vms with
  | nil => intro vs; simp [zipValenc]
  | cons m vms ih =>
    intro vs
    have hm : m = ValMap.identity := hid m (by simp)
    subst hm
    cases vs with
    | nil => simp [zipValenc]
    | cons v vs =>
      simp only [zipValenc, applyValenc, Option.some_bind,
        ih (fun m hm => hid m (by simp [hm])) vs, List.length_cons,
        List.take_succ_cons]
      rfl

/-- All-identity value-decoder lists map the unpacked values to their
prefix. -/
theorem zipValdec_identity (vms : List ValMap)
    (hid : ∀ m ∈ vms, m = ValMap.identity) :
    ∀ vs : List PyVal, zipValdec vms vs = some (vs.take vms.length) := by
  induction vms with
  | nil => intro vs; simp [zipValdec]
  | cons m vms ih =>
    intro vs
    have hm : m = ValMap.identity := hid m (by simp)
    subst hm
    cases vs with
    | nil => simp [zipValdec]
    | cons v vs =>
      simp only [zipValdec, applyValdec, Option.some_bind,
        ih (fun m hm => hid m (by simp [hm])) vs, List.length_cons,
        List.take_succ_cons]
      rfl

/-- A packing plan compiled over a well-formed prefix: every prefix IE is
fixed-width, the value maps are identities, the plan packs a record prefix
to exactly its field bytes, and the unpacker reads those bytes back. -/
theorem planBuild_pack (cnt : Nat) :
    ∀ (A : List IEr) (n : Nat) (els : List PlanEl) (vms : List ValMap),
    (∀ e ∈ A, wfIEb e = true) →
    n + A.length ≤ cnt →
    planBuild (List.range cnt) (A.enumFrom n) = some (els, vms) →
    (∀ e ∈ A, e.length ≠ VARLEN) ∧
    (∀ m ∈ vms, m = ValMap.identity) ∧
    vms.length = A.length ∧
    planSize els = minlenSum A ∧
    (∀ vs : List PyVal, vs.length = A.length →
      (∀ p ∈ A.zip vs, wfValb p.1 p.2 = true) →
      packPlanBytes els vs = some (recBytes A vs) ∧
      (recBytes A vs).length = minlenSum A) ∧
    (∀ (buf : Nat → Nat) (off : Nat) (vs : List PyVal),
      vs.length = A.length →
      (∀ p ∈ A.zip vs, wfValb p.1 p.2 = true) →
      readBuf buf off (minlenSum A) = recBytes A vs →
      unpackPlanVals buf els off = vs) := by
  intro A
  induction A with
  | nil =>
    intro n els vms hwf hcnt hpb
    simp only [List.enumFrom, planBuild, Option.some.injEq, Prod.mk.injEq] at hpb
    obtain ⟨hels, hvms⟩ := hpb
    subst hels; subst hvms
    refine ⟨by simp, by simp, rfl, rfl, ?_, ?_⟩
    · intro vs hlen _
      rw [List.length_eq_zero.mp hlen]
      exact ⟨rfl, rfl⟩
    · intro buf off vs hlen _ _
      rw [List.length_eq_zero.mp hlen]
      rfl
  | cons e A ih =>
    intro n els vms hwf hcnt hpb
    have hwe : wfIEb e = true := hwf e (by simp)
    obtain ⟨-, -, hca | hca⟩ := wfIEb_cases e hwe
    swap
    · obtain ⟨nm, num, hty, -⟩ := hca
      rw [List.enumFrom] at hpb
      simp only [planBuild, hty] at hpb
      exact Option.noConfusion hpb
    · obtain ⟨st, hty, hvm, hstel, hlen⟩ := hca
      have hvar : e.length ≠ VARLEN := by
        rcases hstel with h | h | h | h <;> rw [hlen, h] <;> decide
      rw [List.enumFrom] at hpb
      simp only [planBuild, hty] at hpb
      cases hpb2 : planBuild (List.range cnt) (A.enumFrom (n + 1)) with
      | none => rw [hpb2] at hpb; simp at hpb
      | some p =>
        obtain ⟨els1, vms1⟩ := p
        rw [hpb2] at hpb
        have hmem : n ∈ List.range cnt := by
          simp only [List.mem_range]
          simp only [List.length_cons] at hcnt
          omega
        simp only [Option.pure_def, Option.bind_eq_bind,
          Option.some_bind] at hpb
        rw [if_pos hmem] at hpb
        simp only [Option.some.injEq, Prod.mk.injEq] at hpb
        obtain ⟨hels, hvms⟩ := hpb
        obtain ⟨hvarA, hidA, hlenA, hsizeA, hpackA, hunpA⟩ :=
          ih (n + 1) els1 vms1 (fun x hx => hwf x (by simp [hx]))
            (by simp only [List.length_cons] at hcnt; omega) hpb2
        subst hels; subst hvms
        have hvar2 : stelSize st.stel ≠ VARLEN := by
          rcases hstel with h | h | h | h <;> rw [h] <;> decide
        have hminc : minlenSum (e :: A) = stelSize st.stel + minlenSum A := by
          simp [minlenSum, hlen, hvar2]
        refine ⟨?_, ?_, ?_, ?_, ?_, ?_⟩
        · intro x hx
          rcases List.mem_cons.mp hx with h | h
          · rw [h]; exact hvar
          · exact hvarA x h
        · intro m hm
          rcases List.mem_cons.mp hm with h | h
          · rw [h]; exact hvm
          · exact hidA m h
        · simp [hlenA]
        · simp only [planSize, List.map_cons, List.sum_cons]
          rw [hminc]
          simp only [planSize] at hsizeA
          omega
        · intro vs hlenvs hwv
          cases vs with
          | nil => simp at hlenvs
          | cons v vs =>
            obtain ⟨i, hvi, hi0, hilt⟩ := wfValb_int e st v hty
              (hwv (e, v) (by simp [List.zip_cons_cons]))
            subst hvi
            have hpk : structPack st.stel (.int i) =
                some (encBE (stelSize st.stel) i.toNat) :=
              structPack_uint st.stel hstel i hi0 (by exact_mod_cast hilt)
            have hrest := hpackA vs (by simpa using hlenvs)
              (fun q hq => hwv q (by simp [List.zip_cons_cons, hq]))
            simp only [packPlanBytes, hpk, Option.some_bind, hrest.1]
            constructor
            · simp only [recBytes, List.zip_cons_cons, List.map_cons,
                List.flatten_cons, fieldEncBytes, hty]
              rfl
            · have hfb2 : fieldEncBytes e (.int i) =
                  encBE (stelSize st.stel) i.toNat := by
                simp [fieldEncBytes, hty]
              simp only [recBytes, List.zip_cons_cons, List.map_cons,
                List.flatten_cons, List.length_append]
              rw [hfb2, hminc, encBE_length]
              have h2 := hrest.2
              simp only [recBytes] at h2
              omega
        · intro buf off vs hlenvs hwv hbuf
          cases vs with
          | nil => simp at hlenvs
          | cons v vs =>
            obtain ⟨i, hvi, hi0, hilt⟩ := wfValb_int e st v hty
              (hwv (e, v) (by simp [List.zip_cons_cons]))
            subst hvi
            have hrest := hpackA vs (by simpa using hlenvs)
              (fun q hq => hwv q (by simp [List.zip_cons_cons, hq]))
            have hfb : fieldEncBytes e (.int i) =
                encBE (stelSize st.stel) i.toNat := by
              simp [fieldEncBytes, hty]
            have hsplit : readBuf buf off
                ((encBE (stelSize st.stel) i.toNat).length +
                  (recBytes A vs).length) =
                encBE (stelSize st.stel) i.toNat ++ recBytes A vs := by
              rw [encBE_length, hrest.2]
              rw [hminc] at hbuf
              rw [hbuf]
              simp only [recBytes, List.zip_cons_cons, List.map_cons,
                List.flatten_cons, hfb]
            obtain ⟨hs1, hs2⟩ := readBuf_append_split buf off _ _ hsplit
            rw [encBE_length] at hs1 hs2
            have hitoNat : i.toNat < 256 ^ stelSize st.stel := by
              rcases hstel with h | h | h | h <;> rw [h] at hilt ⊢ <;>
                simp only [stelSize] at hilt ⊢ <;> omega
            simp only [unpackPlanVals]
            rw [structUnpack_uint st.stel hstel buf off, hs1,
              decBE_encBE_of_lt hitoNat, Int.toNat_of_nonneg hi0,
              hunpA buf (off + stelSize st.stel) vs (by simpa using hlenvs)
                (fun q hq => hwv q (by simp [List.zip_cons_cons, hq]))
                (by rw [hrest.2] at hs2; exact hs2)]

/-- The varlen-tail encoder emits exactly the field bytes of its IEs, for
any all-projected index list. -/
theorem tail_encode (plan : TemplatePackingPlan) (cnt : Nat)
    (hpi : plan.indices = List.range cnt) :
    ∀ (idxs : List Nat) (B : List IEr) (ws : List PyVal),
    idxs.length = B.length → ws.length = B.length →
    (∀ i ∈ idxs, i < cnt) →
    (∀ e ∈ B, wfIEb e = true) →
    (∀ p ∈ B.zip ws, wfValb p.1 p.2 = true) →
    encodeTailIEs plan (idxs.zip (B.zip ws)) = some (recBytes B ws) := by
  intro idxs
  induction idxs with
  | nil =>
    intro B ws h1 h2 _ _ _
    have hB : B = [] := List.length_eq_zero.mp (by simpa using h1.symm)
    subst hB
    have hw : ws = [] := List.length_eq_zero.mp (by simpa using h2)
    subst hw
    simp [encodeTailIEs, recBytes]
  | cons i idxs ih =>
    intro B ws h1 h2 hin hwf hwv
    cases B with
    | nil => simp at h1
    | cons e B =>
      cases ws with
      | nil => simp at h2
      | cons w ws =>
        have hie : i ∈ plan.indices := by
          rw [hpi]
          simp only [List.mem_range]
          exact hin i (by simp)
        simp only [List.zip_cons_cons, encodeTailIEs]
        rw [if_pos hie]
        have hih := ih B ws (by simpa using h1) (by simpa using h2)
          (fun j hj => hin j (by simp [hj]))
          (fun x hx => hwf x (by simp [hx]))
          (fun q hq => hwv q (by simp [List.zip_cons_cons, hq]))
        obtain ⟨-, -, hca | hca⟩ := wfIEb_cases e (hwf e (by simp))
        · obtain ⟨st, hty, hvm, hstel, hlen⟩ := hca
          have hvar2 : stelSize st.stel ≠ VARLEN := by
            rcases hstel with h | h | h | h <;> rw [h] <;> decide
          have hvar : ¬ e.length = VARLEN := by rw [hlen]; exact hvar2
          obtain ⟨ii, hvi, hi0, hilt⟩ := wfValb_int e st w hty
            (hwv (e, w) (by simp [List.zip_cons_cons]))
          subst hvi
          rw [if_neg hvar]
          have hpk := structPack_uint st.stel hstel ii hi0
            (by exact_mod_cast hilt)
          simp only [encodeSingleBytes, hty, hvm, applyValenc,
            Option.pure_def, Option.bind_eq_bind, Option.some_bind,
            hpk, hih]
          simp only [recBytes, List.zip_cons_cons, List.map_cons,
            List.flatten_cons]
          have hfb : fieldEncBytes e (.int ii) =
              encBE (stelSize st.stel) ii.toNat := by
            simp [fieldEncBytes, hty]
          rw [hfb]
          simp only [List.zip] at hih
          rw [hih]
          simp [recBytes]
        · obtain ⟨nm, num, hty, hlenV⟩ := hca
          obtain ⟨bs, hvb, hbl, -⟩ := wfValb_bytes e nm num _ w hty
            (hwv (e, w) (by simp [List.zip_cons_cons]))
          subst hvb
          rw [if_pos hlenV]
          have hpr := encode_varlen_eq bs.length hbl
          simp only [hty, applyValenc, Option.pure_def, Option.bind_eq_bind,
            Option.some_bind, hpr, encodeSingleBytes, hih]
          simp only [recBytes, List.zip_cons_cons, List.map_cons,
            List.flatten_cons]
          have hfb : fieldEncBytes e (.bytes bs) =
              (if 255 ≤ bs.length then 255 :: encBE 2 bs.length
               else [bs.length]) ++ bs := by
            simp [fieldEncBytes, hty, hpr]
          rw [hfb]
          simp only [List.zip] at hih
          rw [hih]
          simp [recBytes, List.append_assoc]

theorem decBE_singleton (x : Nat) : decBE [x] = x := by
  simp [decBE]

/-- The varlen-tail decoder reads back exactly the field bytes of its IEs
and appends the decoded values to the accumulator. -/
theorem tail_decode (plan : TemplatePackingPlan) (cnt : Nat)
    (hpi : plan.indices = List.range cnt) (buf : Nat → Nat) :
    ∀ (idxs : List Nat) (B : List IEr) (ws : List PyVal)
      (acc : List PyVal) (off : Nat),
    idxs.length = B.length → ws.length = B.length →
    (∀ i ∈ idxs, i < cnt) →
    (∀ e ∈ B, wfIEb e = true) →
    (∀ p ∈ B.zip ws, wfValb p.1 p.2 = true) →
    readBuf buf off (recBytes B ws).length = recBytes B ws →
    decodeTailIEs plan buf (idxs.zip B) acc off =
      some (acc ++ ws, off + (recBytes B ws).length) := by
  intro idxs
  induction idxs with
  | nil =>
    intro B ws acc off h1 h2 _ _ _ _
    have hB : B = [] := List.length_eq_zero.mp (by simpa using h1.symm)
    subst hB
    have hw : ws = [] := List.length_eq_zero.mp (by simpa using h2)
    subst hw
    simp [decodeTailIEs, recBytes]
  | cons i idxs ih =>
    intro B ws acc off h1 h2 hin hwf hwv hbuf
    cases B with
    | nil => simp at h1
    | cons e B =>
      cases ws with
      | nil => simp at h2
      | cons w ws =>
        have hie : i ∈ plan.indices := by
          rw [hpi]
          simp only [List.mem_range]
          exact hin i (by simp)
        have hrecc : recBytes (e :: B) (w :: ws) =
            fieldEncBytes e w ++ recBytes B ws := by
          simp [recBytes, List.zip_cons_cons]
        rw [hrecc] at hbuf
        rw [List.length_append] at hbuf
        obtain ⟨hs1, hs2⟩ := readBuf_append_split buf off _ _ hbuf
        simp only [List.zip_cons_cons, decodeTailIEs]
        rw [if_pos hie]
        obtain ⟨-, -, hca | hca⟩ := wfIEb_cases e (hwf e (by simp))
        · obtain ⟨st, hty, hvm, hstel, hlen⟩ := hca
          have hvar2 : stelSize st.stel ≠ VARLEN := by
            rcases hstel with h | h | h | h <;> rw [h] <;> decide
          have hvar : ¬ e.length = VARLEN := by rw [hlen]; exact hvar2
          obtain ⟨ii, hvi, hi0, hilt⟩ := wfValb_int e st w hty
            (hwv (e, w) (by simp [List.zip_cons_cons]))
          subst hvi
          have hfb : fieldEncBytes e (.int ii) =
              encBE (stelSize st.stel) ii.toNat := by
            simp [fieldEncBytes, hty]
          rw [hfb, encBE_length] at hs1 hs2
          have hitoNat : ii.toNat < 256 ^ stelSize st.stel := by
            rcases hstel with h | h | h | h <;> rw [h] at hilt ⊢ <;>
              simp only [stelSize] at hilt ⊢ <;> omega
          rw [if_neg hvar]
          simp only [IpfixTypeM.decode_single_value_from, hty, hvm]
          rw [if_pos hlen.symm]
          rw [structUnpack_uint st.stel hstel buf off]
          simp only [applyValdec]
          rw [hs1, decBE_encBE_of_lt hitoNat, Int.toNat_of_nonneg hi0]
          have hih := ih B ws (acc ++ [PyVal.int ii]) (off + e.length)
            (by simpa using h1) (by simpa using h2)
            (fun j hj => hin j (by simp [hj]))
            (fun x hx => hwf x (by simp [hx]))
            (fun q hq => hwv q (by simp [List.zip_cons_cons, hq]))
            (by rw [hlen]; exact hs2)
          simp only [List.zip] at hih
          rw [show off + e.length = e.length + off from Nat.add_comm _ _] at hih
          rw [show (e.length : Nat) + off = off + e.length from Nat.add_comm _ _] at hih
          rw [hih]
          rw [hrecc, hfb]
          simp only [List.append_assoc, List.singleton_append,
            List.length_append, encBE_length, Option.some.injEq,
            Prod.mk.injEq]
          constructor
          · trivial
          · rw [hlen]; omega
        · obtain ⟨nm, num, hty, hlenV⟩ := hca
          obtain ⟨bs, hvb, hbl, -⟩ := wfValb_bytes e nm num _ w hty
            (hwv (e, w) (by simp [List.zip_cons_cons]))
          subst hvb
          have hfb : fieldEncBytes e (.bytes bs) =
              (if 255 ≤ bs.length then 255 :: encBE 2 bs.length
               else [bs.length]) ++ bs := by
            simp [fieldEncBytes, hty, encode_varlen_eq bs.length hbl]
          rw [hfb] at hs1 hs2
          rw [List.length_append] at hs1
          obtain ⟨hp1, hp2⟩ := readBuf_append_split buf off _ _ hs1
          have hih := ih B ws (acc ++ [PyVal.bytes bs])
            (off + (fieldEncBytes e (PyVal.bytes bs)).length)
            (by simpa using h1) (by simpa using h2)
            (fun j hj => hin j (by simp [hj]))
            (fun x hx => hwf x (by simp [hx]))
            (fun q hq => hwv q (by simp [List.zip_cons_cons, hq]))
            (by rw [hfb]; exact hs2)
          simp only [List.zip] at hih
          rw [hfb, List.length_append] at hih
          by_cases h255 : 255 ≤ bs.length
          · rw [if_pos h255] at hp1 hp2 hih
            obtain ⟨hr1, hr2⟩ := readBuf_append_split buf off
              ([255] : List Nat) (encBE 2 bs.length)
              (by simpa [encBE_length] using hp1)
            simp only [List.length_singleton] at hr1 hr2
            rw [encBE_length] at hr2
            have hdv : decode_varlen buf off = (bs.length, off + 1 + 2) := by
              rw [decode_varlen]
              simp [hr1, decBE_singleton, hr2, decBE_encBE_of_lt hbl]
            rw [if_pos hlenV, hdv]
            simp only [IpfixTypeM.decode_single_value_from, hty, applyValdec]
            have hp2b : readBuf buf (off + 1 + 2) bs.length = bs := by
              have := hp2
              simp only [List.length_cons, encBE_length] at this
              rw [show off + 1 + 2 = off + (2 + 1) from by omega]
              exact this
            rw [hp2b]
            rw [show off + ((255 :: encBE 2 bs.length).length + bs.length) =
              off + 1 + 2 + bs.length from by
                simp only [List.length_cons, encBE_length]; omega] at hih
            rw [hih]
            rw [hrecc, hfb, if_pos h255]
            simp only [List.append_assoc, List.singleton_append,
              List.length_append, List.length_cons, encBE_length,
              Option.some.injEq, Prod.mk.injEq]
            constructor
            · trivial
            · omega
          · rw [if_neg h255] at hp1 hp2 hih
            simp only [List.length_singleton] at hp1 hp2
            have hdv : decode_varlen buf off = (bs.length, off + 1) := by
              rw [decode_varlen]
              have hne : bs.length ≠ 255 := by omega
              simp [hp1, decBE_singleton, hne]
            rw [if_pos hlenV, hdv]
            simp only [IpfixTypeM.decode_single_value_from, hty, applyValdec]
            rw [hp2]
            rw [show off + (([bs.length] : List Nat).length + bs.length) =
              off + 1 + bs.length from by
                simp only [List.length_cons, List.length_nil]; omega] at hih
            rw [hih]
            rw [hrecc, hfb, if_neg h255]
            simp only [List.append_assoc, List.singleton_append,
              List.length_append, List.length_cons, List.length_nil,
              Option.some.injEq, Prod.mk.injEq]
            constructor
            · trivial
            · omega

theorem zip_take_zip {α β : Type} : ∀ (l1 : List α) (l2 : List β) (n : Nat),
    (l1.take n).zip (l2.take n) = (l1.zip l2).take n := by
  intro l1
  induction l1 with
  | nil => intro l2 n; simp
  | cons a l1 ih =>
    intro l2 n
    cases l2 with
    | nil => simp
    | cons b l2 =>
      cases n with
      | zero => simp
      | succ n => simp [List.take_succ_cons, List.zip_cons_cons, ih]

theorem zip_drop_zip {α β : Type} : ∀ (l1 : List α) (l2 : List β) (n : Nat),
    (l1.drop n).zip (l2.drop n) = (l1.zip l2).drop n := by
  intro l1
  induction l1 with
  | nil => intro l2 n; simp
  | cons a l1 ih =>
    intro l2 n
    cases l2 with
    | nil => simp
    | cons b l2 =>
      cases n with
      | zero => simp
      | succ n => simp [List.drop_succ_cons, List.zip_cons_cons, ih]

theorem take_len_take {α β : Type} (A : List α) (r : List β) (f : Nat)
    (h : r.length = A.length) : r.take ((A.take f).length) = r.take f := by
  rw [List.length_take, ← h]
  rcases le_or_lt f r.length with hle | hlt
  · rw [min_eq_left hle]
  · rw [min_eq_right (le_of_lt hlt), List.take_length,
      List.take_all_of_le (le_of_lt hlt)]

/-- `recBytes` splits at any cut point when the record matches the IE
list in length. -/
theorem recBytes_split (ies : List IEr) (r : List PyVal) (f : Nat)
    (hlen : r.length = ies.length) :
    recBytes ies r =
      recBytes (ies.take f) (r.take f) ++ recBytes (ies.drop f) (r.drop f) := by
  have hz : ies.zip r =
      (ies.take f).zip (r.take f) ++ (ies.drop f).zip (r.drop f) := by
    conv_lhs => rw [← List.take_append_drop f ies, ← List.take_append_drop f r]
    rw [List.zip_append (by simp [hlen])]
  rw [recBytes, hz, List.map_append, List.flatten_append]
  rfl

/-- Unfolding of `wfRecb`. -/
theorem wfRecb_iff (ies : List IEr) (r : List PyVal) :
    wfRecb ies r = true ↔
    r.length = ies.length ∧ ∀ p ∈ ies.zip r, wfValb p.1 p.2 = true := by
  simp [wfRecb, List.all_eq_true, beq_iff_eq]

/-- A template built by `from_ielist` over well-formed fragment IEs encodes
a well-formed record (as a template-order tuple) to exactly its field
bytes. -/
theorem encode_to_recBytes (tid : Nat) (ies : List IEr) (t : TemplateM)
    (r : List PyVal)
    (hfi : from_ielist tid ies = some t)
    (hwf : ∀ e ∈ ies, wfIEb e = true)
    (hrec : wfRecb ies r = true) :
    t.encode_tuple_to r none = .ok (recBytes ies r) := by
  obtain ⟨-, -, -, hties, -, -, -, hvsl, hcount, els, vms, hpb, hpp⟩ :=
    from_ielist_facts tid ies t hfi
  obtain ⟨hrlen, hwv⟩ := (wfRecb_iff ies r).mp hrec
  obtain ⟨hfix, hid, hvmslen, hsize, hpackA, hunpA⟩ :=
    planBuild_pack ies.length
      (ies.take (if optTruthy (vsAfter none 0 ies) = true
        then (vsAfter none 0 ies).getD 0 else ies.length)) 0 els vms
      (fun e he => hwf e (List.mem_of_mem_take he))
      (by simp [List.length_take])
      hpb
  have hzenc : zipValenc vms r =
      some (r.take (if optTruthy (vsAfter none 0 ies) = true
        then (vsAfter none 0 ies).getD 0 else ies.length)) := by
    rw [zipValenc_identity vms hid r, hvmslen, take_len_take ies r _ hrlen]
  have hpairs : ∀ p ∈ (ies.take (if optTruthy (vsAfter none 0 ies) = true
      then (vsAfter none 0 ies).getD 0 else ies.length)).zip
        (r.take (if optTruthy (vsAfter none 0 ies) = true
          then (vsAfter none 0 ies).getD 0 else ies.length)),
      wfValb p.1 p.2 = true := by
    intro p hp
    rw [zip_take_zip] at hp
    exact hwv p (List.mem_of_mem_take hp)
  have hpk := hpackA (r.take (if optTruthy (vsAfter none 0 ies) = true
      then (vsAfter none 0 ies).getD 0 else ies.length))
    (by simp [List.length_take, hrlen]) hpairs
  rw [TemplateM.encode_tuple_to]
  try simp only
  rw [TemplateM.encode_to]
  try simp only
  rw [hpp]
  simp only [hzenc, hpk.1]
  rw [hvsl]
  cases htr : optTruthy (vsAfter none 0 ies) with
  | false =>
    rw [if_pos rfl]
    simp only [Bool.false_eq_true, if_false]
    rw [List.take_length, List.take_of_length_le (le_of_eq hrlen)]
  | true =>
    rw [if_neg (by decide)]
    simp only [eq_self_iff_true, if_true]
    rw [hcount, hties]
    have htl := tail_encode
      { indices := List.range ies.length, els := els, valenc := vms,
        valdec := vms }
      ies.length rfl
      ((List.range ies.length).drop ((vsAfter none 0 ies).getD 0))
      (ies.drop ((vsAfter none 0 ies).getD 0))
      (r.drop ((vsAfter none 0 ies).getD 0))
      (by simp) (by simp [hrlen])
      (fun i hi => List.mem_range.mp (List.mem_of_mem_drop hi))
      (fun e he => hwf e (List.mem_of_mem_drop he))
      (by
        intro p hp
        rw [zip_drop_zip] at hp
        exact hwv p (List.mem_of_mem_drop hp))
    rw [htl]
    try simp only
    rw [← recBytes_split ies r _ hrlen]

theorem pairwise_zip_left {α β : Type} (R : α → α → Prop) :
    ∀ (l1 : List α) (l2 : List β), l1.Pairwise R →
    (l1.zip l2).Pairwise (fun a b => R a.1 b.1) := by
  intro l1
  induction l1 with
  | nil => intro l2 _; simp
  | cons a l1 ih =>
    intro l2 h
    cases l2 with
    | nil => simp
    | cons b l2 =>
      rw [List.pairwise_cons] at h
      rw [List.zip_cons_cons, List.pairwise_cons]
      exact ⟨fun p hp => h.1 p.1 (List.mem_zip hp).1, ih l2 h.2⟩

/-- Re-sorting the index-value pairs of the default plan is the
identity. -/
theorem mergeSort_range_zip (n : Nat) (r : List PyVal)
    (h : r.length = n) :
    (((List.range n).zip r).mergeSort
      (fun a b => a.1 ≤ b.1)).map (·.2) = r := by
  rw [List.mergeSort_of_sorted]
  · exact List.map_snd_zip _ _ (by simp [h])
  · have hpw := pairwise_zip_left (· < ·) (List.range n) r
      (List.pairwise_lt_range n)
    exact hpw.imp fun hab => by simpa using le_of_lt hab

/-- A template built by `from_ielist` over well-formed fragment IEs decodes
its field bytes back to the record (as a template-order tuple), advancing
the offset by the record's wire length. -/
theorem decode_tuple_from_recBytes (tid : Nat) (ies : List IEr)
    (t : TemplateM) (r : List PyVal) (buf : Nat → Nat) (off : Nat)
    (hfi : from_ielist tid ies = some t)
    (hwf : ∀ e ∈ ies, wfIEb e = true)
    (hrec : wfRecb ies r = true)
    (hbuf : readBuf buf off (recBytes ies r).length = recBytes ies r) :
    t.decode_tuple_from buf off none =
      .ok (r, off + (recBytes ies r).length) := by
  obtain ⟨-, -, -, hties, -, -, -, hvsl, hcount, els, vms, hpb, hpp⟩ :=
    from_ielist_facts tid ies t hfi
  obtain ⟨hrlen, hwv⟩ := (wfRecb_iff ies r).mp hrec
  obtain ⟨hfix, hid, hvmslen, hsize, hpackA, hunpA⟩ :=
    planBuild_pack ies.length
      (ies.take (if optTruthy (vsAfter none 0 ies) = true
        then (vsAfter none 0 ies).getD 0 else ies.length)) 0 els vms
      (fun e he => hwf e (List.mem_of_mem_take he))
      (by simp [List.length_take])
      hpb
  set F := (if optTruthy (vsAfter none 0 ies) = true
    then (vsAfter none 0 ies).getD 0 else ies.length) with hF
  have htklen : (r.take F).length = (ies.take F).length := by
    simp [List.length_take, hrlen]
  have hpairs : ∀ p ∈ (ies.take F).zip (r.take F), wfValb p.1 p.2 = true := by
    intro p hp
    rw [zip_take_zip] at hp
    exact hwv p (List.mem_of_mem_take hp)
  have hpk := hpackA (r.take F) htklen hpairs
  have hsplitRec := recBytes_split ies r F hrlen
  have hbuf2 : readBuf buf off ((recBytes (ies.take F) (r.take F)).length +
      (recBytes (ies.drop F) (r.drop F)).length) =
      recBytes (ies.take F) (r.take F) ++
        recBytes (ies.drop F) (r.drop F) := by
    rw [← List.length_append, ← hsplitRec]
    exact hbuf
  obtain ⟨hsA, hsB⟩ := readBuf_append_split buf off _ _ hbuf2
  have hunp : unpackPlanVals buf els off = r.take F := by
    refine hunpA buf off (r.take F) htklen hpairs ?_
    rw [hpk.2] at hsA
    exact hsA
  have hzdec : zipValdec vms (r.take F) = some (r.take F) := by
    rw [zipValdec_identity vms hid, hvmslen, ← htklen, List.take_length]
  have hplen : planSize els = (recBytes (ies.take F) (r.take F)).length :=
    hsize.trans hpk.2.symm
  have hdf : t.decode_from buf off
      (some { indices := List.range ies.length, els := els, valenc := vms,
              valdec := vms }) =
      .ok (r, off + (recBytes ies r).length) := by
    rw [TemplateM.decode_from]
    try simp only
    rw [hunp, hzdec]
    try simp only
    rw [hvsl]
    cases htr : optTruthy (vsAfter none 0 ies) with
    | false =>
      rw [if_pos rfl]
      have hFlen : F = ies.length := by rw [hF, htr]; simp
      rw [hFlen, List.take_length,
        List.take_of_length_le (le_of_eq hrlen)] at hpk
      rw [hFlen, List.take_of_length_le (le_of_eq hrlen)]
      rw [hsize, hFlen, List.take_length, hpk.2]
    | true =>
      rw [if_neg (by decide)]
      try simp only
      rw [htr] at hF
      simp only [if_true] at hF
      rw [hcount, hties, ← hF]
      have htd := tail_decode
        { indices := List.range ies.length, els := els, valenc := vms,
          valdec := vms }
        ies.length rfl buf
        ((List.range ies.length).drop F) (ies.drop F) (r.drop F)
        (r.take F) (off + planSize els)
        (by simp) (by simp [hrlen])
        (fun i hi => List.mem_range.mp (List.mem_of_mem_drop hi))
        (fun e he => hwf e (List.mem_of_mem_drop he))
        (by
          intro p hp
          rw [zip_drop_zip] at hp
          exact hwv p (List.mem_of_mem_drop hp))
        (by rw [hplen]; exact hsB)
      rw [htd]
      try simp only
      rw [List.take_append_drop]
      have hlr : (recBytes ies r).length =
          (recBytes (ies.take F) (r.take F)).length +
          (recBytes (ies.drop F) (r.drop F)).length := by
        rw [hsplitRec, List.length_append]
      rw [hplen, hlr, Nat.add_assoc]
  rw [TemplateM.decode_tuple_from]
  try simp only
  rw [hpp]
  try simp only
  rw [pure_bind]
  rw [hdf]
  rw [show ∀ (p : List PyVal × Nat)
      (g : List PyVal × Nat → Except PyErr (List PyVal × Nat)),
      (Except.ok p : Except PyErr (List PyVal × Nat)) >>= g = g p
    from fun _ _ => rfl]
  try simp only
  rw [mergeSort_range_zip ies.length r hrlen]
  rfl

/-! ## Template wire-format round-trip lemmas -/

theorem or_and_low15 (a : Nat) (h : a < 2 ^ 15) :
    (a ||| 32768) &&& 32767 = a := by
  apply Nat.eq_of_testBit_eq
  intro i
  simp only [Nat.testBit_and, Nat.testBit_or]
  by_cases hi : i < 15
  · have h7 : Nat.testBit 32767 i = true := by
      rw [show (32767 : Nat) = 2 ^ 15 - 1 from by norm_num,
        Nat.testBit_two_pow_sub_one]
      simpa using hi
    have h8 : Nat.testBit 32768 i = false := by
      rw [show (32768 : Nat) = 2 ^ 15 from by norm_num]
      exact Nat.testBit_two_pow_of_ne (by omega)
    simp [h7, h8]
  · have ha : a.testBit i = false :=
      Nat.testBit_lt_two_pow
        (lt_of_lt_of_le h (Nat.pow_le_pow_right (by norm_num) (by omega)))
    have h7 : Nat.testBit 32767 i = false := by
      rw [show (32767 : Nat) = 2 ^ 15 - 1 from by norm_num,
        Nat.testBit_two_pow_sub_one]
      simpa using hi
    simp [h7, ha]

theorem or_high_and_ne (a : Nat) (h : a < 2 ^ 15) :
    (a ||| 32768) &&& 32768 ≠ 0 := by
  intro hz
  have h1 : ((a ||| 32768) &&& 32768).testBit 15 = true := by
    simp only [Nat.testBit_and, Nat.testBit_or]
    have ht : Nat.testBit 32768 15 = true := by
      rw [show (32768 : Nat) = 2 ^ 15 from by norm_num]
      exact Nat.testBit_two_pow_self
    simp [ht]
  rw [hz] at h1
  simp [Nat.zero_testBit] at h1

theorem and_high_eq_zero (a : Nat) (h : a < 2 ^ 15) : a &&& 32768 = 0 := by
  apply Nat.eq_of_testBit_eq
  intro i
  simp only [Nat.testBit_and, Nat.zero_testBit]
  by_cases hi : i = 15
  · subst hi
    have ha : a.testBit 15 = false := Nat.testBit_lt_two_pow h
    simp [ha]
  · have h8 : Nat.testBit 32768 i = false := by
      rw [show (32768 : Nat) = 2 ^ 15 from by norm_num]
      exact Nat.testBit_two_pow_of_ne (by omega)
    simp [h8]

theorem or_high_lt (a : Nat) (h : a < 2 ^ 15) : a ||| 32768 < 2 ^ 16 :=
  Nat.or_lt_two_pow (show a < 2 ^ 16 by omega)
    (show (32768 : Nat) < 2 ^ 16 by norm_num)

/-- The field-spec loop of `decode_template_from` reads back exactly the
IEs whose specs `encode_template_to` wrote, under a registry that resolves
each IE to itself. -/
theorem decodeTemplateFieldLoop_roundtrip (reg : IERegistry)
    (buf : Nat → Nat) :
    ∀ (B : List IEr) (fB : List Nat) (t0 : TemplateM) (off : Nat),
    (∀ e ∈ B, wfIEb e = true) →
    (∀ e ∈ B, for_template_entry reg e.pen e.num e.length = some e) →
    encodeTemplateFields B = some fB →
    readBuf buf off fB.length = fB →
    decodeTemplateFieldLoop reg buf t0 off B.length =
      .ok (B.foldl TemplateM.append t0, off + fB.length) := by
  intro B
  induction B with
  | nil =>
    intro fB t0 off _ _ henc hbuf
    simp only [encodeTemplateFields, Option.some.injEq] at henc
    subst henc
    simp [decodeTemplateFieldLoop]
  | cons e B ih =>
    intro fB t0 off hwf hreg henc hbuf
    have hnum : e.num < 2 ^ 15 := by
      have := (wfIEb_cases e (hwf e (by simp))).1
      omega
    rw [encodeTemplateFields] at henc
    by_cases hp0 : e.pen ≠ 0
    · rw [if_pos hp0] at henc
      by_cases hchk : (e.num ||| 0x8000) < 256 ^ 2 ∧ e.length < 256 ^ 2 ∧
          e.pen < 256 ^ 4
      · rw [if_pos hchk] at henc
        simp only [Option.pure_def, Option.bind_eq_bind,
          Option.some_bind] at henc
        cases hfB2 : encodeTemplateFields B with
        | none => rw [hfB2] at henc; simp at henc
        | some fB2 =>
          rw [hfB2] at henc
          simp only [Option.some_bind, Option.some.injEq] at henc
          subst henc
          rw [List.length_append] at hbuf
          obtain ⟨hs1, hs2⟩ := readBuf_append_split buf off _ _ hbuf
          have hs1len : (encBE 2 (e.num ||| 0x8000) ++ encBE 2 e.length ++
              encBE 4 e.pen).length = 8 := by
            simp [encBE_length]
          rw [List.length_append] at hs1
          obtain ⟨hr1, hr2⟩ := readBuf_append_split buf off _ _ hs1
          rw [List.length_append] at hr1
          obtain ⟨hq1, hq2⟩ := readBuf_append_split buf off _ _ hr1
          rw [encBE_length] at hq1
          rw [encBE_length, encBE_length] at hq2
          rw [List.length_append, encBE_length, encBE_length,
            encBE_length] at hr2
          norm_num at hr2
          rw [hs1len] at hs2
          simp only [List.length_cons, decodeTemplateFieldLoop]
          rw [hq1, decBE_encBE_of_lt (by exact_mod_cast hchk.1)]
          rw [hq2, decBE_encBE_of_lt (by exact_mod_cast hchk.2.1)]
          rw [if_pos (or_high_and_ne e.num hnum)]
          rw [hr2, decBE_encBE_of_lt (by exact_mod_cast hchk.2.2)]
          rw [or_and_low15 e.num hnum]
          rw [hreg e (by simp)]
          try simp only
          have hihs := ih fB2 (t0.append e) (off + 4 + 4)
            (fun x hx => hwf x (by simp [hx]))
            (fun x hx => hreg x (by simp [hx]))
            hfB2
            (by rw [show off + 4 + 4 = off + 8 from by omega]; exact hs2)
          rw [hihs]
          simp only [List.foldl_cons, List.length_append, hs1len,
            Except.ok.injEq, Prod.mk.injEq]
          exact ⟨trivial, by omega⟩
      · rw [if_neg hchk] at henc
        simp at henc
    · rw [if_neg hp0] at henc
      by_cases hchk : e.num < 256 ^ 2 ∧ e.length < 256 ^ 2
      · rw [if_pos hchk] at henc
        simp only [Option.pure_def, Option.bind_eq_bind,
          Option.some_bind] at henc
        cases hfB2 : encodeTemplateFields B with
        | none => rw [hfB2] at henc; simp at henc
        | some fB2 =>
          rw [hfB2] at henc
          simp only [Option.some_bind, Option.some.injEq] at henc
          subst henc
          rw [List.length_append] at hbuf
          obtain ⟨hs1, hs2⟩ := readBuf_append_split buf off _ _ hbuf
          have hs1len : (encBE 2 e.num ++ encBE 2 e.length).length = 4 := by
            simp [encBE_length]
          rw [List.length_append] at hs1
          obtain ⟨hq1, hq2⟩ := readBuf_append_split buf off _ _ hs1
          simp only [encBE_length] at hq1 hq2
          rw [hs1len] at hs2
          simp only [List.length_cons, decodeTemplateFieldLoop]
          rw [hq1, decBE_encBE_of_lt (by exact_mod_cast hchk.1)]
          rw [hq2, decBE_encBE_of_lt (by exact_mod_cast hchk.2)]
          rw [if_neg (by
            simp only [ne_eq, Decidable.not_not]
            exact and_high_eq_zero e.num hnum)]
          have hpen0 : e.pen = 0 := by omega
          rw [show (0 : Nat) = e.pen from hpen0.symm]
          rw [hreg e (by simp)]
          try simp only
          have hihs := ih fB2 (t0.append e) (off + 4)
            (fun x hx => hwf x (by simp [hx]))
            (fun x hx => hreg x (by simp [hx]))
            hfB2 hs2
          rw [hihs]
          simp only [List.foldl_cons, List.length_append, hs1len,
            Except.ok.injEq, Prod.mk.injEq]
          exact ⟨trivial, by omega⟩
      · rw [if_neg hchk] at henc
        simp at henc

theorem exceptOkBind {e a b : Type} (x : a) (f : a → Except e b) :
    (Except.ok x : Except e a) >>= f = f x := rfl

/-- Round-trip of the template record itself: decoding the bytes written
by `encode_template_to` under a consistent registry returns the same
template (including its recompiled packing plan). -/
theorem decode_template_roundtrip (reg : IERegistry) (tid : Nat)
    (ies : List IEr) (t : TemplateM) (buf : Nat → Nat) (off : Nat)
    (tb : List Nat)
    (hfi : from_ielist tid ies = some t)
    (hwf : ∀ e ∈ ies, wfIEb e = true)
    (hreg : regConsistent reg ies = true)
    (henc : t.encode_template_to 2 = .ok tb)
    (hbuf : readBuf buf off tb.length = tb) :
    decode_template_from reg buf off 2 = .ok (t, off + tb.length) := by
  obtain ⟨htl, htu, httid, hties, -, -, -, -, hcount, -, -, -, -⟩ :=
    from_ielist_facts tid ies t hfi
  have hreg2 : ∀ e ∈ ies, for_template_entry reg e.pen e.num e.length =
      some e := by
    intro e he
    have := hreg
    rw [regConsistent, List.all_eq_true] at this
    have h2 := this e he
    rwa [beq_iff_eq] at h2
  rw [TemplateM.encode_template_to] at henc
  rw [if_pos rfl] at henc
  by_cases hb : t.tid < 256 ^ 2 ∧ t.count < 256 ^ 2
  · rw [if_pos hb] at henc
    rw [pure_bind] at henc
    rw [hties] at henc
    cases hfB : encodeTemplateFields ies with
    | none =>
      rw [hfB] at henc
      exact Except.noConfusion henc
    | some fB =>
      rw [hfB] at henc
      have henc2 : (Except.ok ((encBE 2 t.tid ++ encBE 2 t.count) ++ fB) :
          Except PyErr (List Nat)) = .ok tb := henc
      injection henc2 with htb
      subst htb
      rw [List.length_append] at hbuf
      obtain ⟨hs1, hs2⟩ := readBuf_append_split buf off _ _ hbuf
      rw [List.length_append] at hs1
      obtain ⟨hq1, hq2⟩ := readBuf_append_split buf off _ _ hs1
      simp only [encBE_length] at hq1 hq2 hs2
      rw [List.length_append, encBE_length, encBE_length] at hs2
      norm_num at hs2
      rw [decode_template_from]
      rw [if_pos rfl]
      rw [pure_bind]
      try simp only
      rw [hq1, decBE_encBE_of_lt (by exact_mod_cast hb.1)]
      rw [hq2, decBE_encBE_of_lt (by exact_mod_cast hb.2)]
      rw [httid]
      rw [newTemplate, if_neg (by omega)]
      try simp only
      rw [pure_bind]
      try simp only
      rw [hcount]
      rw [decodeTemplateFieldLoop_roundtrip reg buf ies fB _ (off + 4)
        hwf hreg2 hfB hs2]
      try simp only
      rw [exceptOkBind]
      try simp only
      have hfi2 : (ies.foldl TemplateM.append
          { tid := tid
            ies := []
            minlength := 0
            enclength := 0
            scopecount := 0
            varlenslice := none
            packplan := none }).finalize = some t := by
        rw [from_ielist, newTemplate, if_neg (by omega)] at hfi
        simpa only [Option.pure_def, Option.bind_eq_bind,
          Option.some_bind] using hfi
      rw [hfi2]
      try simp only
      simp only [List.length_append, encBE_length]
      rw [show off + (2 + 2 + fB.length) = off + 4 + fB.length from by omega]
      rfl
  · rw [if_neg hb] at henc
    exact Except.noConfusion henc

/-! ## Export-side state lemmas -/

/-- `recsBytes` unfolds on a cons. -/
theorem recsBytes_cons (ies : List IEr) (r : List PyVal)
    (rs : List (List PyVal)) :
    recsBytes ies (r :: rs) = recBytes ies r ++ recsBytes ies rs := by
  simp [recsBytes]

/-- A successful run of `exportRecordsLoop` writes exactly the
concatenated record bytes at the write cursor and advances the cursor by
their length; every other field except `sequences` is untouched. -/
theorem exportRecordsLoop_writes (tid0 : Nat) (ies : List IEr)
    (t : TemplateM)
    (hfi : from_ielist tid0 ies = some t)
    (hwf : ∀ e ∈ ies, wfIEb e = true) :
    ∀ (rs : List (List PyVal)) (st st2 : MessageBuffer),
    (∀ r ∈ rs, wfRecb ies r = true) →
    st.curtmpl = some t →
    exportRecordsLoop st rs = .ok () st2 →
    st2.mbuf = writeBuf st.mbuf st.length (recsBytes ies rs) ∧
    st2.length = st.length + (recsBytes ies rs).length ∧
    st2.cursetid = st.cursetid ∧ st2.cursetoff = st.cursetoff ∧
    st2.curtmpl = st.curtmpl ∧ st2.mtu = st.mtu ∧ st2.odid = st.odid ∧
    st2.sequence = st.sequence ∧ st2.export_epoch = st.export_epoch ∧
    st2.auto_export_time = st.auto_export_time ∧
    st2.setlist = st.setlist ∧ st2.templates = st.templates ∧
    st2.accepted_tids = st.accepted_tids ∧ st2.streamid = st.streamid ∧
    (st.length ≤ st.mtu → st2.length ≤ st.mtu) := by
  intro rs
  induction rs with
  | nil =>
    intro st st2 _ _ h
    simp only [exportRecordsLoop] at h
    injection h with h1 h2
    subst h2
    refine ⟨?_, ?_, rfl, rfl, rfl, rfl, rfl, rfl, rfl, rfl, rfl, rfl, rfl,
      rfl, fun h => h⟩
    · rw [show recsBytes ies [] = [] from rfl, writeBuf_nil]
    · simp [recsBytes]
  | cons r rs ih =>
    intro st st2 hrs hct h
    simp only [exportRecordsLoop] at h
    have henc : encodeTupleFn t r none = .ok (recBytes ies r) :=
      encode_to_recBytes tid0 ies t r hfi hwf (hrs r (by simp))
    rw [MessageBuffer.export_tuple, MessageBuffer.export_record] at h
    rw [hct] at h
    simp only at h
    rw [henc] at h
    try simp only at h
    by_cases hov : st.length + (recBytes ies r).length > 65536
    · rw [if_pos hov] at h
      exact absurd h (by simp)
    · rw [if_neg hov] at h
      try simp only at h
      by_cases hmtu : st.length + (recBytes ies r).length > st.mtu
      · rw [if_pos hmtu] at h
        exact absurd h (by simp)
      · rw [if_neg hmtu] at h
        try simp only at h
        obtain ⟨h1, h2, h3, h4, h5, h6, h7, h8, h9, h10, h11, h12, h13,
          h14, h15⟩ :=
          ih _ st2 (fun x hx => hrs x (by simp [hx])) rfl h
        have h1b : st2.mbuf = writeBuf (writeBuf st.mbuf st.length
            (recBytes ies r)) (st.length + (recBytes ies r).length)
            (recsBytes ies rs) := h1
        have h2b : st2.length = st.length + (recBytes ies r).length +
            (recsBytes ies rs).length := h2
        have h15b : st.length + (recBytes ies r).length ≤ st.mtu →
            st2.length ≤ st.mtu := h15
        refine ⟨?_, ?_, h3, h4, ?_, h6, h7, h8, h9, h10, h11, h12, h13,
          h14, ?_⟩
        · rw [recsBytes_cons, ← writeBuf_adjacent]
          exact h1b
        · rw [recsBytes_cons, List.length_append]
          have := h2b
          omega
        · rw [hct]
          exact h5
        · intro hle
          exact h15b (by omega)

/-- `begin_export` on a fresh buffer, in closed form. -/
theorem begin_export_init (odid : Nat) :
    MessageBuffer.init.begin_export odid = .ok ()
      { mbuf := writeBuf (fun _ => 0) 0 (List.replicate 16 0)
        length := 16
        sequence := 0
        export_epoch := 0
        odid := odid
        streamid := 0
        templates := []
        accepted_tids := []
        sequences := [((0, 0), 0)]
        setlist := []
        auto_export_time := true
        cursetoff := 16
        cursetid := none
        curtmpl := none
        mtu := 65535 } := by
  rw [MessageBuffer.begin_export]
  by_cases h0 : odid ≠ 0
  · simp [MessageBuffer.init, h0, List.lookup]
  · simp only [ne_eq, Decidable.not_not] at h0
    subst h0
    simp [MessageBuffer.init, List.lookup]

/-- Inversion of a successful export flow: the final buffer's byte image,
cursor and header fields in closed form. -/
theorem exportFlow_state (odid tid : Nat) (ies : List IEr) (t : TemplateM)
    (rs : List (List PyVal)) (stF : MessageBuffer)
    (hfi : from_ielist tid ies = some t)
    (hwf : ∀ e ∈ ies, wfIEb e = true)
    (hrs : ∀ r ∈ rs, wfRecb ies r = true)
    (hflow : exportFlow odid t rs = .ok () stF) :
    ∃ tb, t.encode_template_to 2 = .ok tb ∧
      stF.mbuf = writeBuf (writeBuf (writeBuf (writeBuf (writeBuf
        (writeBuf (fun _ => 0) 0 (List.replicate 16 0))
        16 (encBE 2 2 ++ encBE 2 0))
        20 tb)
        16 (encBE 2 2 ++ encBE 2 (4 + tb.length)))
        (20 + tb.length) (encBE 2 t.tid ++ encBE 2 0))
        (20 + tb.length + 4) (recsBytes ies rs) ∧
      stF.length = 20 + tb.length + 4 + (recsBytes ies rs).length ∧
      stF.cursetoff = 20 + tb.length ∧
      stF.cursetid = some t.tid ∧
      stF.sequence = 0 ∧ stF.export_epoch = 0 ∧ stF.odid = odid ∧
      stF.auto_export_time = true ∧ stF.mtu = 65535 ∧
      stF.length ≤ 65535 ∧ 4 + tb.length < 65536 := by
  obtain ⟨htl, htu, httid, -, -, -, hsc0, -, -, -, -, -, -⟩ :=
    from_ielist_facts tid ies t hfi
  have hns : t.native_setid = 2 := by
    simp [TemplateM.native_setid, hsc0]
  rw [exportFlow, begin_export_init odid] at hflow
  try simp only at hflow
  rw [MessageBuffer.add_template] at hflow
  try simp only at hflow
  simp only [if_true] at hflow
  rw [MessageBuffer.export_template] at hflow
  try simp only at hflow
  rw [show List.lookup (odid, t.tid) [((odid, t.tid), t)] = some t from by
    simp [List.lookup]] at hflow
  try simp only at hflow
  rw [hns] at hflow
  rw [MessageBuffer.export_ensure_set] at hflow
  rw [if_pos (by simp)] at hflow
  rw [MessageBuffer.export_new_set] at hflow
  rw [MessageBuffer.export_close_set] at hflow
  rw [show optTruthy (none : Option Nat) = false from rfl] at hflow
  simp only [Bool.false_eq_true, if_false] at hflow
  rw [if_neg (by norm_num)] at hflow
  rw [if_pos (by norm_num)] at hflow
  try simp only at hflow
  by_cases hroom1 : 20 + t.enclength > 65535
  · rw [if_pos hroom1] at hflow
    exact absurd hflow (by simp)
  · rw [if_neg hroom1] at hflow
    cases henc : t.encode_template_to 2 with
    | error e =>
      rw [henc] at hflow
      exact absurd hflow (by simp)
    | ok tb =>
      rw [henc] at hflow
      try simp only at hflow
      by_cases hov1 : 20 + tb.length ≤ 65536
      · rw [if_pos hov1] at hflow
        try simp only at hflow
        rw [MessageBuffer.export_ensure_set] at hflow
        rw [if_pos (by
          simp only [ne_eq, Option.some.injEq]
          omega)] at hflow
        rw [MessageBuffer.export_new_set] at hflow
        rw [MessageBuffer.export_close_set] at hflow
        rw [show optTruthy (some 2) = true from rfl] at hflow
        rw [if_pos rfl] at hflow
        try simp only at hflow
        simp only [Option.getD_some,
          show (16 : Nat) + 4 = 20 from rfl] at hflow
        by_cases hcl : (2 : Nat) < 256 ^ 2 ∧ 20 + tb.length - 16 < 256 ^ 2
        · rw [if_pos hcl] at hflow
          try simp only at hflow
          rw [if_pos (by omega)] at hflow
          rw [show List.lookup (odid, t.tid) [((odid, t.tid), t)] =
            some t from by simp [List.lookup]] at hflow
          try simp only at hflow
          by_cases hroom2 : 20 + tb.length + 4 + t.minlength > 65535
          · rw [if_pos hroom2] at hflow
            exact absurd hflow (by simp)
          · rw [if_neg hroom2] at hflow
            try simp only at hflow
            rw [if_pos (by constructor <;> omega)] at hflow
            try simp only at hflow
            obtain ⟨h1, h2, h3, h4, h5, h6, h7, h8, h9, h10, h11, h12,
              h13, h14, h15⟩ :=
              exportRecordsLoop_writes tid ies t hfi hwf rs _ stF hrs rfl
                hflow
            refine ⟨tb, rfl, ?_, ?_, ?_, ?_, ?_, ?_, ?_, ?_, ?_, ?_, ?_⟩
            · rw [h1]
              rw [show (20 : Nat) + tb.length - 16 = 4 + tb.length from by
                omega]
            · exact h2
            · exact h4
            · exact h3
            · exact h8
            · exact h9
            · exact h7
            · exact h10
            · exact h6
            · have h15b : 20 + tb.length + 4 ≤ 65535 → stF.length ≤ 65535 :=
                h15
              exact h15b (by omega)
            · omega
        · rw [if_neg hcl] at hflow
          exact absurd hflow (by simp)
      · rw [if_neg (by omega)] at hflow
        exact absurd hflow (by simp)

theorem readBuf_writeBuf_len (buf : Nat → Nat) (off n : Nat)
    (bs : List Nat) (h : bs.length = n) :
    readBuf (writeBuf buf off bs) off n = bs := by
  subst h
  exact readBuf_writeBuf buf off bs

/-- Reading the finished message image out of the buffer yields the five
chunks: header, template set header, template record, data set header,
record run. -/
theorem finalReadBuf (tb recsB : List Nat) (tid2 odid now L : Nat)
    (hL : L = 24 + tb.length + recsB.length) :
    readBuf
      (writeBuf (writeBuf (writeBuf (writeBuf (writeBuf (writeBuf (writeBuf
        (writeBuf (fun _ => 0) 0 (List.replicate 16 0))
        16 (encBE 2 2 ++ encBE 2 0))
        20 tb)
        16 (encBE 2 2 ++ encBE 2 (4 + tb.length)))
        (20 + tb.length) (encBE 2 tid2 ++ encBE 2 0))
        (20 + tb.length + 4) recsB)
        (20 + tb.length) (encBE 2 tid2 ++ encBE 2 (4 + recsB.length)))
        0 (encBE 2 10 ++ encBE 2 L ++ encBE 4 0 ++ encBE 4 now ++
           encBE 4 odid))
      0 L =
    (encBE 2 10 ++ encBE 2 L ++ encBE 4 0 ++ encBE 4 now ++ encBE 4 odid)
      ++ (encBE 2 2 ++ encBE 2 (4 + tb.length)) ++ tb
      ++ (encBE 2 tid2 ++ encBE 2 (4 + recsB.length)) ++ recsB := by
  have h16 : (encBE 2 10 ++ encBE 2 L ++ encBE 4 0 ++ encBE 4 now ++
      encBE 4 odid).length = 16 := by simp [encBE_length]
  have h4a : (encBE 2 2 ++ encBE 2 (4 + tb.length)).length = 4 := by
    simp [encBE_length]
  have h4b : (encBE 2 tid2 ++ encBE 2 (4 + recsB.length)).length = 4 := by
    simp [encBE_length]
  set M8 := writeBuf (writeBuf (writeBuf (writeBuf (writeBuf (writeBuf
      (writeBuf (writeBuf (fun _ : Nat => (0 : Nat)) 0
        (List.replicate 16 0))
      16 (encBE 2 2 ++ encBE 2 0))
      20 tb)
      16 (encBE 2 2 ++ encBE 2 (4 + tb.length)))
      (20 + tb.length) (encBE 2 tid2 ++ encBE 2 0))
      (20 + tb.length + 4) recsB)
      (20 + tb.length) (encBE 2 tid2 ++ encBE 2 (4 + recsB.length)))
      0 (encBE 2 10 ++ encBE 2 L ++ encBE 4 0 ++ encBE 4 now ++
         encBE 4 odid) with hM8
  have c1 : readBuf M8 0 16 =
      encBE 2 10 ++ encBE 2 L ++ encBE 4 0 ++ encBE 4 now ++
        encBE 4 odid := by
    rw [hM8]
    exact readBuf_writeBuf_len _ 0 16 _ h16
  have c2 : readBuf M8 16 4 = encBE 2 2 ++ encBE 2 (4 + tb.length) := by
    rw [hM8]
    rw [readBuf_writeBuf_right _ _ _ 16 4 (by rw [h16])]
    rw [readBuf_writeBuf_left _ _ _ 16 4 (by omega)]
    rw [readBuf_writeBuf_left _ _ _ 16 4 (by omega)]
    rw [readBuf_writeBuf_left _ _ _ 16 4 (by omega)]
    exact readBuf_writeBuf_len _ 16 4 _ h4a
  have c3 : readBuf M8 20 tb.length = tb := by
    rw [hM8]
    rw [readBuf_writeBuf_right _ _ _ 20 tb.length (by rw [h16]; omega)]
    rw [readBuf_writeBuf_left _ _ _ 20 tb.length (by omega)]
    rw [readBuf_writeBuf_left _ _ _ 20 tb.length (by omega)]
    rw [readBuf_writeBuf_left _ _ _ 20 tb.length (by omega)]
    rw [readBuf_writeBuf_right _ _ _ 20 tb.length (by rw [h4a])]
    exact readBuf_writeBuf_len _ 20 tb.length _ rfl
  have c4 : readBuf M8 (20 + tb.length) 4 =
      encBE 2 tid2 ++ encBE 2 (4 + recsB.length) := by
    rw [hM8]
    rw [readBuf_writeBuf_right _ _ _ (20 + tb.length) 4
      (by rw [h16]; omega)]
    exact readBuf_writeBuf_len _ (20 + tb.length) 4 _ h4b
  have c5 : readBuf M8 (20 + tb.length + 4) recsB.length = recsB := by
    rw [hM8]
    rw [readBuf_writeBuf_right _ _ _ (20 + tb.length + 4) recsB.length
      (by rw [h16]; omega)]
    rw [readBuf_writeBuf_right _ _ _ (20 + tb.length + 4) recsB.length
      (by rw [h4b])]
    exact readBuf_writeBuf_len _ (20 + tb.length + 4) recsB.length _ rfl
  have e1 : L = 16 + (4 + (tb.length + (4 + recsB.length))) := by omega
  rw [show readBuf M8 0 L =
      readBuf M8 0 16 ++ (readBuf M8 16 4 ++ (readBuf M8 20 tb.length ++
        (readBuf M8 (20 + tb.length) 4 ++
          readBuf M8 (20 + tb.length + 4) recsB.length))) from by
    rw [e1, readBuf_split M8 0 16 (4 + (tb.length + (4 + recsB.length)))]
    rw [show (0 : Nat) + 16 = 16 from rfl]
    rw [readBuf_split M8 16 4 (tb.length + (4 + recsB.length))]
    rw [show (16 : Nat) + 4 = 20 from rfl]
    rw [readBuf_split M8 20 tb.length (4 + recsB.length)]
    rw [readBuf_split M8 (20 + tb.length) 4 recsB.length]]
  rw [c1, c2, c3, c4, c5]
  simp [List.append_assoc]

/-- Full layout of a successfully exported message: header, template set,
data set, record run, together with the bounds the encoder checked. -/
theorem exportThenBytes_layout (odid tid now : Nat) (ies : List IEr)
    (t : TemplateM) (rs : List (List PyVal)) (bytes : List Nat)
    (hfi : from_ielist tid ies = some t)
    (hwf : ∀ e ∈ ies, wfIEb e = true)
    (hrs : ∀ r ∈ rs, wfRecb ies r = true)
    (hexp : exportThenBytes odid t rs now = some bytes) :
    ∃ tb, t.encode_template_to 2 = .ok tb ∧
      bytes = encBE 2 10 ++
        encBE 2 (24 + tb.length + (recsBytes ies rs).length) ++
        encBE 4 0 ++ encBE 4 now ++ encBE 4 odid ++
        (encBE 2 2 ++ encBE 2 (4 + tb.length)) ++ tb ++
        (encBE 2 t.tid ++ encBE 2 (4 + (recsBytes ies rs).length)) ++
        recsBytes ies rs ∧
      24 + tb.length + (recsBytes ies rs).length ≤ 65535 ∧
      now < 256 ^ 4 ∧ odid < 256 ^ 4 ∧
      4 + tb.length < 256 ^ 2 ∧ 4 + (recsBytes ies rs).length < 256 ^ 2 := by
  obtain ⟨htl, htu, httid, -, -, -, -, -, -, -, -, -, -⟩ :=
    from_ielist_facts tid ies t hfi
  rw [exportThenBytes] at hexp
  cases hflow : exportFlow odid t rs with
  | err e st => rw [hflow] at hexp; exact absurd hexp (by simp)
  | hang => rw [hflow] at hexp; exact absurd hexp (by simp)
  | ok a stF =>
    cases a
    rw [hflow] at hexp
    try simp only at hexp
    obtain ⟨tb, henc, hmb, hlen, hcso, hcsi, hseq, hepo, hod, hauto, hmtu,
      hlmtu, htb16⟩ := exportFlow_state odid tid ies t rs stF hfi hwf hrs
        hflow
    cases htob : stF.to_bytes now with
    | err e st => rw [htob] at hexp; exact absurd hexp (by simp)
    | hang => rw [htob] at hexp; exact absurd hexp (by simp)
    | ok bs st2 =>
      rw [htob] at hexp
      simp only [Option.some.injEq] at hexp
      subst hexp
      rw [MessageBuffer.to_bytes, MessageBuffer.export_close_set] at htob
      rw [hcsi] at htob
      rw [show optTruthy (some t.tid) = true from by
        simp only [optTruthy, decide_eq_true_eq]
        omega] at htob
      rw [if_pos rfl] at htob
      try simp only at htob
      simp only [Option.getD_some] at htob
      have hlmtu2 : 20 + tb.length + 4 + (recsBytes ies rs).length ≤
          65535 := by
        have h5 := hlmtu
        rw [hlen] at h5
        exact h5
      rw [if_pos (by
        constructor
        · omega
        · rw [hlen, hcso]
          omega)] at htob
      try simp only at htob
      rw [hauto] at htob
      rw [if_pos rfl] at htob
      try simp only at htob
      by_cases hb1 : stF.length < 256 ^ 2 ∧ stF.sequence < 256 ^ 4 ∧
          now < 256 ^ 4 ∧ stF.odid < 256 ^ 4
      · rw [if_pos hb1] at htob
        try simp only at htob
        injection htob with hbs hst2
        rw [← hbs]
        rw [hmb, hcso, hlen, hseq, hod]
        rw [show 20 + tb.length + 4 + (recsBytes ies rs).length -
          (20 + tb.length) = 4 + (recsBytes ies rs).length from by omega]
        rw [show 20 + tb.length + 4 + (recsBytes ies rs).length =
          24 + tb.length + (recsBytes ies rs).length from by omega]
        rw [finalReadBuf tb (recsBytes ies rs) t.tid odid now
          (24 + tb.length + (recsBytes ies rs).length) rfl]
        refine ⟨tb, henc, ?_, by omega, hb1.2.2.1, ?_, by omega, by omega⟩
        · simp [List.append_assoc]
        · have := hb1.2.2.2
          rwa [hod] at this
      · rw [if_neg hb1] at htob
        exact absurd htob (by simp)

/-! ## Read-back lemmas -/

/-- A successful template-record encoding is at least the 4-byte template
header. -/
theorem encode_template_to_inv (t : TemplateM) (tb : List Nat)
    (h : t.encode_template_to 2 = .ok tb) : 4 ≤ tb.length := by
  rw [TemplateM.encode_template_to, if_pos rfl] at h
  by_cases hb : t.tid < 256 ^ 2 ∧ t.count < 256 ^ 2
  · rw [if_pos hb, pure_bind] at h
    cases hfB : encodeTemplateFields t.ies with
    | none => rw [hfB] at h; exact Except.noConfusion h
    | some fB =>
      rw [hfB] at h
      have h2 : (Except.ok ((encBE 2 t.tid ++ encBE 2 t.count) ++ fB) :
          Except PyErr (List Nat)) = .ok tb := h
      injection h2 with htb
      rw [← htb]
      simp only [List.length_append, encBE_length]
      omega
  · rw [if_neg hb] at h
    exact Except.noConfusion h

/-- Every well-formed IE contributes at least one byte to `minlength`. -/
theorem minlenSum_pos (ies : List IEr) (hne : ies ≠ [])
    (hwf : ∀ e ∈ ies, wfIEb e = true) : 1 ≤ minlenSum ies := by
  cases ies with
  | nil => exact absurd rfl hne
  | cons e rest =>
    have h1 : 1 ≤ (if e.length = VARLEN then 1 else e.length) := by
      by_cases hv : e.length = VARLEN
      · simp [hv]
      · rw [if_neg hv]
        obtain ⟨-, -, hca | hca⟩ := wfIEb_cases e (hwf e (by simp))
        · obtain ⟨st, -, -, hstel, hlen⟩ := hca
          rcases hstel with h | h | h | h <;> rw [hlen, h] <;> decide
        · obtain ⟨-, -, -, hlen⟩ := hca
          exact absurd hlen hv
    simp only [minlenSum, List.map_cons, List.sum_cons]
    omega

/-- The wire image of a well-formed record is at least `minlength`
bytes. -/
theorem minlenSum_le_recBytes (ies : List IEr) :
    ∀ r : List PyVal, (∀ e ∈ ies, wfIEb e = true) →
    wfRecb ies r = true →
    minlenSum ies ≤ (recBytes ies r).length := by
  induction ies with
  | nil => intro r _ _; simp [minlenSum]
  | cons e ies ih =>
    intro r hwf hrec
    obtain ⟨hlen, hwv⟩ := (wfRecb_iff (e :: ies) r).mp hrec
    cases r with
    | nil => simp at hlen
    | cons v r =>
      have h1 := fieldEncBytes_length e v (hwf e (by simp))
        (hwv (e, v) (by simp [List.zip_cons_cons]))
      have h2 := ih r (fun x hx => hwf x (by simp [hx]))
        ((wfRecb_iff ies r).mpr ⟨by simpa using hlen,
          fun p hp => hwv p (by simp [List.zip_cons_cons, hp])⟩)
      simp only [minlenSum, List.map_cons, List.sum_cons, recBytes,
        List.zip_cons_cons, List.map_cons, List.flatten_cons,
        List.length_append]
      simp only [minlenSum, recBytes] at h2
      omega

/-- All reads `from_bytes` and the set scan perform on the message
image. -/
theorem msgReads (tb recsB : List Nat) (tid2 s ep od L : Nat)
    (buf : Nat → Nat)
    (hbuf : buf = writeBuf (fun _ => 0) 0
      (encBE 2 10 ++ (encBE 2 L ++ (encBE 4 s ++ (encBE 4 ep ++
       (encBE 4 od ++ ((encBE 2 2 ++ encBE 2 (4 + tb.length)) ++ (tb ++
       ((encBE 2 tid2 ++ encBE 2 (4 + recsB.length)) ++ recsB))))))))) :
    readBuf buf 0 2 = encBE 2 10 ∧
    readBuf buf 2 2 = encBE 2 L ∧
    readBuf buf 4 4 = encBE 4 s ∧
    readBuf buf 8 4 = encBE 4 ep ∧
    readBuf buf 12 4 = encBE 4 od ∧
    readBuf buf 16 2 = encBE 2 2 ∧
    readBuf buf 18 2 = encBE 2 (4 + tb.length) ∧
    readBuf buf 20 tb.length = tb ∧
    readBuf buf (20 + tb.length) 2 = encBE 2 tid2 ∧
    readBuf buf (20 + tb.length + 2) 2 = encBE 2 (4 + recsB.length) ∧
    readBuf buf (20 + tb.length + 4) recsB.length = recsB := by
  subst hbuf
  have h0 := readBuf_writeBuf_len (fun _ => 0) 0 _ _ (rfl :
    (encBE 2 10 ++ (encBE 2 L ++ (encBE 4 s ++ (encBE 4 ep ++
     (encBE 4 od ++ ((encBE 2 2 ++ encBE 2 (4 + tb.length)) ++ (tb ++
     ((encBE 2 tid2 ++ encBE 2 (4 + recsB.length)) ++
       recsB)))))))).length = _)
  rw [List.length_append] at h0
  obtain ⟨r1, h1⟩ := readBuf_append_split _ 0 _ _ h0
  simp only [encBE_length, Nat.zero_add] at r1 h1
  rw [List.length_append] at h1
  obtain ⟨r2, h2⟩ := readBuf_append_split _ 2 _ _ h1
  simp only [encBE_length] at r2 h2
  rw [show (2 : Nat) + 2 = 4 from rfl] at h2
  rw [List.length_append] at h2
  obtain ⟨r3, h3⟩ := readBuf_append_split _ 4 _ _ h2
  simp only [encBE_length] at r3 h3
  rw [show (4 : Nat) + 4 = 8 from rfl] at h3
  rw [List.length_append] at h3
  obtain ⟨r4, h4⟩ := readBuf_append_split _ 8 _ _ h3
  simp only [encBE_length] at r4 h4
  rw [show (8 : Nat) + 4 = 12 from rfl] at h4
  rw [List.length_append] at h4
  obtain ⟨r5, h5⟩ := readBuf_append_split _ 12 _ _ h4
  simp only [encBE_length] at r5 h5
  rw [show (12 : Nat) + 4 = 16 from rfl] at h5
  rw [List.length_append] at h5
  obtain ⟨r6, h6⟩ := readBuf_append_split _ 16 _ _ h5
  rw [List.length_append] at r6
  obtain ⟨r6a, r6b⟩ := readBuf_append_split _ 16 _ _ r6
  simp only [encBE_length] at r6a r6b
  rw [show (16 : Nat) + 2 = 18 from rfl] at r6b
  rw [List.length_append, encBE_length, encBE_length] at h6
  rw [show (16 : Nat) + (2 + 2) = 20 from rfl] at h6
  rw [List.length_append] at h6
  obtain ⟨r7, h7⟩ := readBuf_append_split _ 20 _ _ h6
  rw [List.length_append] at h7
  obtain ⟨r8, h8⟩ := readBuf_append_split _ (20 + tb.length) _ _ h7
  rw [List.length_append] at r8
  obtain ⟨r8a, r8b⟩ := readBuf_append_split _ (20 + tb.length) _ _ r8
  simp only [encBE_length] at r8a r8b
  rw [List.length_append, encBE_length, encBE_length] at h8
  rw [show (2 : Nat) + 2 = 4 from rfl] at h8
  exact ⟨r1, r2, r3, r4, r5, r6a, r6b, r7, r8a, r8b, h8⟩

/-- A data set holding the wire image of a well-formed record run decodes
back to exactly that run. -/
theorem dataSetLoop_run (tid : Nat) (ies : List IEr) (t : TemplateM)
    (hfi : from_ielist tid ies = some t)
    (hwf : ∀ e ∈ ies, wfIEb e = true) (hne : ies ≠ []) :
    ∀ (rs : List (List PyVal)) (recs0 : List (List PyVal)) (fuel off : Nat)
      (st : MessageBuffer),
    (∀ r ∈ rs, wfRecb ies r = true) →
    rs.length + 1 ≤ fuel →
    readBuf st.mbuf off (recsBytes ies rs).length = recsBytes ies rs →
    ∃ st2, dataSetLoop decodeTupleFn t none
        (off + (recsBytes ies rs).length) fuel st off recs0 =
      .ok (recs0 ++ rs) st2 ∧ st2.mbuf = st.mbuf := by
  obtain ⟨-, -, -, -, hmin, -, -, -, -, -, -, -, -⟩ :=
    from_ielist_facts tid ies t hfi
  intro rs
  induction rs with
  | nil =>
    intro recs0 fuel off st _ hfuel _
    cases fuel with
    | zero => omega
    | succ f =>
      refine ⟨st, ?_, rfl⟩
      simp only [dataSetLoop]
      rw [if_neg ?_]
      · simp [recsBytes]
      · have h1 := minlenSum_pos ies hne hwf
        rw [hmin]
        simp only [recsBytes, List.map_nil, List.flatten_nil,
          List.length_nil]
        omega
  | cons r rs ih =>
    intro recs0 fuel off st hrs hfuel hbuf
    cases fuel with
    | zero => simp at hfuel
    | succ f =>
      rw [recsBytes_cons] at hbuf ⊢
      rw [List.length_append] at hbuf
      obtain ⟨hbufr, hbufrest⟩ := readBuf_append_split _ off _ _ hbuf
      have hdec : decodeTupleFn t st.mbuf off none =
          .ok (r, off + (recBytes ies r).length) :=
        decode_tuple_from_recBytes tid ies t r st.mbuf off hfi hwf
          (hrs r (by simp)) hbufr
      have hcond : off + t.minlength ≤
          off + (recBytes ies r ++ recsBytes ies rs).length := by
        rw [hmin, List.length_append]
        have := minlenSum_le_recBytes ies r hwf (hrs r (by simp))
        omega
      have hbufrest2 : readBuf (st.increment_sequence).mbuf
          (off + (recBytes ies r).length) (recsBytes ies rs).length =
          recsBytes ies rs := hbufrest
      obtain ⟨st2, hloop, hmb⟩ := ih (recs0 ++ [r]) f
        (off + (recBytes ies r).length) st.increment_sequence
        (fun x hx => hrs x (by simp [hx])) (by simp at hfuel; omega)
        hbufrest2
      rw [Nat.add_assoc] at hloop
      refine ⟨st2, ?_, hmb⟩
      simp only [dataSetLoop]
      rw [if_pos hcond, hdec]
      rw [List.length_append]
      have hgoal : dataSetLoop decodeTupleFn t none
          (off + ((recBytes ies r).length + (recsBytes ies rs).length)) f
          st.increment_sequence (off + (recBytes ies r).length)
          (recs0 ++ [r]) = .ok (recs0 ++ [r] ++ rs) st2 := hloop
      rw [List.append_assoc] at hgoal
      exact hgoal

/-- One iteration of the set scan over a well-formed set header. -/
theorem scanSetlistLoop_step (buf : Nat → Nat) (msglen fuel offset : Nat)
    (acc : List (Nat × Nat × Nat)) (setid setlen : Nat)
    (h1 : offset < msglen)
    (h2 : decBE (readBuf buf offset 2) = setid)
    (h3 : decBE (readBuf buf (offset + 2) 2) = setlen)
    (h4 : ¬ offset + setlen > msglen) :
    scanSetlistLoop buf msglen (fuel + 1) offset acc =
      scanSetlistLoop buf msglen fuel (offset + setlen)
        (acc ++ [(offset, setid, setlen)]) := by
  simp only [scanSetlistLoop]
  rw [if_pos h1, h2, h3, if_neg h4]

/-- The set scan stops at the end of the message. -/
theorem scanSetlistLoop_stop (buf : Nat → Nat) (msglen fuel offset : Nat)
    (acc : List (Nat × Nat × Nat)) (h : ¬ offset < msglen) :
    scanSetlistLoop buf msglen (fuel + 1) offset acc = .inl (.ok acc) := by
  simp only [scanSetlistLoop]
  rw [if_neg h]

/-- One iteration of the template-set loop when the decoded template is
accepted and not yet in the accepted list. -/
theorem templateSetLoop_step (reg : IERegistry)
    (acceptFn : TemplateM → Bool) (setid setend fuel : Nat)
    (st : MessageBuffer) (offset : Nat) (tmpl : TemplateM) (offset2 : Nat)
    (h1 : offset < setend)
    (h2 : decode_template_from reg st.mbuf offset setid = .ok (tmpl, offset2))
    (hacc : acceptFn tmpl = true)
    (hmem : (st.odid, tmpl.tid) ∉ st.accepted_tids) :
    templateSetLoop reg acceptFn setid setend (fuel + 1) st offset =
      templateSetLoop reg acceptFn setid setend fuel
        { st with templates := ((st.odid, tmpl.tid), tmpl) :: st.templates
                  accepted_tids := (st.odid, tmpl.tid) :: st.accepted_tids }
        offset2 := by
  simp only [templateSetLoop]
  rw [if_pos h1, h2]
  simp only [hacc, if_true]
  rw [if_neg hmem]

/-- The template-set loop stops at the end of the set. -/
theorem templateSetLoop_exit (reg : IERegistry)
    (acceptFn : TemplateM → Bool) (setid setend fuel : Nat)
    (st : MessageBuffer) (offset : Nat) (h : ¬ offset < setend) :
    templateSetLoop reg acceptFn setid setend (fuel + 1) st offset =
      .ok () st := by
  simp only [templateSetLoop]
  rw [if_neg h]

set_option maxRecDepth 4000 in
set_option maxHeartbeats 2000000 in
/-- **C1** (amended to nonempty templates): a message produced by the
export pipeline — `begin_export`, `add_template`, `export_ensure_set`,
`export_record` for each record, `to_bytes` — over a nonempty well-formed
template parses back with `from_bytes`, and `record_iterator` yields
exactly the exported records, in order. -/
theorem C1_roundtrip (reg : IERegistry) (odid tid now : Nat)
    (ies : List IEr) (t : TemplateM) (rs : List (List PyVal))
    (bytes : List Nat) (fuel : Nat)
    (hne : ies ≠ [])
    (hwf : ∀ e ∈ ies, wfIEb e = true)
    (hreg : regConsistent reg ies = true)
    (hrs : ∀ r ∈ rs, wfRecb ies r = true)
    (hfi : from_ielist tid ies = some t)
    (hexp : exportThenBytes odid t rs now = some bytes)
    (hfuel : rs.length + 3 ≤ fuel) :
    ∃ stF, readBackOrdered reg bytes fuel = .ok rs stF := by
  obtain ⟨tb, henc, hbytes, hlen, hnow, hod, htb16, hrecs16⟩ :=
    exportThenBytes_layout odid tid now ies t rs bytes hfi hwf hrs hexp
  obtain ⟨htl, htu, httid, -, -, -, -, -, -, -, -, -, -⟩ :=
    from_ielist_facts tid ies t hfi
  have htb4 := encode_template_to_inv t tb henc
  obtain ⟨f, rfl⟩ : ∃ f, fuel = f + 3 := ⟨fuel - 3, by omega⟩
  have hb2 : bytes = encBE 2 10 ++
      (encBE 2 (24 + tb.length + (recsBytes ies rs).length) ++
      (encBE 4 0 ++ (encBE 4 now ++ (encBE 4 odid ++
      ((encBE 2 2 ++ encBE 2 (4 + tb.length)) ++ (tb ++
      ((encBE 2 t.tid ++ encBE 2 (4 + (recsBytes ies rs).length)) ++
        recsBytes ies rs))))))) := by
    rw [hbytes]
    simp [List.append_assoc]
  obtain ⟨m1, m2, m3, m4, m5, m6, m7, m8, m9, m10, m11⟩ :=
    msgReads tb (recsBytes ies rs) t.tid 0 now odid
      (24 + tb.length + (recsBytes ies rs).length)
      (writeBuf (fun _ => 0) 0 bytes) (by rw [hb2])
  have hblen : bytes.length =
      24 + tb.length + (recsBytes ies rs).length := by
    rw [hbytes]
    simp only [List.length_append, encBE_length]
    omega
  have hv10 : decBE (readBuf (writeBuf (fun _ => 0) 0 bytes) 0 2) = 10 := by
    rw [m1]; exact decBE_encBE_of_lt (by norm_num)
  have hvL : decBE (readBuf (writeBuf (fun _ => 0) 0 bytes) 2 2) =
      24 + tb.length + (recsBytes ies rs).length := by
    rw [m2]; exact decBE_encBE_of_lt (by norm_num; omega)
  have hseq0 : decBE (readBuf (writeBuf (fun _ => 0) 0 bytes) 4 4) = 0 := by
    rw [m3]; exact decBE_encBE_of_lt (by norm_num)
  have hep : decBE (readBuf (writeBuf (fun _ => 0) 0 bytes) 8 4) = now := by
    rw [m4]; exact decBE_encBE_of_lt hnow
  have hodid : decBE (readBuf (writeBuf (fun _ => 0) 0 bytes) 12 4) =
      odid := by
    rw [m5]; exact decBE_encBE_of_lt hod
  have hscan : scanSetlistLoop (writeBuf (fun _ => 0) 0 bytes)
      (24 + tb.length + (recsBytes ies rs).length) (f + 3) 16 [] =
      .inl (.ok [(16, 2, 4 + tb.length),
        (20 + tb.length, t.tid, 4 + (recsBytes ies rs).length)]) := by
    rw [show f + 3 = (f + 2) + 1 from rfl]
    rw [scanSetlistLoop_step (writeBuf (fun _ => 0) 0 bytes)
      (24 + tb.length + (recsBytes ies rs).length) (f + 2) 16 [] 2
      (4 + tb.length) (by omega)
      (by rw [m6]; exact decBE_encBE_of_lt (by norm_num))
      (by rw [show (16 : Nat) + 2 = 18 from rfl, m7]
          exact decBE_encBE_of_lt htb16)
      (by omega)]
    simp only [List.nil_append]
    rw [show (16 : Nat) + (4 + tb.length) = 20 + tb.length from by omega]
    rw [show f + 2 = (f + 1) + 1 from rfl]
    rw [scanSetlistLoop_step (writeBuf (fun _ => 0) 0 bytes)
      (24 + tb.length + (recsBytes ies rs).length) (f + 1)
      (20 + tb.length) _ t.tid (4 + (recsBytes ies rs).length) (by omega)
      (by rw [m9]
          exact decBE_encBE_of_lt (by rw [httid]; norm_num; omega))
      (by rw [m10]; exact decBE_encBE_of_lt hrecs16)
      (by omega)]
    rw [show 20 + tb.length + (4 + (recsBytes ies rs).length) =
      24 + tb.length + (recsBytes ies rs).length from by omega]
    rw [scanSetlistLoop_stop _ _ f _ _ (by omega)]
    simp
  have hfb : MessageBuffer.init.from_bytes bytes (f + 3) =
      .ok () { mbuf := writeBuf (fun _ => 0) 0 bytes
               length := 24 + tb.length + (recsBytes ies rs).length
               sequence := 0
               export_epoch := now
               odid := odid
               streamid := 0
               templates := []
               accepted_tids := []
               sequences := []
               setlist := [(16, 2, 4 + tb.length),
                 (20 + tb.length, t.tid, 4 + (recsBytes ies rs).length)]
               auto_export_time := true
               cursetoff := 0
               cursetid := none
               curtmpl := none
               mtu := 65535 } := by
    simp only [MessageBuffer.from_bytes, MessageBuffer.init]
    rw [if_neg (show ¬ bytes.length < 16 by rw [hblen]; omega)]
    rw [hv10, hvL, hseq0, hep, hodid]
    rw [if_neg (by omega)]
    rw [if_neg (by omega)]
    simp only [MessageBuffer.scan_setlist]
    rw [hscan]
  have hdect : decode_template_from reg
      ({ mbuf := writeBuf (fun _ => 0) 0 bytes
         length := 24 + tb.length + (recsBytes ies rs).length
         sequence := 0
         export_epoch := now
         odid := odid
         streamid := 0
         templates := []
         accepted_tids := []
         sequences := []
         setlist := [(16, 2, 4 + tb.length),
           (20 + tb.length, t.tid, 4 + (recsBytes ies rs).length)]
         auto_export_time := true
         cursetoff := 0
         cursetid := none
         curtmpl := none
         mtu := 65535 } : MessageBuffer).mbuf 20 2 =
      .ok (t, 20 + tb.length) :=
    decode_template_roundtrip reg tid ies t
      (writeBuf (fun _ => 0) 0 bytes) 20 tb hfi hwf hreg henc m8
  obtain ⟨st3, hds, hmb3⟩ := dataSetLoop_run tid ies t hfi hwf hne rs []
    (f + 3) (20 + tb.length + 4)
    { mbuf := writeBuf (fun _ => 0) 0 bytes
      length := 24 + tb.length + (recsBytes ies rs).length
      sequence := 0
      export_epoch := now
      odid := odid
      streamid := 0
      templates := [((odid, t.tid), t)]
      accepted_tids := [(odid, t.tid)]
      sequences := []
      setlist := [(16, 2, 4 + tb.length),
        (20 + tb.length, t.tid, 4 + (recsBytes ies rs).length)]
      auto_export_time := true
      cursetoff := 0
      cursetid := none
      curtmpl := none
      mtu := 65535 } hrs (by omega) m11
  have hts : templateSetLoop reg (fun _ => true) 2 (16 + (4 + tb.length))
      (f + 3)
      { mbuf := writeBuf (fun _ => 0) 0 bytes
        length := 24 + tb.length + (recsBytes ies rs).length
        sequence := 0
        export_epoch := now
        odid := odid
        streamid := 0
        templates := []
        accepted_tids := []
        sequences := []
        setlist := [(16, 2, 4 + tb.length),
          (20 + tb.length, t.tid, 4 + (recsBytes ies rs).length)]
        auto_export_time := true
        cursetoff := 0
        cursetid := none
        curtmpl := none
        mtu := 65535 } 20 = .ok ()
      { mbuf := writeBuf (fun _ => 0) 0 bytes
        length := 24 + tb.length + (recsBytes ies rs).length
        sequence := 0
        export_epoch := now
        odid := odid
        streamid := 0
        templates := [((odid, t.tid), t)]
        accepted_tids := [(odid, t.tid)]
        sequences := []
        setlist := [(16, 2, 4 + tb.length),
          (20 + tb.length, t.tid, 4 + (recsBytes ies rs).length)]
        auto_export_time := true
        cursetoff := 0
        cursetid := none
        curtmpl := none
        mtu := 65535 } := by
    rw [show f + 3 = (f + 2) + 1 from rfl]
    rw [templateSetLoop_step reg (fun _ => true) 2 (16 + (4 + tb.length))
      (f + 2) _ 20 t (20 + tb.length) (by omega) hdect rfl
      (List.not_mem_nil _)]
    rw [show f + 2 = (f + 1) + 1 from rfl]
    rw [templateSetLoop_exit reg (fun _ => true) 2 (16 + (4 + tb.length))
      (f + 1) _ (20 + tb.length) (by omega)]
  have hri1 : recordIteratorSets reg decodeTupleFn (fun _ => true) none
      (f + 3) [(16, 2, 4 + tb.length),
        (20 + tb.length, t.tid, 4 + (recsBytes ies rs).length)]
      { mbuf := writeBuf (fun _ => 0) 0 bytes
        length := 24 + tb.length + (recsBytes ies rs).length
        sequence := 0
        export_epoch := now
        odid := odid
        streamid := 0
        templates := []
        accepted_tids := []
        sequences := []
        setlist := [(16, 2, 4 + tb.length),
          (20 + tb.length, t.tid, 4 + (recsBytes ies rs).length)]
        auto_export_time := true
        cursetoff := 0
        cursetid := none
        curtmpl := none
        mtu := 65535 } [] =
      recordIteratorSets reg decodeTupleFn (fun _ => true) none (f + 3)
      [(20 + tb.length, t.tid, 4 + (recsBytes ies rs).length)]
      { mbuf := writeBuf (fun _ => 0) 0 bytes
        length := 24 + tb.length + (recsBytes ies rs).length
        sequence := 0
        export_epoch := now
        odid := odid
        streamid := 0
        templates := [((odid, t.tid), t)]
        accepted_tids := [(odid, t.tid)]
        sequences := []
        setlist := [(16, 2, 4 + tb.length),
          (20 + tb.length, t.tid, 4 + (recsBytes ies rs).length)]
        auto_export_time := true
        cursetoff := 0
        cursetid := none
        curtmpl := none
        mtu := 65535 } [] := by
    simp only [recordIteratorSets]
    rw [show (16 : Nat) + 4 = 20 from rfl]
    rw [hts]
    simp
  have hri2 : recordIteratorSets reg decodeTupleFn (fun _ => true) none
      (f + 3) [(20 + tb.length, t.tid, 4 + (recsBytes ies rs).length)]
      { mbuf := writeBuf (fun _ => 0) 0 bytes
        length := 24 + tb.length + (recsBytes ies rs).length
        sequence := 0
        export_epoch := now
        odid := odid
        streamid := 0
        templates := [((odid, t.tid), t)]
        accepted_tids := [(odid, t.tid)]
        sequences := []
        setlist := [(16, 2, 4 + tb.length),
          (20 + tb.length, t.tid, 4 + (recsBytes ies rs).length)]
        auto_export_time := true
        cursetoff := 0
        cursetid := none
        curtmpl := none
        mtu := 65535 } [] = .ok rs st3 := by
    simp only [recordIteratorSets]
    rw [if_neg (show ¬ (t.tid = 2 ∨ t.tid = 3) by omega)]
    rw [if_neg (show ¬ t.tid < 256 by omega)]
    rw [if_pos (show ((odid : Nat), t.tid) ∈ [((odid : Nat), t.tid)]
      from by simp)]
    simp only [List.lookup, beq_self_eq_true, if_true]
    rw [show 20 + tb.length + (4 + (recsBytes ies rs).length) =
      20 + tb.length + 4 + (recsBytes ies rs).length from by omega]
    rw [hds]
    simp [recordIteratorSets]
  refine ⟨st3, ?_⟩
  rw [readBackOrdered, hfb]
  show recordIteratorSets reg decodeTupleFn (fun _ => true) none (f + 3)
      [(16, 2, 4 + tb.length),
        (20 + tb.length, t.tid, 4 + (recsBytes ies rs).length)]
      { mbuf := writeBuf (fun _ => 0) 0 bytes
        length := 24 + tb.length + (recsBytes ies rs).length
        sequence := 0
        export_epoch := now
        odid := odid
        streamid := 0
        templates := []
        accepted_tids := []
        sequences := []
        setlist := [(16, 2, 4 + tb.length),
          (20 + tb.length, t.tid, 4 + (recsBytes ies rs).length)]
        auto_export_time := true
        cursetoff := 0
        cursetid := none
        curtmpl := none
        mtu := 65535 } [] = MRes.ok rs st3
  rw [hri1, hri2]

theorem C1_roundtrip_witness :
    ∃ stF, readBackOrdered
      [((0, 1), { name := "ie1", pen := 0, num := 1, length := 1
                  type := unsigned8T })]
      [0, 10, 0, 33, 0, 0, 0, 0, 0, 0, 0, 0, 0, 0, 0, 1, 0, 2, 0, 12,
       1, 0, 0, 1, 0, 1, 0, 1, 1, 0, 0, 5, 7] 4 =
      .ok [[PyVal.int 7]] stF :=
  C1_roundtrip
    [((0, 1), { name := "ie1", pen := 0, num := 1, length := 1
                type := unsigned8T })]
    1 256 0
    [{ name := "ie1", pen := 0, num := 1, length := 1
       type := unsigned8T }]
    { tid := 256
      ies := [{ name := "ie1", pen := 0, num := 1, length := 1
                type := unsigned8T }]
      minlength := 1
      enclength := 4
      scopecount := 0
      varlenslice := none
      packplan := some { indices := [0], els := [PlanEl.pk StEl.B]
                         valenc := [ValMap.identity]
                         valdec := [ValMap.identity] } }
    [[PyVal.int 7]]
    [0, 10, 0, 33, 0, 0, 0, 0, 0, 0, 0, 0, 0, 0, 0, 1, 0, 2, 0, 12,
     1, 0, 0, 1, 0, 1, 0, 1, 1, 0, 0, 5, 7] 4
    (by decide) (by decide) (by decide) (by decide) rfl rfl (by decide)

/-- The original C1 claim fails for a successfully exported message whose
template has no IEs: the decoder's data-set loop never advances
(`minlength` is 0), so iterating records diverges instead of yielding the
exported records. -/
theorem C1_counterexample :
    from_ielist 256 [] = some
      { tid := 256, ies := [], minlength := 0, enclength := 0
        scopecount := 0, varlenslice := none
        packplan := some { indices := [], els := [], valenc := []
                           valdec := [] } } ∧
    exportThenBytes 1
      { tid := 256, ies := [], minlength := 0, enclength := 0
        scopecount := 0, varlenslice := none
        packplan := some { indices := [], els := [], valenc := []
                           valdec := [] } } [[]] 0 =
      some [0, 10, 0, 28, 0, 0, 0, 0, 0, 0, 0, 0, 0, 0, 0, 1,
            0, 2, 0, 8, 1, 0, 0, 0, 1, 0, 0, 4] ∧
    readBackOrdered []
      [0, 10, 0, 28, 0, 0, 0, 0, 0, 0, 0, 0, 0, 0, 0, 1,
       0, 2, 0, 8, 1, 0, 0, 0, 1, 0, 0, 4] 20 = .hang :=
  ⟨rfl, rfl, rfl⟩
